import Mathlib

/-!
# Index-buffer preprocessing: `rpcs3/Emu/RSX/Common/BufferUtils.cpp`

A shallow embedding of the index upload kernels, the topology expanders, the
classification helpers and the facade `write_index_array_data_to_buffer`.

Conventions of the embedding.

* An index element of width 16 or 32 bits is a natural number; a value read
  from the guest stream is always below `2 ^ bits` because the byte swap only
  looks at the low bytes of the stored word.
* The source span is the list of its stored words.  Reading `src[i]` through the
  big-endian storage type yields `byteswap T` of the stored word.
* The destination span is a base pointer and an element count.  `std::span`
  does no bounds checking, so a store `dst[i] = v` is recorded as the pair
  `(i, v)` in a chronological store log, whatever `i` is; `written_back`
  replays a log over the previous contents of memory.
* `fmt::throw_exception` and a failed `ensure` are the result `none`.
* The destination span of the upload kernels also has a byte address, `dst_addr`.  The
  vector kernels of `primitive_restart_impl` store whole registers with the aligned store
  instructions (`_mm_store_si128`, `_mm256_store_si256`, `_mm512_store_si512`), which
  raise a general-protection fault when the address is not a multiple of the register
  size; such a fault is the result `none` as well.  Loads and the other stores of the
  file are unaligned or scalar and fault on no address.
* Element counters (`u32 written`, `u32 dst_idx`, loop indices) count elements
  of spans that hold fewer than `2 ^ 32` elements, so they never wrap and are
  natural numbers.  Arithmetic that can leave its range on small inputs
  (`src.size() - 2`, the body of `get_index_count`) is reduced modulo the width
  of its C++ type.
-/

namespace BufferUtils

/-- Element widths of an index array (`rsx::index_array_type`). -/
inductive index_array_type where
  | u16
  | u32
deriving DecidableEq

/-- Primitive topologies (`rsx::primitive_type`). -/
inductive primitive_type where
  | points
  | lines
  | line_loop
  | line_strip
  | triangles
  | triangle_strip
  | triangle_fan
  | quads
  | quad_strip
  | polygon
  | invalid
deriving DecidableEq

/-- Number of bits of the element type `T`. -/
def type_bits : index_array_type → Nat
  | .u16 => 16
  | .u32 => 32

/-- Size in bytes of the element type (`sizeof(T)`, `get_index_type_size`). -/
def get_index_type_size : index_array_type → Nat
  | .u16 => 2
  | .u32 => 4

/-- The value `index_limit<T>()`, that is `T(-1)`: all bits set. -/
def index_limit (T : index_array_type) : Nat := 2 ^ type_bits T - 1

/-- Modelled from the spec: the byte swap performed when a `be_t<u16>` (declared in
`util/to_endian.hpp`, not part of this file) is read on the little-endian host. -/
def bswap16 (x : Nat) : Nat := (x % 256) * 256 + (x / 256) % 256

/-- Modelled from the spec: the byte swap performed when a `be_t<u32>` is read, also
`stx::se_storage<u32>::swap`. -/
def bswap32 (x : Nat) : Nat :=
  (x % 256) * 16777216 + (x / 256 % 256) * 65536 + (x / 65536 % 256) * 256 + (x / 16777216) % 256

/-- Conversion of a stored `be_t<T>` word to `T`. -/
def byteswap : index_array_type → Nat → Nat
  | .u16, x => bswap16 x
  | .u32, x => bswap32 x

/-- Replays a store log over the contents `dst` of destination memory. -/
def written_back (log : List (Nat × Nat)) (dst : Nat → Nat) : Nat → Nat :=
  log.foldl (fun m s j => if j = s.1 then s.2 else m j) dst

/-- The tuple `(min_index, max_index, count)` returned by the upload kernels and the
expanders, together with the stores performed on the destination span. -/
structure upload_result where
  min_index : Nat
  max_index : Nat
  count : Nat
  stores : List (Nat × Nat)
deriving DecidableEq

/-- The helper `min_max(min, max, value)`: the updated `(min, max)`; the C++ function
returns `value` itself. -/
def min_max (min_index max_index value : Nat) : Nat × Nat :=
  (if value < min_index then value else min_index,
   if value > max_index then value else max_index)

/-- Runtime CPU capability flags `s_use_avx3`, `s_use_avx2`, `s_use_sse4_1`. -/
structure cpu_flags where
  s_use_avx3 : Bool
  s_use_avx2 : Bool
  s_use_sse4_1 : Bool
deriving DecidableEq

/-! ## `untouched_impl` -/

/-- The `while (count--)` loop of `untouched_impl::upload_untouched_naive`; the state is
`(written, max_index, min_index, stores)`. -/
def untouched_impl.upload_untouched_naive_loop (T : index_array_type) (src : List Nat) :
    Nat → Nat → Nat → Nat → List (Nat × Nat) → Nat × Nat × Nat × List (Nat × Nat)
  | 0, written, max_index, min_index, st => (written, max_index, min_index, st)
  | count + 1, written, max_index, min_index, st =>
    let index := byteswap T (src.getD written 0)
    let m := min_max min_index max_index index
    untouched_impl.upload_untouched_naive_loop T src count (written + 1) m.2 m.1
      (st ++ [(written, index)])

/-- The scalar reference `untouched_impl::upload_untouched_naive`: the packed `u64`
`(max_index << 32) | min_index` and the stores. -/
def untouched_impl.upload_untouched_naive (T : index_array_type) (src : List Nat)
    (count : Nat) : Nat × List (Nat × Nat) :=
  let r := untouched_impl.upload_untouched_naive_loop T src count 0 0 (index_limit T) []
  ((r.2.1 <<< 32) ||| r.2.2.1, r.2.2.2)

/-- Modelled from the spec: the kernels `upload_xi16` / `upload_xi32` are assembled at
start-up by `build_function_asm` (`Utilities/JIT.h`, not part of this file); the
generator itself falls back to `upload_untouched_naive`, the scalar reference whose
behaviour the generated kernel has. -/
def untouched_impl.upload_xi (T : index_array_type) (src : List Nat) (count : Nat) :
    Nat × List (Nat × Nat) :=
  untouched_impl.upload_untouched_naive T src count

/-- The wrapper `untouched_impl::upload_untouched`: unpacks the `u64` into `T` values. -/
def untouched_impl.upload_untouched (T : index_array_type) (src : List Nat) : upload_result :=
  let count := src.length
  let r := untouched_impl.upload_xi T src count
  { min_index := r.1 % 2 ^ type_bits T
    max_index := (r.1 >>> 32) % 2 ^ type_bits T
    count := count
    stores := r.2 }

/-! ## `primitive_restart_impl` -/

/-- Lane-wise state of a vector kernel: the registers `min`, `max` and the stores. -/
structure vec_state where
  vmin : List Nat
  vmax : List Nat
  stores : List (Nat × Nat)

/-- The unaligned vector load of `lanes` consecutive elements at element offset `off`. -/
def vec_load (src : List Nat) (off lanes : Nat) : List Nat :=
  (src.drop off).take lanes

/-- The register updates and the stored values of one iteration of the loop shared by
`upload_u16_swapped_sse4_1`, `upload_u16_swapped_avx2` and `upload_u32_swapped_sse4_1`:
unaligned load, byte-swap shuffle, `cmpeq` against the broadcast restart index (an
all-ones or all-zero lane), `andnot`, `or`, unsigned `max` / `min`, and the register
stored at element offset `lanes * n`. -/
def swapped_lanes (T : index_array_type) (lanes restart_index : Nat) (src : List Nat)
    (s : vec_state) (n : Nat) : vec_state :=
  let raw := vec_load src (lanes * n) lanes
  let value := raw.map (byteswap T)
  let mask := value.map (fun v => if restart_index = v then index_limit T else 0)
  let value_with_min_restart := List.zipWith (fun m v => (index_limit T ^^^ m) &&& v) mask value
  let value_with_max_restart := List.zipWith (fun m v => m ||| v) mask value
  { vmax := List.zipWith max s.vmax value_with_min_restart
    vmin := List.zipWith min s.vmin value_with_max_restart
    stores := s.stores ++ value_with_max_restart.enumFrom (lanes * n) }

/-- One iteration of that loop with its store.  The register of `lanes * sizeof(T)` bytes
is stored with the aligned `_mm_store_si128` / `_mm256_store_si256` at the byte address
`dst_addr + lanes * sizeof(T) * n`, `dst_addr` being the address of the destination span;
the store faults (`none`) unless that address is a multiple of the register size. -/
def swapped_step (T : index_array_type) (lanes restart_index : Nat) (src : List Nat)
    (dst_addr : Nat) (s : vec_state) (n : Nat) : Option vec_state :=
  if (dst_addr + lanes * get_index_type_size T * n) % (lanes * get_index_type_size T) = 0 then
    some (swapped_lanes T lanes restart_index src s n)
  else none

/-- The loop `for (unsigned n = 0; n < iterations; ++n)` of a vector kernel: the
iterations in order, ended by the first store that faults. -/
def vec_loop (step : vec_state → Nat → Option vec_state) (iterations : Nat)
    (s : vec_state) : Option vec_state :=
  (List.range iterations).foldl (fun acc n => acc.bind (fun st => step st n)) (some s)

/-- The horizontal minimum `sse41_hmin_epu16` of eight 16-bit lanes (`_mm_minpos_epu16`). -/
def sse41_hmin_epu16 (x : List Nat) : Nat := x.foldl min 0xFFFF

/-- The horizontal maximum `sse41_hmax_epu16`: the complement of the minimum of the
complemented lanes. -/
def sse41_hmax_epu16 (x : List Nat) : Nat :=
  0xFFFF - sse41_hmin_epu16 (x.map (fun v => 0xFFFF - v))

/-- The kernel `upload_u16_swapped_sse4_1`: eight lanes an iteration. -/
def primitive_restart_impl.upload_u16_swapped_sse4_1 (src : List Nat) (dst_addr : Nat)
    (iterations restart_index : Nat) : Option (Nat × Nat × List (Nat × Nat)) :=
  (vec_loop (swapped_step .u16 8 restart_index src dst_addr) iterations
    { vmin := List.replicate 8 0xFFFF, vmax := List.replicate 8 0, stores := [] }).map
    (fun s => (sse41_hmin_epu16 s.vmin, sse41_hmax_epu16 s.vmax, s.stores))

/-- The kernel `upload_u16_swapped_avx2`: sixteen lanes an iteration, the upper half of
each register folded onto the lower half before the horizontal reduction. -/
def primitive_restart_impl.upload_u16_swapped_avx2 (src : List Nat) (dst_addr : Nat)
    (iterations restart_index : Nat) : Option (Nat × Nat × List (Nat × Nat)) :=
  (vec_loop (swapped_step .u16 16 restart_index src dst_addr) iterations
    { vmin := List.replicate 16 0xFFFF, vmax := List.replicate 16 0, stores := [] }).map
    (fun s =>
      let min2 := List.zipWith min (s.vmin.take 8) (s.vmin.drop 8)
      let max2 := List.zipWith max (s.vmax.take 8) (s.vmax.drop 8)
      (sse41_hmin_epu16 min2, sse41_hmax_epu16 max2, s.stores))

/-- The byte shift `_mm_srli_si128` by `k` 32-bit lanes: zeros enter from the top. -/
def srli_si128 (v : List Nat) (k : Nat) : List Nat := v.drop k ++ List.replicate k 0

/-- The kernel `upload_u32_swapped_sse4_1`: four lanes an iteration, reduced by two
shift-and-fold rounds, the result taken from lane 0. -/
def primitive_restart_impl.upload_u32_swapped_sse4_1 (src : List Nat) (dst_addr : Nat)
    (iterations restart_index : Nat) : Option (Nat × Nat × List (Nat × Nat)) :=
  (vec_loop (swapped_step .u32 4 restart_index src dst_addr) iterations
    { vmin := List.replicate 4 0xFFFFFFFF, vmax := List.replicate 4 0, stores := [] }).map
    (fun s =>
      let min1 := List.zipWith min s.vmin (srli_si128 s.vmin 2)
      let min2 := List.zipWith min min1 (srli_si128 min1 1)
      let max1 := List.zipWith max s.vmax (srli_si128 s.vmax 2)
      let max2 := List.zipWith max max1 (srli_si128 max1 1)
      (min2.headD 0, max2.headD 0, s.stores))

/-- The register updates and the stored values of one full iteration of
`upload_u16_swapped_avx3`: the `cmpneq` lane mask selects the value over all-ones in the
blend and gates the masked `max` / `min`. -/
def avx3_lanes (restart_index : Nat) (src : List Nat) (s : vec_state) (n : Nat) : vec_state :=
  let raw := vec_load src (32 * n) 32
  let value := raw.map (byteswap .u16)
  let mask := value.map (fun v => decide (restart_index ≠ v))
  let value_with_max_restart := List.zipWith (fun (m : Bool) v => if m then v else 0xFFFF) mask value
  { vmax := List.zipWith (fun mx (p : Bool × Nat) => if p.1 then max mx p.2 else mx)
      s.vmax (mask.zip value)
    vmin := List.zipWith (fun mn (p : Bool × Nat) => if p.1 then min mn p.2 else mn)
      s.vmin (mask.zip value)
    stores := s.stores ++ value_with_max_restart.enumFrom (32 * n) }

/-- One full iteration of `upload_u16_swapped_avx3` with its store: the 64-byte register
is stored with the aligned `_mm512_store_si512` at the byte address `dst_addr + 64 * n`,
which faults (`none`) unless that address is a multiple of 64. -/
def avx3_step (restart_index : Nat) (src : List Nat) (dst_addr : Nat) (s : vec_state)
    (n : Nat) : Option vec_state :=
  if (dst_addr + 64 * n) % 64 = 0 then some (avx3_lanes restart_index src s n) else none

/-- The masked tail of `upload_u16_swapped_avx3` for the last `remainder` elements: lane
`j` is active when `remainder >= j + 1`; inactive lanes load zero and are not stored.  The
store is the unaligned `_mm512_mask_storeu_epi16`. -/
def avx3_remainder (restart_index : Nat) (src : List Nat) (iterations remainder : Nat)
    (s : vec_state) : vec_state :=
  let mask := (List.range 32).map (fun j => decide (remainder ≥ j + 1))
  let raw := (List.range 32).map
    (fun j => if remainder ≥ j + 1 then src.getD (32 * iterations + j) 0 else 0)
  let value := raw.map (byteswap .u16)
  let mask2 := value.map (fun v => decide (restart_index ≠ v))
  let mask3 := List.zipWith (fun a b => a && b) mask mask2
  let value_with_max_restart := List.zipWith (fun (m : Bool) v => if m then v else 0xFFFF) mask3 value
  { vmax := List.zipWith (fun mx (p : Bool × Nat) => if p.1 then max mx p.2 else mx)
      s.vmax (mask3.zip value)
    vmin := List.zipWith (fun mn (p : Bool × Nat) => if p.1 then min mn p.2 else mn)
      s.vmin (mask3.zip value)
    stores := s.stores ++
      ((value_with_max_restart.enumFrom (32 * iterations)).zip mask).filterMap
        (fun p => if p.2 then some p.1 else none) }

/-- The kernel `upload_u16_swapped_avx3`: thirty-two lanes an iteration, the remainder
handled inside the kernel, then the 512 to 256 to 128 bit reduction. -/
def primitive_restart_impl.upload_u16_swapped_avx3 (src : List Nat) (dst_addr : Nat)
    (count restart_index : Nat) : Option (Nat × Nat × List (Nat × Nat)) :=
  let iterations := count / 32
  (vec_loop (avx3_step restart_index src dst_addr) iterations
    { vmin := List.replicate 32 0xFFFF, vmax := List.replicate 32 0, stores := [] }).map
    (fun s0 =>
      let s := if iterations * 32 < count then
          avx3_remainder restart_index src iterations ((count - iterations * 32) % 65536) s0
        else s0
      let min2 := List.zipWith min (s.vmin.take 16) (s.vmin.drop 16)
      let min3 := List.zipWith min (min2.take 8) (min2.drop 8)
      let max2 := List.zipWith max (s.vmax.take 16) (s.vmax.drop 16)
      let max3 := List.zipWith max (max2.take 8) (max2.drop 8)
      (sse41_hmin_epu16 min3, sse41_hmax_epu16 max3, s.stores))

/-- The body of the scalar loop `for (u32 i = written; i < length; ++i)` of
`primitive_restart_impl::upload_untouched`. -/
def primitive_restart_impl.scalar_step (T : index_array_type) (src : List Nat)
    (restart_index : Nat) (skip_restart : Bool) (s : upload_result) (i : Nat) : upload_result :=
  let index := byteswap T (src.getD i 0)
  if index = restart_index then
    if !skip_restart then
      { s with stores := s.stores ++ [(s.count, index_limit T)], count := s.count + 1 }
    else s
  else
    let m := min_max s.min_index s.max_index index
    { min_index := m.1, max_index := m.2, count := s.count + 1
      stores := s.stores ++ [(s.count, index)] }

/-- The scalar loop over the indices `written .. length - 1`. -/
def primitive_restart_impl.scalar_loop (T : index_array_type) (src : List Nat)
    (restart_index : Nat) (skip_restart : Bool) (s : upload_result) : upload_result :=
  (List.range' s.count (src.length - s.count)).foldl
    (primitive_restart_impl.scalar_step T src restart_index skip_restart) s

/-- The function `primitive_restart_impl::upload_untouched`: a vector kernel over the
leading whole chunks when `length >= 32` and restarts are not skipped, then the scalar
loop.  `dst_addr` is the byte address of the destination span; a fault of a kernel's
aligned store ends the call (`none`). -/
def primitive_restart_impl.upload_untouched (cpu : cpu_flags) (T : index_array_type)
    (src : List Nat) (dst_addr : Nat) (restart_index : Nat) (skip_restart : Bool) :
    Option upload_result :=
  let length := src.length
  let s0 : upload_result :=
    { min_index := index_limit T, max_index := 0, count := 0, stores := [] }
  if length ≥ 32 && !skip_restart then
    match T with
    | .u16 =>
      if cpu.s_use_avx3 then
        (primitive_restart_impl.upload_u16_swapped_avx3 src dst_addr length restart_index).map
          (fun r => { min_index := r.1, max_index := r.2.1, count := length, stores := r.2.2 })
      else if cpu.s_use_avx2 then
        (primitive_restart_impl.upload_u16_swapped_avx2 src dst_addr (length >>> 4)
          restart_index).map
          (fun r => primitive_restart_impl.scalar_loop .u16 src restart_index skip_restart
            { min_index := r.1, max_index := r.2.1, count := length / 16 * 16
              stores := r.2.2 })
      else if cpu.s_use_sse4_1 then
        (primitive_restart_impl.upload_u16_swapped_sse4_1 src dst_addr (length >>> 3)
          restart_index).map
          (fun r => primitive_restart_impl.scalar_loop .u16 src restart_index skip_restart
            { min_index := r.1, max_index := r.2.1, count := length / 8 * 8
              stores := r.2.2 })
      else some (primitive_restart_impl.scalar_loop .u16 src restart_index skip_restart s0)
    | .u32 =>
      if cpu.s_use_sse4_1 then
        (primitive_restart_impl.upload_u32_swapped_sse4_1 src dst_addr (length >>> 2)
          restart_index).map
          (fun r => primitive_restart_impl.scalar_loop .u32 src restart_index skip_restart
            { min_index := r.1, max_index := r.2.1, count := length / 4 * 4
              stores := r.2.2 })
      else some (primitive_restart_impl.scalar_loop .u32 src restart_index skip_restart s0)
  else some (primitive_restart_impl.scalar_loop T src restart_index skip_restart s0)

/-- The classification `is_primitive_disjointed`. -/
def is_primitive_disjointed : primitive_type → Bool
  | .line_loop => false
  | .line_strip => false
  | .polygon => false
  | .quad_strip => false
  | .triangle_fan => false
  | .triangle_strip => false
  | _ => true

/-- The dispatcher `upload_untouched<T>`; `dst_addr` is the byte address of the
destination span.  The untouched kernel stores unaligned and so returns on every
address. -/
def upload_untouched (cpu : cpu_flags) (T : index_array_type) (src : List Nat)
    (dst_addr : Nat) (draw_mode : primitive_type) (is_primitive_restart_enabled : Bool)
    (primitive_restart_index : Nat) : Option upload_result :=
  if !is_primitive_restart_enabled then
    some (untouched_impl.upload_untouched T src)
  else
    match T with
    | .u16 =>
      if primitive_restart_index > 0xffff then
        some (untouched_impl.upload_untouched .u16 src)
      else
        primitive_restart_impl.upload_untouched cpu .u16 src dst_addr
          (primitive_restart_index % 65536) (is_primitive_disjointed draw_mode)
    | .u32 =>
      primitive_restart_impl.upload_untouched cpu .u32 src dst_addr primitive_restart_index
        (is_primitive_disjointed draw_mode)

/-! ## Topology expanders -/

/-- Loop state of `expand_indexed_triangle_fan`. -/
structure fan_state where
  min_index : Nat
  max_index : Nat
  dst_idx : Nat
  needs_anchor : Bool
  anchor : Nat
  last_index : Nat
  stores : List (Nat × Nat)

/-- The body of the loop `for (const T index : src)` of `expand_indexed_triangle_fan`;
`raw` is the stored word, `index` its byte-swapped value. -/
def expand_indexed_triangle_fan_step (T : index_array_type)
    (is_primitive_restart_enabled : Bool) (primitive_restart_index : Nat)
    (s : fan_state) (raw : Nat) : fan_state :=
  let index := byteswap T raw
  if s.needs_anchor then
    if is_primitive_restart_enabled && index == primitive_restart_index then s
    else
      let m := min_max s.min_index s.max_index index
      { s with min_index := m.1, max_index := m.2, anchor := index, needs_anchor := false }
  else if is_primitive_restart_enabled && index == primitive_restart_index then
    { s with needs_anchor := true, last_index := index_limit T }
  else if s.last_index = index_limit T then
    let m := min_max s.min_index s.max_index index
    { s with min_index := m.1, max_index := m.2, last_index := index }
  else
    let m := min_max s.min_index s.max_index index
    { s with
      min_index := m.1, max_index := m.2, last_index := index, dst_idx := s.dst_idx + 3
      stores := s.stores ++
        [(s.dst_idx, s.anchor), (s.dst_idx + 1, s.last_index), (s.dst_idx + 2, index)] }

/-- The expander `expand_indexed_triangle_fan`.  The capacity check
`ensure(dst.size() >= 3 * (src.size() - 2))` is evaluated in 64-bit `size_t`. -/
def expand_indexed_triangle_fan (T : index_array_type) (src : List Nat) (dst_size : Nat)
    (is_primitive_restart_enabled : Bool) (primitive_restart_index : Nat) :
    Option upload_result :=
  if dst_size ≥ (3 * ((src.length + 2 ^ 64 - 2) % 2 ^ 64)) % 2 ^ 64 then
    let s := src.foldl
      (expand_indexed_triangle_fan_step T is_primitive_restart_enabled primitive_restart_index)
      { min_index := index_limit T, max_index := 0, dst_idx := 0, needs_anchor := true
        anchor := index_limit T, last_index := index_limit T, stores := [] }
    some { min_index := s.min_index, max_index := s.max_index, count := s.dst_idx
           stores := s.stores }
  else none

/-- Loop state of `expand_indexed_quads`; `tmp_indices` is the four-slot buffer. -/
structure quads_state where
  min_index : Nat
  max_index : Nat
  dst_idx : Nat
  set_size : Nat
  tmp_indices : List Nat
  stores : List (Nat × Nat)

/-- The body of the loop `for (const T index : src)` of `expand_indexed_quads`. -/
def expand_indexed_quads_step (T : index_array_type)
    (is_primitive_restart_enabled : Bool) (primitive_restart_index : Nat)
    (s : quads_state) (raw : Nat) : quads_state :=
  let index := byteswap T raw
  if is_primitive_restart_enabled && index == primitive_restart_index then
    { s with set_size := 0 }
  else
    let m := min_max s.min_index s.max_index index
    let tmp := s.tmp_indices.set s.set_size index
    let set_size := s.set_size + 1
    if set_size = 4 then
      { min_index := m.1, max_index := m.2, dst_idx := s.dst_idx + 6, set_size := 0
        tmp_indices := tmp
        stores := s.stores ++
          [(s.dst_idx, tmp.getD 0 0), (s.dst_idx + 1, tmp.getD 1 0), (s.dst_idx + 2, tmp.getD 2 0),
           (s.dst_idx + 3, tmp.getD 2 0), (s.dst_idx + 4, tmp.getD 3 0),
           (s.dst_idx + 5, tmp.getD 0 0)] }
    else
      { s with min_index := m.1, max_index := m.2, set_size := set_size, tmp_indices := tmp }

/-- The expander `expand_indexed_quads`, with its capacity check
`ensure(4 * dst.size_bytes() >= 6 * src.size_bytes())`. -/
def expand_indexed_quads (T : index_array_type) (src : List Nat) (dst_size : Nat)
    (is_primitive_restart_enabled : Bool) (primitive_restart_index : Nat) :
    Option upload_result :=
  if 4 * (dst_size * get_index_type_size T) ≥ 6 * (src.length * get_index_type_size T) then
    let s := src.foldl
      (expand_indexed_quads_step T is_primitive_restart_enabled primitive_restart_index)
      { min_index := index_limit T, max_index := 0, dst_idx := 0, set_size := 0
        tmp_indices := [0, 0, 0, 0], stores := [] }
    some { min_index := s.min_index, max_index := s.max_index, count := s.dst_idx
           stores := s.stores }
  else none

/-! ## Classification helpers -/

/-- The classification `is_primitive_native`; `none` is the thrown
"Wrong primitive type". -/
def is_primitive_native : primitive_type → Option Bool
  | .points => some true
  | .lines => some true
  | .line_strip => some true
  | .triangles => some true
  | .triangle_strip => some true
  | .quad_strip => some true
  | .line_loop => some false
  | .polygon => some false
  | .triangle_fan => some false
  | .quads => some false
  | .invalid => none

/-- The size formula `get_index_count`, in `u32` arithmetic. -/
def get_index_count (draw_mode : primitive_type) (initial_index_count : Nat) : Option Nat :=
  match is_primitive_native draw_mode with
  | none => none
  | some true => some initial_index_count
  | some false =>
    match draw_mode with
    | .line_loop => some ((initial_index_count + 1) % 2 ^ 32)
    | .polygon => some ((((initial_index_count + 2 ^ 32 - 2) % 2 ^ 32) * 3) % 2 ^ 32)
    | .triangle_fan => some ((((initial_index_count + 2 ^ 32 - 2) % 2 ^ 32) * 3) % 2 ^ 32)
    | .quads => some (((6 * initial_index_count) % 2 ^ 32) / 4)
    | _ => some 0

/-! ## Facade -/

/-- The typed path `write_index_array_data_to_buffer_impl<T>`; `dst_addr` is the byte
address and `dst_size` the element count of the destination span. -/
def write_index_array_data_to_buffer_impl (cpu : cpu_flags) (T : index_array_type)
    (dst_addr dst_size : Nat) (src : List Nat) (draw_mode : primitive_type)
    (restart_index_enabled : Bool) (restart_index : Nat)
    (expands : primitive_type → Bool) : Option upload_result :=
  if !expands draw_mode then
    upload_untouched cpu T src dst_addr draw_mode restart_index_enabled restart_index
  else
    match draw_mode with
    | .line_loop =>
      (upload_untouched cpu T src dst_addr draw_mode restart_index_enabled restart_index).map
        (fun returnvalue =>
          let index_count := dst_size * get_index_type_size T / get_index_type_size T
          { returnvalue with
            stores := returnvalue.stores ++ [(index_count, byteswap T (src.getD 0 0))] })
    | .polygon => expand_indexed_triangle_fan T src dst_size restart_index_enabled restart_index
    | .triangle_fan =>
      expand_indexed_triangle_fan T src dst_size restart_index_enabled restart_index
    | .quads => expand_indexed_quads T src dst_size restart_index_enabled restart_index
    | _ => none

/-- The facade `write_index_array_data_to_buffer`.  `dst_addr` is the byte address and
`dst_bytes` the byte size of the destination span, `src` the source span viewed as words
of the selected width (`utils::bless`); the returned tuple is widened to `u32`. -/
def write_index_array_data_to_buffer (cpu : cpu_flags) (dst_addr dst_bytes : Nat)
    (src : List Nat) (type : index_array_type) (draw_mode : primitive_type)
    (restart_index_enabled : Bool) (restart_index : Nat)
    (expands : primitive_type → Bool) : Option upload_result :=
  match type with
  | .u16 =>
    write_index_array_data_to_buffer_impl cpu .u16 dst_addr (dst_bytes / 2) src draw_mode
      restart_index_enabled restart_index expands
  | .u32 =>
    write_index_array_data_to_buffer_impl cpu .u32 dst_addr (dst_bytes / 4) src draw_mode
      restart_index_enabled restart_index expands

/-! ## Auxiliary definitions used to state the closed forms -/

/-- The value stored for `v` in joined mode: the all-ones sentinel for a restart marker. -/
def with_sentinel (T : index_array_type) (restart_index v : Nat) : Nat :=
  if v = restart_index then index_limit T else v

/-- The value folded into `max` by the vector kernels: zero for a restart marker. -/
def without_marker (restart_index v : Nat) : Nat :=
  if v = restart_index then 0 else v

/-- The result the scalar loop of `primitive_restart_impl::upload_untouched` computes from
the state `s` over the byte-swapped values `vals`: markers are dropped (`skip_restart`)
or replaced by the all-ones sentinel, the other values are folded into `min` / `max`. -/
def restart_fold (T : index_array_type) (restart_index : Nat) (skip_restart : Bool)
    (s : upload_result) (vals : List Nat) : upload_result :=
  let kept := vals.filter (fun v => decide (v ≠ restart_index))
  let out := if skip_restart then kept else vals.map (with_sentinel T restart_index)
  { min_index := kept.foldl min s.min_index
    max_index := kept.foldl max s.max_index
    count := s.count + out.length
    stores := s.stores ++ out.enumFrom s.count }

/-- The alignment in bytes the aligned store of the vector kernel selected by the CPU
flags asks of the destination address: 64 for AVX-512, 32 for AVX2, 16 for SSE4.1, and 1
when no kernel is selected. -/
def store_alignment (cpu : cpu_flags) : index_array_type → Nat
  | .u16 =>
    if cpu.s_use_avx3 then 64 else if cpu.s_use_avx2 then 32
    else if cpu.s_use_sse4_1 then 16 else 1
  | .u32 => if cpu.s_use_sse4_1 then 16 else 1

/-- Whether the vector path of `primitive_restart_impl::upload_untouched` is taken and its
first aligned store faults: a stream of at least 32 elements, restarts not skipped, and a
destination address that is not a multiple of the selected kernel's alignment. -/
def vector_store_faults (cpu : cpu_flags) (T : index_array_type) (length dst_addr : Nat)
    (skip_restart : Bool) : Bool :=
  decide (length ≥ 32) && !skip_restart && decide (dst_addr % store_alignment cpu T ≠ 0)

/-- Well-formed vector registers: `lanes` lanes, each within the element range. -/
def lanes_ok (T : index_array_type) (lanes : Nat) (s : vec_state) : Prop :=
  s.vmin.length = lanes ∧ s.vmax.length = lanes ∧
  (∀ x ∈ s.vmin, x ≤ index_limit T) ∧ (∀ x ∈ s.vmax, x ≤ index_limit T)

/-- The lane-wise effect of one vector iteration, in terms of the values stored and
folded. -/
def normal_step (T : index_array_type) (lanes restart_index : Nat) (src : List Nat)
    (s : vec_state) (n : Nat) : vec_state :=
  let value := (vec_load src (lanes * n) lanes).map (byteswap T)
  { vmin := List.zipWith min s.vmin (value.map (with_sentinel T restart_index))
    vmax := List.zipWith max s.vmax (value.map (without_marker restart_index))
    stores := s.stores ++ (value.map (with_sentinel T restart_index)).enumFrom (lanes * n) }

/-- The triangles `(anchor, last, x)` a fan emits for the indices `x` that follow the first
outer index `last`, each `x` becoming the next `last`. -/
def fan_triangles (anchor : Nat) : Nat → List Nat → List Nat
  | _, [] => []
  | last, x :: xs => anchor :: last :: x :: fan_triangles anchor x xs

/-- The two triangles `(v0, v1, v2)`, `(v2, v3, v0)` of a group `(v0, v1, v2, v3)`. -/
def two_triangles (g : List Nat) : List Nat :=
  [g.getD 0 0, g.getD 1 0, g.getD 2 0, g.getD 2 0, g.getD 3 0, g.getD 0 0]

/-- The complete groups of four of a run, in arrival order; a trailing group of fewer than
four indices is left out. -/
def groups_of_four : List Nat → List (List Nat)
  | v0 :: v1 :: v2 :: v3 :: rest => [v0, v1, v2, v3] :: groups_of_four rest
  | _ => []

/-- The maximal marker-free runs of a stream, in order: the stream split at each element
for which `is_marker` holds. -/
def marker_free_runs (is_marker : Nat → Bool) : List Nat → List (List Nat)
  | [] => [[]]
  | x :: xs =>
    if is_marker x then [] :: marker_free_runs is_marker xs
    else
      match marker_free_runs is_marker xs with
      | [] => [[x]]
      | run :: runs => (x :: run) :: runs

/-- The complete groups of four of a stream: those of each marker-free run, in order. -/
def complete_groups (is_marker : Nat → Bool) (vals : List Nat) : List (List Nat) :=
  (marker_free_runs is_marker vals).flatMap groups_of_four

/-- The complete groups of four of a stream when the indices `pending` are already held
in the group buffer: they head the first run. -/
def pending_groups (is_marker : Nat → Bool) (pending vals : List Nat) : List (List Nat) :=
  match marker_free_runs is_marker vals with
  | [] => groups_of_four pending
  | run :: runs => groups_of_four (pending ++ run) ++ runs.flatMap groups_of_four

/-! ## Byte-swap copy and the non-indexed generator -/

/-- Loop state of `copy_data_swap_u32_naive`: the accumulator `result` and the stores. -/
structure copy_state where
  result : Nat
  stores : List (Nat × Nat)

/-- The body of the loop of `copy_data_swap_u32_naive<Compare>`.  `dst` is the content of
the destination array before the call; `dst[i]` is read through the stores made so far.
All operands are 32-bit words, which `^` and `|` keep in range. -/
def copy_data_swap_u32_naive_step (Compare : Bool) (dst : Nat → Nat) (src : List Nat)
    (s : copy_state) (i : Nat) : copy_state :=
  let data := bswap32 (src.getD i 0)
  { result := if Compare then s.result ||| (data ^^^ written_back s.stores dst i) else s.result
    stores := s.stores ++ [(i, data)] }

/-- The scalar copy `copy_data_swap_u32_naive<Compare>`: the returned flag
`static_cast<bool>(result)` (nothing is returned without `Compare`) and the stores. -/
def copy_data_swap_u32_naive (Compare : Bool) (dst : Nat → Nat) (src : List Nat)
    (count : Nat) : Option Bool × List (Nat × Nat) :=
  let s := (List.range count).foldl (copy_data_swap_u32_naive_step Compare dst src)
    { result := 0, stores := [] }
  (if Compare then some (decide (s.result ≠ 0)) else none, s.stores)

/-- The generator `write_index_array_for_non_indexed_non_native_primitive_to_buffer`: the
stores on the 16-bit destination, `none` for the two thrown errors.  Loop bounds and
positions are `unsigned` (32 bits), stored values are truncated to `u16`. -/
def write_index_array_for_non_indexed_non_native_primitive_to_buffer
    (draw_mode : primitive_type) (count : Nat) : Option (List (Nat × Nat)) :=
  match draw_mode with
  | .line_loop =>
    some ((List.range count).foldl (fun st i => st ++ [(i, i % 65536)]) [] ++ [(count, 0)])
  | .triangle_fan =>
    some ((List.range ((count + 2 ^ 32 - 2) % 2 ^ 32)).foldl
      (fun st i => st ++ [((3 * i) % 2 ^ 32, 0), ((3 * i + 1) % 2 ^ 32, (i + 2 - 1) % 65536),
        ((3 * i + 2) % 2 ^ 32, (i + 2) % 65536)]) [])
  | .polygon =>
    some ((List.range ((count + 2 ^ 32 - 2) % 2 ^ 32)).foldl
      (fun st i => st ++ [((3 * i) % 2 ^ 32, 0), ((3 * i + 1) % 2 ^ 32, (i + 2 - 1) % 65536),
        ((3 * i + 2) % 2 ^ 32, (i + 2) % 65536)]) [])
  | .quads =>
    some ((List.range (count / 4)).foldl
      (fun st i => st ++ [((6 * i) % 2 ^ 32, (4 * i) % 65536),
        ((6 * i + 1) % 2 ^ 32, (4 * i + 1) % 65536),
        ((6 * i + 2) % 2 ^ 32, (4 * i + 2) % 65536),
        ((6 * i + 3) % 2 ^ 32, (4 * i + 2) % 65536),
        ((6 * i + 4) % 2 ^ 32, (4 * i + 3) % 65536),
        ((6 * i + 5) % 2 ^ 32, (4 * i) % 65536)]) [])
  | .quad_strip => none
  | .points => none
  | .lines => none
  | .line_strip => none
  | .triangles => none
  | .triangle_strip => none
  | .invalid => none

/-- The fan of a run, in the words of the specification: the triangles
`(r[0], r[k+1], r[k+2])` for `k < |r| - 2`; a run of fewer than three indices gives none. -/
def run_fan (r : List Nat) : List Nat :=
  (List.range (r.length - 2)).flatMap (fun k => [r.getD 0 0, r.getD (k + 1) 0, r.getD (k + 2) 0])

/-- The fan of a run by recursion: anchor, first outer index, then `fan_triangles`. -/
def fan_of_run : List Nat → List Nat
  | a :: l :: xs => fan_triangles a l xs
  | _ => []

/-- The fan triangles of a stream when the indices `pending` (none, the anchor, or the
anchor and the last outer index) are already held: they head the first run. -/
def pending_fan (is_marker : Nat → Bool) (pending vals : List Nat) : List Nat :=
  match marker_free_runs is_marker vals with
  | [] => fan_of_run pending
  | run :: runs => fan_of_run (pending ++ run) ++ runs.flatMap fan_of_run

/-- Invariant of the fan loop after `k` indices have been read: no index has been read
that the loop state does not account for, `3 * (k - 2)` bounds the write position once a
triangle has been stored, and every store went below the write position. -/
def fan_bound_inv (T : index_array_type) (s : fan_state) (k : Nat) : Prop :=
  (s.needs_anchor = true → s.last_index = index_limit T) ∧
  (s.needs_anchor = false → 1 ≤ k) ∧
  (s.needs_anchor = false → s.last_index ≠ index_limit T → 2 ≤ k) ∧
  (s.dst_idx = 0 ∨ s.dst_idx + 6 ≤ 3 * k) ∧
  (∀ p ∈ s.stores, p.1 < s.dst_idx)

/-- Invariant of the fan loop: every stored value, the anchor in use and the last outer
index lie between the running `min` and `max`. -/
def fan_range_inv (T : index_array_type) (s : fan_state) : Prop :=
  (∀ p ∈ s.stores, s.min_index ≤ p.2 ∧ p.2 ≤ s.max_index) ∧
  (s.needs_anchor = false → s.min_index ≤ s.anchor ∧ s.anchor ≤ s.max_index) ∧
  (s.last_index ≠ index_limit T → s.min_index ≤ s.last_index ∧ s.last_index ≤ s.max_index)

/-- Invariant of the quad loop: the group buffer has four slots of which fewer than four are
pending, and every stored value and every pending index lies between the running `min` and
`max`. -/
def quads_range_inv (s : quads_state) : Prop :=
  s.tmp_indices.length = 4 ∧ s.set_size < 4 ∧
  (∀ p ∈ s.stores, s.min_index ≤ p.2 ∧ p.2 ≤ s.max_index) ∧
  (∀ j, j < s.set_size →
    s.min_index ≤ s.tmp_indices.getD j 0 ∧ s.tmp_indices.getD j 0 ≤ s.max_index)

/-- The indices of the current run the fan loop still holds in state `s`: none while it
seeks an anchor, the anchor, or the anchor and the last outer index. -/
def fan_pending (T : index_array_type) (s : fan_state) : List Nat :=
  if s.needs_anchor then []
  else if s.last_index = index_limit T then [s.anchor]
  else [s.anchor, s.last_index]

/-- Invariant of the fan loop for a property `Q` of indices: every stored value, the anchor
in use and the last outer index have `Q`, and the write position is a multiple of three. -/
def fan_store_inv (Q : Nat → Prop) (T : index_array_type) (s : fan_state) : Prop :=
  (∀ p ∈ s.stores, Q p.2) ∧
  (s.needs_anchor = false → Q s.anchor) ∧
  (s.last_index ≠ index_limit T → Q s.last_index) ∧
  3 ∣ s.dst_idx

/-- Invariant of the quad loop for a property `Q` of indices: every stored value and every
pending index of the group buffer has `Q`, and the write position is a multiple of six. -/
def quads_store_inv (Q : Nat → Prop) (s : quads_state) : Prop :=
  s.tmp_indices.length = 4 ∧ s.set_size < 4 ∧
  (∀ p ∈ s.stores, Q p.2) ∧
  (∀ j, j < s.set_size → Q (s.tmp_indices.getD j 0)) ∧
  6 ∣ s.dst_idx

/-! ## Arithmetic and list lemmas -/

theorem bswap16_lt (x : Nat) : bswap16 x < 2 ^ 16 := by
  unfold bswap16; omega

theorem bswap32_lt (x : Nat) : bswap32 x < 2 ^ 32 := by
  unfold bswap32; omega

theorem byteswap_lt (T : index_array_type) (x : Nat) : byteswap T x < 2 ^ type_bits T := by
  cases T
  · exact bswap16_lt x
  · exact bswap32_lt x

theorem index_limit_succ (T : index_array_type) : index_limit T + 1 = 2 ^ type_bits T := by
  cases T <;> rfl

theorem byteswap_le_limit (T : index_array_type) (x : Nat) : byteswap T x ≤ index_limit T := by
  have h1 := byteswap_lt T x
  have h2 := index_limit_succ T
  omega

theorem min_max_eq (mn mx v : Nat) : min_max mn mx v = (min mn v, max mx v) := by
  unfold min_max
  ext
  · simp only; split <;> omega
  · simp only; split <;> omega

theorem foldl_min_le (l : List Nat) : ∀ a : Nat, l.foldl min a ≤ a := by
  induction l with
  | nil => intro a; simp
  | cons x l ih =>
    intro a
    have := ih (min a x)
    simp only [List.foldl_cons]
    omega

theorem foldl_min_shift (t : Nat) (l : List Nat) :
    ∀ a : Nat, a ≤ t → l.foldl min a = min a (l.foldl min t) := by
  induction l with
  | nil => intro a h; simp; omega
  | cons x l ih =>
    intro a h
    simp only [List.foldl_cons]
    rw [ih (min a x) (by omega), ih (min t x) (by omega)]
    omega

theorem foldl_max_shift (l : List Nat) :
    ∀ a : Nat, l.foldl max a = max a (l.foldl max 0) := by
  induction l with
  | nil => intro a; simp
  | cons x l ih =>
    intro a
    simp only [List.foldl_cons]
    rw [ih (max a x), ih (max 0 x)]
    omega

theorem foldl_min_le_of_mem (l : List Nat) :
    ∀ (a v : Nat), v ∈ l → l.foldl min a ≤ v := by
  induction l with
  | nil => intro a v h; simp at h
  | cons x l ih =>
    intro a v h
    simp only [List.foldl_cons]
    rcases List.mem_cons.mp h with h | h
    · have := foldl_min_le l (min a x)
      omega
    · exact ih _ v h

theorem le_foldl_max (l : List Nat) : ∀ a : Nat, a ≤ l.foldl max a := by
  induction l with
  | nil => intro a; simp
  | cons x l ih =>
    intro a
    have := ih (max a x)
    simp only [List.foldl_cons]
    omega

theorem le_foldl_max_of_mem (l : List Nat) :
    ∀ (a v : Nat), v ∈ l → v ≤ l.foldl max a := by
  induction l with
  | nil => intro a v h; simp at h
  | cons x l ih =>
    intro a v h
    simp only [List.foldl_cons]
    rcases List.mem_cons.mp h with h | h
    · have := le_foldl_max l (max a x)
      omega
    · exact ih _ v h

theorem foldl_min_eq_or_mem (l : List Nat) :
    ∀ a : Nat, l.foldl min a = a ∨ l.foldl min a ∈ l := by
  induction l with
  | nil => intro a; simp
  | cons x l ih =>
    intro a
    simp only [List.foldl_cons]
    rcases ih (min a x) with h | h
    · rcases Nat.le_total a x with hax | hax
      · left; rw [h]; omega
      · right; rw [h]; simp; left; omega
    · right; exact List.mem_cons_of_mem _ h

theorem foldl_max_eq_or_mem (l : List Nat) :
    ∀ a : Nat, l.foldl max a = a ∨ l.foldl max a ∈ l := by
  induction l with
  | nil => intro a; simp
  | cons x l ih =>
    intro a
    simp only [List.foldl_cons]
    rcases ih (max a x) with h | h
    · rcases Nat.le_total a x with hax | hax
      · right; rw [h]; simp; left; omega
      · left; rw [h]; omega
    · right; exact List.mem_cons_of_mem _ h

/-- The fold of `min` from a bound of a non-empty list is an element of the list. -/
theorem foldl_min_mem (t : Nat) (l : List Nat) (hne : l ≠ []) (hb : ∀ v ∈ l, v ≤ t) :
    l.foldl min t ∈ l := by
  rcases foldl_min_eq_or_mem l t with h | h
  · obtain ⟨x, hx⟩ := List.exists_mem_of_ne_nil l hne
    have h1 := foldl_min_le_of_mem l t x hx
    have h2 := hb x hx
    have : x = l.foldl min t := by omega
    rw [← this]; exact hx
  · exact h

/-- The fold of `max` from zero of a non-empty list is an element of the list. -/
theorem foldl_max_mem (l : List Nat) (hne : l ≠ []) : l.foldl max 0 ∈ l := by
  rcases foldl_max_eq_or_mem l 0 with h | h
  · obtain ⟨x, hx⟩ := List.exists_mem_of_ne_nil l hne
    have h1 := le_foldl_max_of_mem l 0 x hx
    have : x = l.foldl max 0 := by omega
    rw [← this]; exact hx
  · exact h

theorem written_back_append (a b : List (Nat × Nat)) (d : Nat → Nat) :
    written_back (a ++ b) d = written_back b (written_back a d) := by
  simp [written_back, List.foldl_append]

theorem written_back_enumFrom (l : List Nat) :
    ∀ (k : Nat) (d : Nat → Nat) (i : Nat),
      written_back (l.enumFrom k) d i =
        if k ≤ i ∧ i < k + l.length then l.getD (i - k) 0 else d i := by
  induction l with
  | nil =>
    intro k d i
    have h3 : ¬ (k ≤ i ∧ i < k + ([] : List Nat).length) := by
      rw [List.length_nil]; omega
    rw [if_neg h3]; rfl
  | cons x l ih =>
    intro k d i
    have h := ih (k + 1) (fun j => if j = k then x else d j) i
    simp only [written_back, List.enumFrom_cons, List.foldl_cons] at h ⊢
    rw [h, List.length_cons]
    clear h ih
    by_cases h1 : i = k
    · subst h1
      have h2 : ¬ (i + 1 ≤ i ∧ i < i + 1 + l.length) := by omega
      have h3 : i ≤ i ∧ i < i + (l.length + 1) := by omega
      rw [if_neg h2, if_pos h3, Nat.sub_self]
      simp
    · by_cases h2 : k + 1 ≤ i ∧ i < k + 1 + l.length
      · have h3 : k ≤ i ∧ i < k + (l.length + 1) := by omega
        rw [if_pos h2, if_pos h3]
        obtain ⟨j, hj⟩ : ∃ j, i - k = j + 1 := ⟨i - k - 1, by omega⟩
        have hj2 : i - (k + 1) = j := by omega
        rw [hj, hj2, List.getD_cons_succ]
      · have h3 : ¬ (k ≤ i ∧ i < k + (l.length + 1)) := by omega
        rw [if_neg h2, if_neg h3, if_neg h1]

/-! ## The untouched upload in closed form -/

theorem pack_unpack (T : index_array_type) (mn mx : Nat)
    (hmn : mn < 2 ^ type_bits T) (hmx : mx < 2 ^ type_bits T) :
    ((mx <<< 32) ||| mn) % 2 ^ type_bits T = mn ∧
    (((mx <<< 32) ||| mn) >>> 32) % 2 ^ type_bits T = mx := by
  have h32 : mn < 2 ^ 32 := by
    cases T
    · exact lt_trans hmn (by decide)
    · exact hmn
  have h := Nat.mul_add_lt_is_or h32 mx
  rw [Nat.shiftLeft_eq, Nat.mul_comm, ← h, Nat.shiftRight_eq_div_pow]
  cases T
  · simp only [type_bits] at hmn hmx ⊢
    omega
  · simp only [type_bits] at hmn hmx ⊢
    omega

theorem naive_loop_eq (T : index_array_type) (src : List Nat) :
    ∀ (count written mx mn : Nat) (st : List (Nat × Nat)), written + count ≤ src.length →
      untouched_impl.upload_untouched_naive_loop T src count written mx mn st =
        (written + count,
         (((src.drop written).take count).map (byteswap T)).foldl max mx,
         (((src.drop written).take count).map (byteswap T)).foldl min mn,
         st ++ (((src.drop written).take count).map (byteswap T)).enumFrom written) := by
  intro count
  induction count with
  | zero => intro written mx mn st _; simp [untouched_impl.upload_untouched_naive_loop]
  | succ count ih =>
    intro written mx mn st h
    have hlt : written < src.length := by omega
    rw [untouched_impl.upload_untouched_naive_loop]
    simp only [min_max_eq]
    rw [ih (written + 1) _ _ _ (by omega)]
    rw [List.drop_eq_getElem_cons hlt, List.take_succ_cons, List.getD_eq_getElem _ _ hlt]
    simp only [List.map_cons, List.foldl_cons, List.enumFrom_cons, List.append_assoc,
      List.singleton_append]
    congr 1
    omega

/-- Closed form of `untouched_impl::upload_untouched`. -/
theorem untouched_upload_eq (T : index_array_type) (src : List Nat) :
    untouched_impl.upload_untouched T src =
      { min_index := (src.map (byteswap T)).foldl min (index_limit T)
        max_index := (src.map (byteswap T)).foldl max 0
        count := src.length
        stores := (src.map (byteswap T)).enumFrom 0 } := by
  have hloop := naive_loop_eq T src src.length 0 0 (index_limit T) [] (by omega)
  simp only [List.drop_zero, List.take_length, Nat.zero_add, List.nil_append] at hloop
  have hmn : (src.map (byteswap T)).foldl min (index_limit T) < 2 ^ type_bits T := by
    have := foldl_min_le (src.map (byteswap T)) (index_limit T)
    have := index_limit_succ T
    omega
  have hmx : (src.map (byteswap T)).foldl max 0 < 2 ^ type_bits T := by
    rcases foldl_max_eq_or_mem (src.map (byteswap T)) 0 with h | h
    · rw [h]; exact Nat.two_pow_pos _
    · obtain ⟨x, _, hx⟩ := List.mem_map.mp h
      rw [← hx]; exact byteswap_lt T x
  have hp := pack_unpack T _ _ hmn hmx
  simp only [untouched_impl.upload_untouched, untouched_impl.upload_xi,
    untouched_impl.upload_untouched_naive, hloop, hp.1, hp.2]

/-! ## The restart-aware upload in closed form -/

theorem scalar_steps_eq (T : index_array_type) (src : List Nat) (r : Nat) (skip : Bool) :
    ∀ (len i : Nat) (s : upload_result), i + len ≤ src.length →
      (List.range' i len).foldl (primitive_restart_impl.scalar_step T src r skip) s =
        restart_fold T r skip s (((src.drop i).take len).map (byteswap T)) := by
  intro len
  induction len with
  | zero =>
    intro i s _
    cases skip <;> simp [restart_fold]
  | succ len ih =>
    intro i s h
    have hlt : i < src.length := by omega
    rw [List.range'_succ, List.foldl_cons, ih (i + 1) _ (by omega)]
    rw [List.drop_eq_getElem_cons hlt, List.take_succ_cons, List.map_cons]
    unfold primitive_restart_impl.scalar_step
    rw [List.getD_eq_getElem _ _ hlt]
    by_cases hr : byteswap T src[i] = r
    · cases skip
      · simp [restart_fold, with_sentinel, hr, List.enumFrom_cons, Nat.add_assoc, Nat.add_comm 1]
      · simp [restart_fold, hr]
    · cases skip
      · simp [restart_fold, with_sentinel, hr, min_max_eq, List.enumFrom_cons, Nat.add_assoc, Nat.add_comm 1]
      · simp [restart_fold, with_sentinel, hr, min_max_eq, List.enumFrom_cons, Nat.add_assoc, Nat.add_comm 1]

theorem scalar_loop_eq (T : index_array_type) (src : List Nat) (r : Nat) (skip : Bool)
    (s : upload_result) (h : s.count ≤ src.length) :
    primitive_restart_impl.scalar_loop T src r skip s =
      restart_fold T r skip s ((src.drop s.count).map (byteswap T)) := by
  unfold primitive_restart_impl.scalar_loop
  rw [scalar_steps_eq T src r skip _ _ s (by omega)]
  congr 2
  apply List.take_of_length_le
  simp

/-! ## Lane-wise lemmas for the vector kernels -/

theorem limit_or (n v : Nat) (h : v < 2 ^ n) : (2 ^ n - 1) ||| v = 2 ^ n - 1 := by
  apply Nat.eq_of_testBit_eq
  intro i
  rw [Nat.testBit_or, Nat.testBit_two_pow_sub_one]
  by_cases hi : i < n
  · simp [hi]
  · have hv : v.testBit i = false := by
      apply Nat.testBit_lt_two_pow
      exact lt_of_lt_of_le h (Nat.pow_le_pow_right (by decide) (by omega))
    simp [hi, hv]

theorem lane_or (T : index_array_type) (r x : Nat) :
    (if r = byteswap T x then index_limit T else 0) ||| byteswap T x =
      with_sentinel T r (byteswap T x) := by
  unfold with_sentinel
  by_cases h : r = byteswap T x
  · rw [if_pos h, if_pos h.symm]
    exact limit_or _ _ (byteswap_lt T x)
  · rw [if_neg h, if_neg (fun e => h e.symm), Nat.zero_or]

theorem lane_andnot (T : index_array_type) (r x : Nat) :
    (index_limit T ^^^ (if r = byteswap T x then index_limit T else 0)) &&& byteswap T x =
      without_marker r (byteswap T x) := by
  unfold without_marker
  by_cases h : r = byteswap T x
  · rw [if_pos h, if_pos h.symm, Nat.xor_self, Nat.zero_and]
  · rw [if_neg h, if_neg (fun e => h e.symm), Nat.xor_zero, Nat.and_comm]
    unfold index_limit
    rw [Nat.and_pow_two_sub_one_eq_mod]
    exact Nat.mod_eq_of_lt (byteswap_lt T x)

theorem swapped_lanes_eq_normal (T : index_array_type) (lanes r : Nat) (src : List Nat)
    (s : vec_state) (n : Nat) :
    swapped_lanes T lanes r src s n = normal_step T lanes r src s n := by
  unfold swapped_lanes normal_step
  simp only [List.zipWith_map_left, List.zipWith_map_right, List.zipWith_same, List.map_map,
    Function.comp_def, lane_or, lane_andnot]

theorem foldl_min_min (l : List Nat) :
    ∀ a b : Nat, l.foldl min (min a b) = min a (l.foldl min b) := by
  induction l with
  | nil => intro a b; rfl
  | cons x l ih =>
    intro a b
    simp only [List.foldl_cons]
    rw [← ih a (min b x)]
    congr 1
    omega

theorem foldl_max_max (l : List Nat) :
    ∀ a b : Nat, l.foldl max (max a b) = max a (l.foldl max b) := by
  induction l with
  | nil => intro a b; rfl
  | cons x l ih =>
    intro a b
    simp only [List.foldl_cons]
    rw [← ih a (max b x)]
    congr 1
    omega

theorem foldl_min_zipWith (a : List Nat) :
    ∀ (b : List Nat) (c : Nat), a.length = b.length →
      (List.zipWith min a b).foldl min c = min (a.foldl min c) (b.foldl min c) := by
  induction a with
  | nil =>
    intro b c h
    cases b with
    | nil => simp
    | cons y b => simp at h
  | cons x a ih =>
    intro b c h
    cases b with
    | nil => simp at h
    | cons y b =>
      simp only [List.length_cons, Nat.add_right_cancel_iff] at h
      simp only [List.zipWith_cons_cons, List.foldl_cons]
      rw [ih b _ h]
      have e1 : min c (min x y) = min y (min c x) := by omega
      have e2 : min c (min x y) = min x (min c y) := by omega
      have hA : a.foldl min (min c (min x y)) = min y (a.foldl min (min c x)) := by
        rw [e1, foldl_min_min]
      have hB : b.foldl min (min c (min x y)) = min x (b.foldl min (min c y)) := by
        rw [e2, foldl_min_min]
      rw [hA, hB]
      have h1 := foldl_min_le a (min c x)
      have h2 := foldl_min_le b (min c y)
      omega

theorem foldl_max_zipWith (a : List Nat) :
    ∀ (b : List Nat) (c : Nat), a.length = b.length →
      (List.zipWith max a b).foldl max c = max (a.foldl max c) (b.foldl max c) := by
  induction a with
  | nil =>
    intro b c h
    cases b with
    | nil => simp
    | cons y b => simp at h
  | cons x a ih =>
    intro b c h
    cases b with
    | nil => simp at h
    | cons y b =>
      simp only [List.length_cons, Nat.add_right_cancel_iff] at h
      simp only [List.zipWith_cons_cons, List.foldl_cons]
      rw [ih b _ h]
      have e1 : max c (max x y) = max y (max c x) := by omega
      have e2 : max c (max x y) = max x (max c y) := by omega
      have hA : a.foldl max (max c (max x y)) = max y (a.foldl max (max c x)) := by
        rw [e1, foldl_max_max]
      have hB : b.foldl max (max c (max x y)) = max x (b.foldl max (max c y)) := by
        rw [e2, foldl_max_max]
      rw [hA, hB]
      have h1 := le_foldl_max a (max c x)
      have h2 := le_foldl_max b (max c y)
      omega

theorem foldl_min_append (t : Nat) (a b : List Nat) :
    (a ++ b).foldl min t = min (a.foldl min t) (b.foldl min t) := by
  rw [List.foldl_append]
  exact foldl_min_shift t b _ (foldl_min_le a t)

theorem foldl_max_append (a b : List Nat) :
    (a ++ b).foldl max 0 = max (a.foldl max 0) (b.foldl max 0) := by
  rw [List.foldl_append]
  exact foldl_max_shift b _

theorem zipWith_min_le (t : Nat) (a : List Nat) :
    ∀ b : List Nat, (∀ x ∈ a, x ≤ t) → ∀ x ∈ List.zipWith min a b, x ≤ t := by
  induction a with
  | nil => intro b _ x hx; simp at hx
  | cons y a ih =>
    intro b h x hx
    cases b with
    | nil => simp at hx
    | cons z b =>
      simp only [List.zipWith_cons_cons, List.mem_cons] at hx
      rcases hx with hx | hx
      · have := h y (List.mem_cons_self _ _)
        omega
      · exact ih b (fun w hw => h w (List.mem_cons_of_mem _ hw)) x hx

theorem zipWith_max_le (t : Nat) (a : List Nat) :
    ∀ b : List Nat, (∀ x ∈ a, x ≤ t) → (∀ x ∈ b, x ≤ t) →
      ∀ x ∈ List.zipWith max a b, x ≤ t := by
  induction a with
  | nil => intro b _ _ x hx; simp at hx
  | cons y a ih =>
    intro b h h' x hx
    cases b with
    | nil => simp at hx
    | cons z b =>
      simp only [List.zipWith_cons_cons, List.mem_cons] at hx
      rcases hx with hx | hx
      · have := h y (List.mem_cons_self _ _)
        have := h' z (List.mem_cons_self _ _)
        omega
      · exact ih b (fun w hw => h w (List.mem_cons_of_mem _ hw))
          (fun w hw => h' w (List.mem_cons_of_mem _ hw)) x hx

theorem foldl_min_sentinel (T : index_array_type) (r : Nat) (l : List Nat) :
    ∀ a : Nat, a ≤ index_limit T →
      (l.map (with_sentinel T r)).foldl min a =
        (l.filter (fun v => decide (v ≠ r))).foldl min a := by
  induction l with
  | nil => intro a _; rfl
  | cons x l ih =>
    intro a h
    by_cases hx : x = r
    · simp only [List.map_cons, List.foldl_cons, with_sentinel, hx, if_true, ne_eq,
        not_true_eq_false, decide_False, Bool.false_eq_true, not_false_eq_true,
        List.filter_cons_of_neg]
      rw [Nat.min_eq_left h]
      exact ih a h
    · simp only [List.map_cons, List.foldl_cons, with_sentinel, hx, if_false, ne_eq,
        not_false_eq_true, decide_True, List.filter_cons_of_pos]
      exact ih _ (by omega)

theorem foldl_max_marker (r : Nat) (l : List Nat) :
    ∀ a : Nat, (l.map (without_marker r)).foldl max a =
        (l.filter (fun v => decide (v ≠ r))).foldl max a := by
  induction l with
  | nil => intro a; rfl
  | cons x l ih =>
    intro a
    by_cases hx : x = r
    · simp only [List.map_cons, List.foldl_cons, without_marker, hx, if_true, ne_eq,
        not_true_eq_false, decide_False, Bool.false_eq_true, not_false_eq_true,
        List.filter_cons_of_neg, Nat.max_zero]
      exact ih a
    · simp only [List.map_cons, List.foldl_cons, without_marker, hx, if_false, ne_eq,
        not_false_eq_true, decide_True, List.filter_cons_of_pos]
      exact ih _

theorem foldl_min_replicate (t : Nat) : ∀ n : Nat, (List.replicate n t).foldl min t = t := by
  intro n
  induction n with
  | zero => rfl
  | succ n ih => simp only [List.replicate_succ, List.foldl_cons, Nat.min_self, ih]

theorem foldl_max_replicate_zero (c : Nat) :
    ∀ n : Nat, (List.replicate n 0).foldl max c = c := by
  intro n
  induction n with
  | zero => rfl
  | succ n ih => simp only [List.replicate_succ, List.foldl_cons, Nat.max_zero, ih]

theorem with_sentinel_le (T : index_array_type) (r x : Nat) :
    with_sentinel T r (byteswap T x) ≤ index_limit T := by
  unfold with_sentinel
  split
  · exact Nat.le_refl _
  · exact byteswap_le_limit T x

theorem without_marker_le (T : index_array_type) (r x : Nat) :
    without_marker r (byteswap T x) ≤ index_limit T := by
  unfold without_marker
  split
  · exact Nat.zero_le _
  · exact byteswap_le_limit T x

/-- The state of a vector kernel after `k` whole iterations over `lanes` lanes: the
registers reduce to the folds over the first `lanes * k` values, which are stored with
the sentinel substituted. -/
theorem vec_fold_closed (T : index_array_type) (L r : Nat) (src : List Nat)
    (step : vec_state → Nat → vec_state)
    (hstep : ∀ s n, lanes_ok T L s → step s n = normal_step T L r src s n) :
    ∀ k : Nat, L * k ≤ src.length →
      lanes_ok T L ((List.range k).foldl step
        { vmin := List.replicate L (index_limit T), vmax := List.replicate L 0, stores := [] }) ∧
      ((List.range k).foldl step
        { vmin := List.replicate L (index_limit T), vmax := List.replicate L 0,
          stores := [] }).vmin.foldl min (index_limit T) =
        (((src.take (L * k)).map (byteswap T)).map (with_sentinel T r)).foldl min
          (index_limit T) ∧
      ((List.range k).foldl step
        { vmin := List.replicate L (index_limit T), vmax := List.replicate L 0,
          stores := [] }).vmax.foldl max 0 =
        (((src.take (L * k)).map (byteswap T)).map (without_marker r)).foldl max 0 ∧
      ((List.range k).foldl step
        { vmin := List.replicate L (index_limit T), vmax := List.replicate L 0,
          stores := [] }).stores =
        (((src.take (L * k)).map (byteswap T)).map (with_sentinel T r)).enumFrom 0 := by
  intro k
  induction k with
  | zero =>
    intro _
    refine ⟨⟨by simp, by simp, ?_, ?_⟩, ?_, ?_, ?_⟩
    · intro x hx
      rw [List.eq_of_mem_replicate hx]
    · intro x hx
      rw [List.eq_of_mem_replicate hx]; exact Nat.zero_le _
    · simp [foldl_min_replicate]
    · simp [foldl_max_replicate_zero]
    · simp
  | succ k ih =>
    intro h
    have hk : L * k ≤ src.length := by
      have : L * k ≤ L * (k + 1) := Nat.mul_le_mul_left L (Nat.le_succ k)
      omega
    obtain ⟨hok, hmin, hmax, hst⟩ := ih hk
    rw [List.range_succ, List.foldl_append, List.foldl_cons, List.foldl_nil]
    generalize (List.range k).foldl step
      { vmin := List.replicate L (index_limit T), vmax := List.replicate L 0,
        stores := [] } = s at hok hmin hmax hst ⊢
    rw [hstep s k hok]
    obtain ⟨hl1, hl2, hb1, hb2⟩ := hok
    have hsplit : src.take (L * (k + 1)) = src.take (L * k) ++ vec_load src (L * k) L := by
      rw [Nat.mul_succ, List.take_add]; rfl
    have hlen : (vec_load src (L * k) L).length = L := by
      unfold vec_load
      rw [List.length_take, List.length_drop]
      have : L * (k + 1) = L * k + L := Nat.mul_succ L k
      omega
    have htk : (src.take (L * k)).length = L * k := by
      rw [List.length_take]; omega
    unfold normal_step
    refine ⟨⟨?_, ?_, ?_, ?_⟩, ?_, ?_, ?_⟩
    · simp [hl1, hlen]
    · simp [hl2, hlen]
    · exact zipWith_min_le _ _ _ hb1
    · apply zipWith_max_le _ _ _ hb2
      intro x hx
      simp only [List.map_map, List.mem_map, Function.comp_apply] at hx
      obtain ⟨y, _, hy⟩ := hx
      rw [← hy]; exact without_marker_le T r y
    · simp only []
      rw [foldl_min_zipWith _ _ _ (by simp [hl1, hlen]), hmin, hsplit, List.map_append,
        List.map_append, foldl_min_append]
    · simp only []
      rw [foldl_max_zipWith _ _ _ (by simp [hl2, hlen]), hmax, hsplit, List.map_append,
        List.map_append, foldl_max_append]
    · simp only []
      rw [hst, hsplit, List.map_append, List.map_append, List.enumFrom_append]
      simp only [List.length_map, htk, Nat.zero_add]

/-! ## Horizontal reductions -/

theorem hmax_fold (x : List Nat) (hx : ∀ v ∈ x, v ≤ 65535) :
    ∀ a : Nat, a ≤ 65535 →
      65535 - (x.map (fun v => 65535 - v)).foldl min (65535 - a) = x.foldl max a := by
  induction x with
  | nil => intro a h; simp only [List.map_nil, List.foldl_nil]; omega
  | cons v x ih =>
    intro a h
    have hv := hx v (List.mem_cons_self _ _)
    simp only [List.map_cons, List.foldl_cons]
    have e : min (65535 - a) (65535 - v) = 65535 - max a v := by omega
    rw [e]
    exact ih (fun w hw => hx w (List.mem_cons_of_mem _ hw)) _ (by omega)

theorem sse41_hmax_eq (x : List Nat) (hx : ∀ v ∈ x, v ≤ 65535) :
    sse41_hmax_epu16 x = x.foldl max 0 := by
  unfold sse41_hmax_epu16 sse41_hmin_epu16
  exact hmax_fold x hx 0 (by omega)

theorem halves_min (t h : Nat) (v : List Nat) (hv : v.length = 2 * h) :
    (List.zipWith min (v.take h) (v.drop h)).foldl min t = v.foldl min t := by
  rw [foldl_min_zipWith _ _ _ (by simp [hv]; omega), ← foldl_min_append,
    List.take_append_drop]

theorem halves_max (h : Nat) (v : List Nat) (hv : v.length = 2 * h) :
    (List.zipWith max (v.take h) (v.drop h)).foldl max 0 = v.foldl max 0 := by
  rw [foldl_max_zipWith _ _ _ (by simp [hv]; omega), ← foldl_max_append,
    List.take_append_drop]

theorem halves_max_le (t h : Nat) (v : List Nat) (hb : ∀ x ∈ v, x ≤ t) :
    ∀ x ∈ List.zipWith max (v.take h) (v.drop h), x ≤ t :=
  zipWith_max_le t _ _ (fun x hx => hb x (List.mem_of_mem_take hx))
    (fun x hx => hb x (List.mem_of_mem_drop hx))

theorem halves_length (h : Nat) (f : Nat → Nat → Nat) (v : List Nat) (hv : v.length = 2 * h) :
    (List.zipWith f (v.take h) (v.drop h)).length = h := by
  simp [hv]; omega

theorem srli_reduce_min (t : Nat) (v : List Nat) (hv : v.length = 4) (hb : ∀ x ∈ v, x ≤ t) :
    (List.zipWith min (List.zipWith min v (srli_si128 v 2))
      (srli_si128 (List.zipWith min v (srli_si128 v 2)) 1)).headD 0 = v.foldl min t := by
  match v, hv, hb with
  | [a, b, c, d], _, hb =>
    have ha := hb a (by simp)
    simp only [srli_si128, List.drop_succ_cons, List.drop_zero, List.replicate, List.cons_append,
      List.nil_append, List.zipWith_cons_cons, List.headD_cons, List.foldl_cons, List.foldl_nil]
    omega

theorem srli_reduce_max (v : List Nat) (hv : v.length = 4) :
    (List.zipWith max (List.zipWith max v (srli_si128 v 2))
      (srli_si128 (List.zipWith max v (srli_si128 v 2)) 1)).headD 0 = v.foldl max 0 := by
  match v, hv with
  | [a, b, c, d], _ =>
    simp only [srli_si128, List.drop_succ_cons, List.drop_zero, List.replicate, List.cons_append,
      List.nil_append, List.zipWith_cons_cons, List.headD_cons, List.foldl_cons, List.foldl_nil]
    omega

theorem restart_fold_append (T : index_array_type) (r : Nat) (skip : Bool) (s : upload_result)
    (a b : List Nat) :
    restart_fold T r skip (restart_fold T r skip s a) b = restart_fold T r skip s (a ++ b) := by
  cases skip <;>
  simp [restart_fold, List.foldl_append, List.enumFrom_append, Nat.add_assoc]

/-- The registers and stores of a vector kernel after `k` iterations, as the scalar
fold over the first `L * k` values. -/
theorem vec_kernel_closed (T : index_array_type) (L r : Nat) (src : List Nat)
    (step : vec_state → Nat → vec_state)
    (hstep : ∀ s n, lanes_ok T L s → step s n = normal_step T L r src s n)
    (k : Nat) (hk : L * k ≤ src.length) (s : vec_state)
    (hs : s = (List.range k).foldl step
      { vmin := List.replicate L (index_limit T), vmax := List.replicate L 0, stores := [] }) :
    lanes_ok T L s ∧
    ({ min_index := s.vmin.foldl min (index_limit T), max_index := s.vmax.foldl max 0,
       count := L * k, stores := s.stores } : upload_result) =
      restart_fold T r false
        { min_index := index_limit T, max_index := 0, count := 0, stores := [] }
        ((src.take (L * k)).map (byteswap T)) := by
  obtain ⟨hok, hmin, hmax, hst⟩ := vec_fold_closed T L r src step hstep k hk
  rw [← hs] at hok hmin hmax hst
  refine ⟨hok, ?_⟩
  rw [hmin, hmax, hst, foldl_min_sentinel T r _ _ (Nat.le_refl _), foldl_max_marker]
  simp [restart_fold]
  omega

/-! ## The vector kernels in closed form -/

theorem index_limit_u16 : index_limit .u16 = 65535 := by decide

theorem index_limit_u32 : index_limit .u32 = 4294967295 := by decide

theorem foldl_bind_none {σ α : Type} (f : σ → α → Option σ) (l : List α) :
    l.foldl (fun acc n => acc.bind (fun st => f st n)) none = none := by
  induction l with
  | nil => rfl
  | cons x l ih => exact ih

theorem foldl_bind_some {σ α : Type} (f : σ → α → Option σ) (g : σ → α → σ)
    (h : ∀ s n, f s n = some (g s n)) (l : List α) :
    ∀ s : σ, l.foldl (fun acc n => acc.bind (fun st => f st n)) (some s) =
      some (l.foldl g s) := by
  induction l with
  | nil => intro s; rfl
  | cons x l ih =>
    intro s
    rw [List.foldl_cons, List.foldl_cons, Option.some_bind, h s x]
    exact ih (g s x)

/-- A vector loop none of whose stores faults runs all its iterations. -/
theorem vec_loop_some (step : vec_state → Nat → Option vec_state)
    (g : vec_state → Nat → vec_state) (h : ∀ s n, step s n = some (g s n))
    (it : Nat) (s : vec_state) :
    vec_loop step it s = some ((List.range it).foldl g s) :=
  foldl_bind_some step g h (List.range it) s

/-- A vector loop of at least one iteration whose stores fault ends in the fault. -/
theorem vec_loop_none (step : vec_state → Nat → Option vec_state)
    (h : ∀ s n, step s n = none) (it : Nat) (hit : 0 < it) (s : vec_state) :
    vec_loop step it s = none := by
  obtain ⟨k, rfl⟩ : ∃ k, it = k + 1 := ⟨it - 1, by omega⟩
  unfold vec_loop
  rw [List.range_succ_eq_map, List.foldl_cons, Option.some_bind, h s 0]
  exact foldl_bind_none step _

theorem swapped_step_aligned (T : index_array_type) (lanes r : Nat) (src : List Nat)
    (dst_addr : Nat) (ha : dst_addr % (lanes * get_index_type_size T) = 0)
    (s : vec_state) (n : Nat) :
    swapped_step T lanes r src dst_addr s n = some (swapped_lanes T lanes r src s n) := by
  unfold swapped_step
  rw [if_pos]
  rw [Nat.add_mul_mod_self_left]
  exact ha

theorem swapped_step_misaligned (T : index_array_type) (lanes r : Nat) (src : List Nat)
    (dst_addr : Nat) (ha : dst_addr % (lanes * get_index_type_size T) ≠ 0)
    (s : vec_state) (n : Nat) :
    swapped_step T lanes r src dst_addr s n = none := by
  unfold swapped_step
  rw [if_neg]
  rw [Nat.add_mul_mod_self_left]
  exact ha

theorem avx3_step_aligned (r : Nat) (src : List Nat) (dst_addr : Nat)
    (ha : dst_addr % 64 = 0) (s : vec_state) (n : Nat) :
    avx3_step r src dst_addr s n = some (avx3_lanes r src s n) := by
  unfold avx3_step
  rw [if_pos]
  rw [Nat.add_mul_mod_self_left]
  exact ha

theorem avx3_step_misaligned (r : Nat) (src : List Nat) (dst_addr : Nat)
    (ha : dst_addr % 64 ≠ 0) (s : vec_state) (n : Nat) :
    avx3_step r src dst_addr s n = none := by
  unfold avx3_step
  rw [if_neg]
  rw [Nat.add_mul_mod_self_left]
  exact ha

theorem sse4_1_u16_closed (src : List Nat) (dst_addr r it : Nat) (h : 8 * it ≤ src.length)
    (ha : dst_addr % 16 = 0) :
    (primitive_restart_impl.upload_u16_swapped_sse4_1 src dst_addr it r).map
      (fun k => ({ min_index := k.1, max_index := k.2.1, count := 8 * it
                   stores := k.2.2 } : upload_result)) =
      some (restart_fold .u16 r false
        { min_index := index_limit .u16, max_index := 0, count := 0, stores := [] }
        ((src.take (8 * it)).map (byteswap .u16))) := by
  obtain ⟨hok, heq⟩ := vec_kernel_closed .u16 8 r src (swapped_lanes .u16 8 r src)
    (fun s n _ => swapped_lanes_eq_normal .u16 8 r src s n) it h _ rfl
  rw [← heq]
  rw [index_limit_u16] at hok ⊢
  unfold primitive_restart_impl.upload_u16_swapped_sse4_1
  rw [vec_loop_some _ _ (swapped_step_aligned .u16 8 r src dst_addr ha)]
  simp only [Option.map_some']
  rw [sse41_hmax_eq _ hok.2.2.2]
  rfl

theorem sse4_1_u16_fault (src : List Nat) (dst_addr r it : Nat) (hit : 0 < it)
    (ha : dst_addr % 16 ≠ 0) :
    primitive_restart_impl.upload_u16_swapped_sse4_1 src dst_addr it r = none := by
  unfold primitive_restart_impl.upload_u16_swapped_sse4_1
  rw [vec_loop_none _ (swapped_step_misaligned .u16 8 r src dst_addr ha) it hit]
  rfl

theorem avx2_u16_closed (src : List Nat) (dst_addr r it : Nat) (h : 16 * it ≤ src.length)
    (ha : dst_addr % 32 = 0) :
    (primitive_restart_impl.upload_u16_swapped_avx2 src dst_addr it r).map
      (fun k => ({ min_index := k.1, max_index := k.2.1, count := 16 * it
                   stores := k.2.2 } : upload_result)) =
      some (restart_fold .u16 r false
        { min_index := index_limit .u16, max_index := 0, count := 0, stores := [] }
        ((src.take (16 * it)).map (byteswap .u16))) := by
  obtain ⟨hok, heq⟩ := vec_kernel_closed .u16 16 r src (swapped_lanes .u16 16 r src)
    (fun s n _ => swapped_lanes_eq_normal .u16 16 r src s n) it h _ rfl
  rw [← heq]
  rw [index_limit_u16] at hok ⊢
  unfold primitive_restart_impl.upload_u16_swapped_avx2
  rw [vec_loop_some _ _ (swapped_step_aligned .u16 16 r src dst_addr ha)]
  simp only [Option.map_some']
  rw [sse41_hmax_eq _ (halves_max_le _ 8 _ hok.2.2.2), halves_max 8 _ hok.2.1]
  unfold sse41_hmin_epu16
  rw [halves_min _ 8 _ hok.1]

theorem avx2_u16_fault (src : List Nat) (dst_addr r it : Nat) (hit : 0 < it)
    (ha : dst_addr % 32 ≠ 0) :
    primitive_restart_impl.upload_u16_swapped_avx2 src dst_addr it r = none := by
  unfold primitive_restart_impl.upload_u16_swapped_avx2
  rw [vec_loop_none _ (swapped_step_misaligned .u16 16 r src dst_addr ha) it hit]
  rfl

theorem sse4_1_u32_closed (src : List Nat) (dst_addr r it : Nat) (h : 4 * it ≤ src.length)
    (ha : dst_addr % 16 = 0) :
    (primitive_restart_impl.upload_u32_swapped_sse4_1 src dst_addr it r).map
      (fun k => ({ min_index := k.1, max_index := k.2.1, count := 4 * it
                   stores := k.2.2 } : upload_result)) =
      some (restart_fold .u32 r false
        { min_index := index_limit .u32, max_index := 0, count := 0, stores := [] }
        ((src.take (4 * it)).map (byteswap .u32))) := by
  obtain ⟨hok, heq⟩ := vec_kernel_closed .u32 4 r src (swapped_lanes .u32 4 r src)
    (fun s n _ => swapped_lanes_eq_normal .u32 4 r src s n) it h _ rfl
  rw [← heq]
  rw [index_limit_u32] at hok ⊢
  unfold primitive_restart_impl.upload_u32_swapped_sse4_1
  rw [vec_loop_some _ _ (swapped_step_aligned .u32 4 r src dst_addr ha)]
  simp only [Option.map_some']
  rw [srli_reduce_max _ hok.2.1, srli_reduce_min 4294967295 _ hok.1 hok.2.2.1]

theorem sse4_1_u32_fault (src : List Nat) (dst_addr r it : Nat) (hit : 0 < it)
    (ha : dst_addr % 16 ≠ 0) :
    primitive_restart_impl.upload_u32_swapped_sse4_1 src dst_addr it r = none := by
  unfold primitive_restart_impl.upload_u32_swapped_sse4_1
  rw [vec_loop_none _ (swapped_step_misaligned .u32 4 r src dst_addr ha) it hit]
  rfl

theorem zipWith_congr_left {f g : Nat → Nat → Nat} (a : List Nat) :
    ∀ b : List Nat, (∀ x ∈ a, ∀ y, f x y = g x y) → List.zipWith f a b = List.zipWith g a b := by
  induction a with
  | nil => intro b _; rfl
  | cons x a ih =>
    intro b h
    cases b with
    | nil => rfl
    | cons y b =>
      simp only [List.zipWith_cons_cons]
      rw [h x (List.mem_cons_self _ _) y,
        ih b (fun w hw => h w (List.mem_cons_of_mem _ hw))]

theorem zip_map_self {β γ : Type} (g : Nat → β) (h : Nat → γ) (v : List Nat) :
    (v.map g).zip (v.map h) = v.map (fun x => (g x, h x)) := by
  induction v with
  | nil => rfl
  | cons x v ih => simp only [List.map_cons, List.zip_cons_cons, ih]

theorem avx3_lanes_eq_normal (r : Nat) (src : List Nat) (s : vec_state) (n : Nat)
    (hok : lanes_ok .u16 32 s) :
    avx3_lanes r src s n = normal_step .u16 32 r src s n := by
  obtain ⟨_, _, hb1, _⟩ := hok
  rw [index_limit_u16] at hb1
  unfold avx3_lanes normal_step
  simp only [zip_map_self, List.zipWith_map_left, List.zipWith_map_right,
    List.zipWith_same, List.map_map, Function.comp_def]
  congr 1
  · apply zipWith_congr_left
    intro x hx y
    have := hb1 x hx
    simp only [with_sentinel, index_limit_u16]
    by_cases h : byteswap .u16 y = r
    · simp [h]; omega
    · have h' : ¬ r = byteswap .u16 y := fun e => h e.symm
      simp [h, h']
  · apply zipWith_congr_left
    intro x _ y
    simp only [without_marker]
    by_cases h : byteswap .u16 y = r
    · simp [h]
    · have h' : ¬ r = byteswap .u16 y := fun e => h e.symm
      simp [h, h']
  · congr 2
    apply List.map_congr_left
    intro y _
    simp only [with_sentinel, index_limit_u16]
    by_cases h : byteswap .u16 y = r
    · simp [h]
    · have h' : ¬ r = byteswap .u16 y := fun e => h e.symm
      simp [h, h']

theorem range_map_split {β : Type} (g : Nat → β) (c : β) (n k : Nat) (h : k ≤ n) :
    (List.range n).map (fun j => if j < k then g j else c) =
      (List.range k).map g ++ List.replicate (n - k) c := by
  obtain ⟨m, rfl⟩ : ∃ m, n = k + m := ⟨n - k, by omega⟩
  rw [List.range_add, List.map_append, List.map_map, Nat.add_sub_cancel_left]
  congr 1
  · apply List.map_congr_left
    intro j hj
    rw [if_pos (List.mem_range.mp hj)]
  · rw [List.eq_replicate_iff]
    refine ⟨by simp, ?_⟩
    intro b hb
    obtain ⟨j, _, rfl⟩ := List.mem_map.mp hb
    simp

theorem range_map_getD (src : List Nat) (g : Nat → Nat) (off : Nat) :
    ∀ k : Nat, off + k ≤ src.length →
      (List.range k).map (fun j => g (src.getD (off + j) 0)) = ((src.drop off).take k).map g := by
  intro k
  induction k with
  | zero => intro _; simp
  | succ k ih =>
    intro h
    have hlt : off + k < src.length := by omega
    rw [List.range_succ, List.map_append, ih (by omega), List.take_succ, List.map_append]
    congr 1
    rw [List.getElem?_drop, List.getElem?_eq_getElem hlt]
    simp only [List.map_cons, List.map_nil, Option.toList_some, List.getD_eq_getElem _ _ hlt]

theorem filterMap_zip_true {β : Type} (x : List β) :
    (x.zip (List.replicate x.length true)).filterMap (fun p => if p.2 then some p.1 else none)
      = x := by
  induction x with
  | nil => rfl
  | cons a x ih =>
    simp only [List.length_cons, List.replicate_succ, List.zip_cons_cons, List.filterMap_cons,
      if_true, ih]

theorem filterMap_zip_false {β : Type} (x : List β) (n : Nat) :
    (x.zip (List.replicate n false)).filterMap (fun p => if p.2 then some p.1 else none)
      = [] := by
  induction x generalizing n with
  | nil => rfl
  | cons a x ih =>
    cases n with
    | zero => rfl
    | succ n =>
      simp only [List.replicate_succ, List.zip_cons_cons, List.filterMap_cons,
        Bool.false_eq_true, if_false, ih]
theorem avx3_remainder_lanes (r : Nat) (src : List Nat) (it rem : Nat) (s : vec_state)
    (hok : lanes_ok .u16 32 s) :
    (avx3_remainder r src it rem s).vmin = List.zipWith min s.vmin
        ((List.range 32).map (fun j => if j < rem then
          with_sentinel .u16 r (byteswap .u16 (src.getD (32 * it + j) 0)) else 65535)) ∧
    (avx3_remainder r src it rem s).vmax = List.zipWith max s.vmax
        ((List.range 32).map (fun j => if j < rem then
          without_marker r (byteswap .u16 (src.getD (32 * it + j) 0)) else 0)) ∧
    (avx3_remainder r src it rem s).stores = s.stores ++
      ((((List.range 32).map (fun j => if j < rem then
          with_sentinel .u16 r (byteswap .u16 (src.getD (32 * it + j) 0)) else 65535)).enumFrom
            (32 * it)).zip ((List.range 32).map (fun j => if j < rem then true else false))).filterMap
        (fun p => if p.2 then some p.1 else none) := by
  obtain ⟨hl1, hl2, hb1, _⟩ := hok
  rw [index_limit_u16] at hb1
  unfold avx3_remainder
  refine ⟨?_, ?_, ?_⟩
  · apply List.ext_getElem
    · simp [hl1]
    · intro j h1 h2
      have hjl : j < s.vmin.length := by
        simp only [List.length_zipWith] at h2
        omega
      have hx : s.vmin[j] ≤ 65535 := hb1 _ (List.getElem_mem _)
      simp only [List.getElem_zipWith, List.getElem_map, List.getElem_range, List.getElem_zip,
        with_sentinel, index_limit_u16]
      by_cases hr : j < rem
      · have hr' : rem ≥ j + 1 := hr
        rw [if_pos hr, if_pos hr']
        generalize byteswap .u16 (src.getD (32 * it + j) 0) = v
        by_cases hv : v = r
        · simp [hr', hv]; omega
        · have hv' : ¬ r = v := fun e => hv e.symm
          simp [hr', hv, hv']
      · have hr' : ¬ rem ≥ j + 1 := hr
        simp [hr, hr']; omega
  · apply List.ext_getElem
    · simp [hl2]
    · intro j h1 h2
      simp only [List.getElem_zipWith, List.getElem_map, List.getElem_range, List.getElem_zip,
        without_marker]
      by_cases hr : j < rem
      · have hr' : rem ≥ j + 1 := hr
        rw [if_pos hr, if_pos hr']
        generalize byteswap .u16 (src.getD (32 * it + j) 0) = v
        by_cases hv : v = r
        · simp [hr', hv]
        · have hv' : ¬ r = v := fun e => hv e.symm
          simp [hr', hv, hv']
      · have hr' : ¬ rem ≥ j + 1 := hr
        simp [hr, hr']
  · simp only []
    refine congrArg (fun x => s.stores ++ x) ?_
    refine congrArg (List.filterMap _) ?_
    refine congr (congrArg List.zip (congrArg (List.enumFrom _) ?_)) ?_
    · apply List.ext_getElem
      · simp
      · intro j h1 h2
        simp only [List.getElem_zipWith, List.getElem_map, List.getElem_range,
          with_sentinel, index_limit_u16]
        by_cases hr : j < rem
        · have hr' : rem ≥ j + 1 := hr
          rw [if_pos hr, if_pos hr']
          generalize byteswap .u16 (src.getD (32 * it + j) 0) = v
          by_cases hv : v = r
          · simp [hr', hv]
          · have hv' : ¬ r = v := fun e => hv e.symm
            simp [hr', hv, hv']
        · have hr' : ¬ rem ≥ j + 1 := hr
          simp [hr, hr']
    · apply List.map_congr_left
      intro j _
      by_cases hr : j < rem
      · have hr' : rem ≥ j + 1 := hr
        simp [hr, hr']
      · have hr' : ¬ rem ≥ j + 1 := hr
        simp [hr, hr']

/-- The state of `upload_u16_swapped_avx3` before the final reduction: whole iterations
and the masked tail together cover every element of the source. -/
theorem avx3_state_closed (r : Nat) (src : List Nat) (s : vec_state)
    (hs : s = (if src.length / 32 * 32 < src.length then
        avx3_remainder r src (src.length / 32) ((src.length - src.length / 32 * 32) % 65536)
          ((List.range (src.length / 32)).foldl (avx3_lanes r src)
            { vmin := List.replicate 32 65535, vmax := List.replicate 32 0, stores := [] })
      else (List.range (src.length / 32)).foldl (avx3_lanes r src)
            { vmin := List.replicate 32 65535, vmax := List.replicate 32 0, stores := [] })) :
    s.vmin.length = 32 ∧ s.vmax.length = 32 ∧ (∀ x ∈ s.vmax, x ≤ 65535) ∧
    s.vmin.foldl min 65535 =
      ((src.map (byteswap .u16)).map (with_sentinel .u16 r)).foldl min 65535 ∧
    s.vmax.foldl max 0 = ((src.map (byteswap .u16)).map (without_marker r)).foldl max 0 ∧
    s.stores = ((src.map (byteswap .u16)).map (with_sentinel .u16 r)).enumFrom 0 := by
  have hk : 32 * (src.length / 32) ≤ src.length := Nat.mul_div_le _ _
  obtain ⟨hok, hmin, hmax, hst⟩ := vec_fold_closed .u16 32 r src (avx3_lanes r src)
    (fun s n h => avx3_lanes_eq_normal r src s n h) (src.length / 32) hk
  rw [index_limit_u16] at hok hmin hmax hst
  simp only [List.map_map, Function.comp_def] at hmin hmax hst ⊢
  by_cases hlt : src.length / 32 * 32 < src.length
  · rw [if_pos hlt] at hs
    have hrem : (src.length - src.length / 32 * 32) % 65536 = src.length % 32 := by omega
    rw [hrem] at hs
    have hr32 : src.length % 32 < 32 := Nat.mod_lt _ (by decide)
    have hoff : 32 * (src.length / 32) + src.length % 32 = src.length := Nat.div_add_mod _ _
    obtain ⟨h1, h2, h3⟩ := avx3_remainder_lanes r src (src.length / 32) (src.length % 32) _ hok
    rw [← hs] at h1 h2 h3
    have htail : (src.drop (32 * (src.length / 32))).take (src.length % 32) =
        src.drop (32 * (src.length / 32)) := by
      apply List.take_of_length_le
      rw [List.length_drop]; omega
    have hpmin := range_map_split
      (fun j => with_sentinel .u16 r (byteswap .u16 (src.getD (32 * (src.length / 32) + j) 0)))
      65535 32 (src.length % 32) (by omega)
    have hpmax := range_map_split
      (fun j => without_marker r (byteswap .u16 (src.getD (32 * (src.length / 32) + j) 0)))
      0 32 (src.length % 32) (by omega)
    have hpmask := range_map_split (fun _ => true) false 32 (src.length % 32) (by omega)
    have hg1 := range_map_getD src (fun x => with_sentinel .u16 r (byteswap .u16 x))
      (32 * (src.length / 32)) (src.length % 32) (by omega)
    have hg2 := range_map_getD src (fun x => without_marker r (byteswap .u16 x))
      (32 * (src.length / 32)) (src.length % 32) (by omega)
    rw [htail] at hg1 hg2
    simp only [] at hg1 hg2
    rw [hg1] at hpmin
    rw [hg2] at hpmax
    have hsrc : src = src.take (32 * (src.length / 32)) ++ src.drop (32 * (src.length / 32)) :=
      (List.take_append_drop _ _).symm
    obtain ⟨ho1, ho2, ho3, ho4⟩ := hok
    have hplen : ((src.drop (32 * (src.length / 32))).map
        (fun x => with_sentinel .u16 r (byteswap .u16 x))).length = src.length % 32 := by
      rw [List.length_map, List.length_drop]; omega
    have hplen2 : ((src.drop (32 * (src.length / 32))).map
        (fun x => without_marker r (byteswap .u16 x))).length = src.length % 32 := by
      rw [List.length_map, List.length_drop]; omega
    refine ⟨?_, ?_, ?_, ?_, ?_, ?_⟩
    · rw [h1, List.length_zipWith, ho1]; simp
    · rw [h2, List.length_zipWith, ho2]; simp
    · rw [h2, hpmax]
      apply zipWith_max_le _ _ _ (by rw [index_limit_u16] at ho4; exact ho4)
      intro x hx
      rcases List.mem_append.mp hx with hx | hx
      · obtain ⟨y, _, rfl⟩ := List.mem_map.mp hx
        have := without_marker_le .u16 r y
        rw [index_limit_u16] at this; exact this
      · rw [List.eq_of_mem_replicate hx]; omega
    · rw [h1, foldl_min_zipWith _ _ _ (by rw [ho1]; simp), hmin, hpmin, foldl_min_append,
        foldl_min_replicate]
      conv => rhs; rw [hsrc]
      rw [List.map_append, foldl_min_append]
      have := foldl_min_le ((src.drop (32 * (src.length / 32))).map
        (fun x => with_sentinel .u16 r (byteswap .u16 x))) 65535
      omega
    · rw [h2, foldl_max_zipWith _ _ _ (by rw [ho2]; simp), hmax, hpmax, foldl_max_append,
        foldl_max_replicate_zero]
      conv => rhs; rw [hsrc]
      rw [List.map_append, foldl_max_append]
      omega
    · rw [h3, hst, hpmin, hpmask, List.enumFrom_append, List.zip_append, List.filterMap_append]
      · have e1 : (List.range (src.length % 32)).map (fun _ => true) =
            List.replicate ((List.enumFrom (32 * (src.length / 32))
              ((src.drop (32 * (src.length / 32))).map
                (fun x => with_sentinel .u16 r (byteswap .u16 x)))).length) true := by
          rw [List.eq_replicate_iff]
          refine ⟨by simp; omega, ?_⟩
          intro b hb
          obtain ⟨j, _, rfl⟩ := List.mem_map.mp hb
          rfl
        rw [e1, filterMap_zip_true, filterMap_zip_false, List.append_nil]
        conv => rhs; rw [hsrc]
        rw [List.map_append, List.enumFrom_append]
        simp only [List.length_map, List.length_take, Nat.zero_add]
        rw [Nat.min_eq_left hk]
      · simp; omega
  · rw [if_neg hlt] at hs
    have hfull : 32 * (src.length / 32) = src.length := by omega
    rw [hfull, List.take_length] at hmin hmax hst
    rw [← hs] at hok hmin hmax hst
    exact ⟨hok.1, hok.2.1, hok.2.2.2, hmin, hmax, hst⟩

theorem avx3_u16_closed (src : List Nat) (dst_addr r : Nat) (ha : dst_addr % 64 = 0) :
    (primitive_restart_impl.upload_u16_swapped_avx3 src dst_addr src.length r).map
      (fun k => ({ min_index := k.1, max_index := k.2.1, count := src.length
                   stores := k.2.2 } : upload_result)) =
      some (restart_fold .u16 r false
        { min_index := index_limit .u16, max_index := 0, count := 0, stores := [] }
        (src.map (byteswap .u16))) := by
  obtain ⟨hl1, hl2, hb, hmin, hmax, hst⟩ := avx3_state_closed r src _ rfl
  unfold primitive_restart_impl.upload_u16_swapped_avx3
  simp only []
  rw [vec_loop_some _ _ (avx3_step_aligned r src dst_addr ha)]
  simp only [Option.map_some']
  congr 1
  have hl3 := halves_length 16 max _ hl2
  rw [sse41_hmax_eq _ (halves_max_le _ 8 _ (halves_max_le _ 16 _ hb)), halves_max 8 _ hl3,
    halves_max 16 _ hl2, hmax]
  unfold sse41_hmin_epu16
  have hl4 := halves_length 16 min _ hl1
  rw [halves_min _ 8 _ hl4, halves_min _ 16 _ hl1, hmin, hst, index_limit_u16,
    foldl_min_sentinel .u16 r _ _ (by decide), foldl_max_marker]
  simp [restart_fold]

theorem avx3_u16_fault (src : List Nat) (dst_addr r count : Nat) (h32 : 32 ≤ count)
    (ha : dst_addr % 64 ≠ 0) :
    primitive_restart_impl.upload_u16_swapped_avx3 src dst_addr count r = none := by
  unfold primitive_restart_impl.upload_u16_swapped_avx3
  simp only []
  rw [vec_loop_none _ (avx3_step_misaligned r src dst_addr ha) (count / 32)
    (Nat.div_pos h32 (by decide))]
  rfl

/-- The scalar loop started from the result `k` of a vector kernel over the leading
`L * (n / L)` elements computes the scalar fold over the whole stream. -/
theorem scalar_after_chunks (T : index_array_type) (src : List Nat) (r L : Nat)
    (k : upload_result)
    (hk : k = restart_fold T r false
      { min_index := index_limit T, max_index := 0, count := 0, stores := [] }
      ((src.take (L * (src.length / L))).map (byteswap T))) :
    primitive_restart_impl.scalar_loop T src r false k =
      restart_fold T r false
        { min_index := index_limit T, max_index := 0, count := 0, stores := [] }
        (src.map (byteswap T)) := by
  have hle : L * (src.length / L) ≤ src.length := Nat.mul_div_le _ _
  have hc : k.count = L * (src.length / L) := by
    rw [hk]
    simp [restart_fold, Nat.min_eq_left hle]
  rw [scalar_loop_eq T src r false k (by omega), hc, hk, restart_fold_append,
    ← List.map_append, List.take_append_drop]

/-- A kernel that returns the fold over the leading whole chunks, followed by the scalar
loop, returns the fold over the whole stream. -/
theorem chunk_path (T : index_array_type) (src : List Nat) (r L : Nat)
    (kern : Option (Nat × Nat × List (Nat × Nat)))
    (hk : kern.map (fun k => ({ min_index := k.1, max_index := k.2.1,
                                 count := L * (src.length / L),
                                 stores := k.2.2 } : upload_result)) =
      some (restart_fold T r false
        { min_index := index_limit T, max_index := 0, count := 0, stores := [] }
        ((src.take (L * (src.length / L))).map (byteswap T)))) :
    kern.map (fun k => primitive_restart_impl.scalar_loop T src r false
        { min_index := k.1, max_index := k.2.1, count := src.length / L * L,
          stores := k.2.2 }) =
      some (restart_fold T r false
        { min_index := index_limit T, max_index := 0, count := 0, stores := [] }
        (src.map (byteswap T))) := by
  obtain ⟨k, hk1, hk2⟩ := Option.map_eq_some'.mp hk
  rw [hk1, Option.map_some', Nat.mul_comm (src.length / L) L]
  congr 1
  exact scalar_after_chunks T src r L _ hk2

/-- Closed form of `primitive_restart_impl::upload_untouched`: when the vector path is
taken on a destination that is not aligned for the selected kernel, the first aligned
store faults; otherwise, whichever kernel the CPU flags select, the result is the scalar
fold over the whole stream. -/
theorem restart_upload_eq (cpu : cpu_flags) (T : index_array_type) (src : List Nat)
    (dst_addr r : Nat) (skip : Bool) :
    primitive_restart_impl.upload_untouched cpu T src dst_addr r skip =
      if vector_store_faults cpu T src.length dst_addr skip = true then none
      else some (restart_fold T r skip
        { min_index := index_limit T, max_index := 0, count := 0, stores := [] }
        (src.map (byteswap T))) := by
  have hscalar : ∀ sk : Bool, primitive_restart_impl.scalar_loop T src r sk
      { min_index := index_limit T, max_index := 0, count := 0, stores := [] } =
      restart_fold T r sk
        { min_index := index_limit T, max_index := 0, count := 0, stores := [] }
        (src.map (byteswap T)) := by
    intro sk
    rw [scalar_loop_eq T src r sk _ (Nat.zero_le _)]
    rfl
  unfold primitive_restart_impl.upload_untouched vector_store_faults
  by_cases hv : (decide (src.length ≥ 32) && !skip) = true
  · have hskip : skip = false := by
      cases skip
      · rfl
      · simp at hv
    subst hskip
    have h32 : 32 ≤ src.length := by simpa using hv
    simp only [hv, if_true, Bool.true_and, decide_eq_true_eq]
    cases T with
    | u16 =>
      simp only [store_alignment]
      by_cases h3 : cpu.s_use_avx3 = true
      · simp only [h3, if_true]
        by_cases ha : dst_addr % 64 = 0
        · rw [if_neg (by simp [ha])]
          exact avx3_u16_closed src dst_addr r ha
        · rw [if_pos ha, avx3_u16_fault src dst_addr r src.length h32 ha]
          rfl
      · have h3' : cpu.s_use_avx3 = false := by simpa using h3
        by_cases h2 : cpu.s_use_avx2 = true
        · simp only [h3', h2, if_true, if_false, Bool.false_eq_true,
            Nat.shiftRight_eq_div_pow]
          by_cases ha : dst_addr % 32 = 0
          · rw [if_neg (by simp [ha])]
            exact chunk_path .u16 src r 16 _
              (avx2_u16_closed src dst_addr r (src.length / 16) (Nat.mul_div_le _ _) ha)
          · rw [if_pos ha, avx2_u16_fault src dst_addr r _
              (Nat.div_pos (le_trans (by decide) h32) (by decide)) ha]
            rfl
        · have h2' : cpu.s_use_avx2 = false := by simpa using h2
          by_cases h1 : cpu.s_use_sse4_1 = true
          · simp only [h3', h2', h1, if_true, if_false, Bool.false_eq_true,
              Nat.shiftRight_eq_div_pow]
            by_cases ha : dst_addr % 16 = 0
            · rw [if_neg (by simp [ha])]
              exact chunk_path .u16 src r 8 _
                (sse4_1_u16_closed src dst_addr r (src.length / 8) (Nat.mul_div_le _ _) ha)
            · rw [if_pos ha, sse4_1_u16_fault src dst_addr r _
                (Nat.div_pos (le_trans (by decide) h32) (by decide)) ha]
              rfl
          · have h1' : cpu.s_use_sse4_1 = false := by simpa using h1
            simp only [h3', h2', h1', if_false, Bool.false_eq_true]
            rw [if_neg (by simp [Nat.mod_one]), hscalar false]
    | u32 =>
      simp only [store_alignment]
      by_cases h1 : cpu.s_use_sse4_1 = true
      · simp only [h1, if_true, Nat.shiftRight_eq_div_pow]
        by_cases ha : dst_addr % 16 = 0
        · rw [if_neg (by simp [ha])]
          exact chunk_path .u32 src r 4 _
            (sse4_1_u32_closed src dst_addr r (src.length / 4) (Nat.mul_div_le _ _) ha)
        · rw [if_pos ha, sse4_1_u32_fault src dst_addr r _
            (Nat.div_pos (le_trans (by decide) h32) (by decide)) ha]
          rfl
      · have h1' : cpu.s_use_sse4_1 = false := by simpa using h1
        simp only [h1', if_false, Bool.false_eq_true]
        rw [if_neg (by simp [Nat.mod_one]), hscalar false]
  · have hv' : (decide (src.length ≥ 32) && !skip) = false := by simpa using hv
    simp only [hv', Bool.false_and, Bool.false_eq_true, if_false]
    rw [hscalar skip]

/-! ## The dispatcher `upload_untouched` -/

theorem restart_fold_no_marker (T : index_array_type) (r : Nat) (skip : Bool)
    (s : upload_result) (vals : List Nat) (h : ∀ v ∈ vals, v ≠ r) :
    restart_fold T r skip s vals =
      { min_index := vals.foldl min s.min_index, max_index := vals.foldl max s.max_index
        count := s.count + vals.length, stores := s.stores ++ vals.enumFrom s.count } := by
  have hf : vals.filter (fun v => decide (v ≠ r)) = vals := by
    rw [List.filter_eq_self]
    intro v hv
    simpa using h v hv
  have hm : vals.map (with_sentinel T r) = vals := by
    conv => rhs; rw [← List.map_id vals]
    apply List.map_congr_left
    intro v hv
    simp [with_sentinel, h v hv]
  unfold restart_fold
  simp only [hf, hm]
  cases skip <;> rfl

theorem upload_untouched_disabled_eq (cpu : cpu_flags) (T : index_array_type) (src : List Nat)
    (dst_addr : Nat) (draw_mode : primitive_type) (ri : Nat) :
    upload_untouched cpu T src dst_addr draw_mode false ri =
      some { min_index := (src.map (byteswap T)).foldl min (index_limit T)
             max_index := (src.map (byteswap T)).foldl max 0
             count := src.length
             stores := (src.map (byteswap T)).enumFrom 0 } := by
  unfold upload_untouched
  simp only [Bool.not_false, if_true]
  rw [untouched_upload_eq T src]

theorem vector_store_faults_ok (cpu : cpu_flags) (T : index_array_type)
    (length dst_addr : Nat) (skip : Bool)
    (h : skip = true ∨ length < 32 ∨ dst_addr % store_alignment cpu T = 0) :
    vector_store_faults cpu T length dst_addr skip = false := by
  unfold vector_store_faults
  rcases h with h | h | h
  · simp [h]
  · have : ¬ length ≥ 32 := by omega
    simp [this]
  · simp [h]

theorem vector_store_faults_bad (cpu : cpu_flags) (T : index_array_type)
    (length dst_addr : Nat) (h32 : 32 ≤ length)
    (ha : dst_addr % store_alignment cpu T ≠ 0) :
    vector_store_faults cpu T length dst_addr false = true := by
  unfold vector_store_faults
  simp [h32, ha]

/-- With restart enabled the dispatcher either runs into the fault of a vector store (the
restart index is within the width, so the restart-aware upload is called, and
`vector_store_faults` holds) or computes the restart-aware fold with the restart index as
given, also for a 16-bit stream and a restart index above `0xffff` (no element can equal
it, and the untouched path is taken). -/
theorem upload_untouched_enabled_eq (cpu : cpu_flags) (T : index_array_type) (src : List Nat)
    (dst_addr : Nat) (draw_mode : primitive_type) (ri : Nat) :
    upload_untouched cpu T src dst_addr draw_mode true ri =
      if (T = .u32 ∨ ri ≤ 0xffff) ∧
          vector_store_faults cpu T src.length dst_addr (is_primitive_disjointed draw_mode)
            = true then none
      else some (restart_fold T ri (is_primitive_disjointed draw_mode)
        { min_index := index_limit T, max_index := 0, count := 0, stores := [] }
        (src.map (byteswap T))) := by
  unfold upload_untouched
  simp only [Bool.not_true, Bool.false_eq_true, if_false]
  cases T with
  | u16 =>
    simp only []
    by_cases h : ri > 0xffff
    · rw [if_pos h, if_neg (by simp; omega), untouched_upload_eq, restart_fold_no_marker]
      · simp
      · intro v hv
        obtain ⟨x, _, rfl⟩ := List.mem_map.mp hv
        have := bswap16_lt x
        simp only [byteswap]
        omega
    · rw [if_neg h, restart_upload_eq]
      have : ri % 65536 = ri := by omega
      rw [this]
      have hr : ri ≤ 0xffff := by omega
      simp only [hr, or_true, true_and]
  | u32 =>
    simp only []
    rw [restart_upload_eq cpu .u32 src dst_addr ri _]
    simp only [true_or, true_and]

theorem upload_untouched_enabled_ok (cpu : cpu_flags) (T : index_array_type) (src : List Nat)
    (dst_addr : Nat) (draw_mode : primitive_type) (ri : Nat)
    (h : is_primitive_disjointed draw_mode = true ∨ src.length < 32 ∨
      dst_addr % store_alignment cpu T = 0 ∨ (T = .u16 ∧ ri > 0xffff)) :
    upload_untouched cpu T src dst_addr draw_mode true ri =
      some (restart_fold T ri (is_primitive_disjointed draw_mode)
        { min_index := index_limit T, max_index := 0, count := 0, stores := [] }
        (src.map (byteswap T))) := by
  rw [upload_untouched_enabled_eq, if_neg]
  rintro ⟨h1, h2⟩
  rcases h with h | h | h | h
  · rw [vector_store_faults_ok cpu T _ _ _ (Or.inl h)] at h2
    exact Bool.noConfusion h2
  · rw [vector_store_faults_ok cpu T _ _ _ (Or.inr (Or.inl h))] at h2
    exact Bool.noConfusion h2
  · rw [vector_store_faults_ok cpu T _ _ _ (Or.inr (Or.inr h))] at h2
    exact Bool.noConfusion h2
  · obtain ⟨hT, hr⟩ := h
    subst hT
    rcases h1 with h1 | h1
    · exact index_array_type.noConfusion h1
    · omega

theorem upload_untouched_enabled_fault (cpu : cpu_flags) (T : index_array_type)
    (src : List Nat) (dst_addr : Nat) (draw_mode : primitive_type) (ri : Nat)
    (hd : is_primitive_disjointed draw_mode = false) (h32 : 32 ≤ src.length)
    (ha : dst_addr % store_alignment cpu T ≠ 0) (hr : T = .u32 ∨ ri ≤ 0xffff) :
    upload_untouched cpu T src dst_addr draw_mode true ri = none := by
  rw [upload_untouched_enabled_eq, if_pos]
  rw [hd]
  exact ⟨hr, vector_store_faults_bad cpu T _ _ h32 ha⟩

theorem upload_untouched_enabled_some (cpu : cpu_flags) (T : index_array_type)
    (src : List Nat) (dst_addr : Nat) (draw_mode : primitive_type) (ri : Nat)
    (r : upload_result) (h : upload_untouched cpu T src dst_addr draw_mode true ri = some r) :
    r = restart_fold T ri (is_primitive_disjointed draw_mode)
        { min_index := index_limit T, max_index := 0, count := 0, stores := [] }
        (src.map (byteswap T)) := by
  rw [upload_untouched_enabled_eq] at h
  split at h
  · exact Option.noConfusion h
  · exact (Option.some.inj h).symm

theorem mem_map_getD (f : Nat → Nat) (src : List Nat) (v : Nat) :
    v ∈ src.map f ↔ ∃ i, i < src.length ∧ f (src.getD i 0) = v := by
  constructor
  · intro h
    obtain ⟨x, hx, rfl⟩ := List.mem_map.mp h
    obtain ⟨i, hi, rfl⟩ := List.getElem_of_mem hx
    exact ⟨i, hi, by rw [List.getD_eq_getElem _ _ hi]⟩
  · rintro ⟨i, hi, rfl⟩
    rw [List.getD_eq_getElem _ _ hi]
    exact List.mem_map.mpr ⟨_, List.getElem_mem _, rfl⟩

theorem getD_map_zero (f : Nat → Nat) (src : List Nat) (i : Nat) (hi : i < src.length) :
    (src.map f).getD i 0 = f (src.getD i 0) := by
  rw [List.getD_eq_getElem _ _ hi, List.getD_eq_getElem _ _ (by simpa using hi),
    List.getElem_map]

/-! ## Claims about the upload kernel -/

theorem fold_range (t : Nat) (vals : List Nat) (hne : vals ≠ []) (hb : ∀ v ∈ vals, v ≤ t) :
    (vals.foldl min t ∈ vals ∧ ∀ v ∈ vals, vals.foldl min t ≤ v) ∧
    (vals.foldl max 0 ∈ vals ∧ ∀ v ∈ vals, v ≤ vals.foldl max 0) :=
  ⟨⟨foldl_min_mem t vals hne hb, fun v hv => foldl_min_le_of_mem vals t v hv⟩,
   ⟨foldl_max_mem vals hne, fun v hv => le_foldl_max_of_mem vals 0 v hv⟩⟩

/-- C1: with primitive restart disabled the untouched upload (scalar reference
`upload_untouched_naive`) returns, on every destination address, `emitted = n`, stores
exactly `byteswap(src[i])` at `dst[i]` for every `i < n`, and for `n > 0` returns as
`min` / `max` the least and the greatest element of `dst[0..n)`. -/
theorem upload_untouched_restart_disabled (cpu : cpu_flags) (T : index_array_type)
    (src : List Nat) (dst_addr : Nat) (draw_mode : primitive_type) (restart_index : Nat) :
    ∃ r, upload_untouched cpu T src dst_addr draw_mode false restart_index = some r ∧
    r.count = src.length ∧
    r.stores = (src.map (byteswap T)).enum ∧
    (∀ (dst : Nat → Nat) (i : Nat), i < src.length →
      written_back r.stores dst i = byteswap T (src.getD i 0)) ∧
    (∀ dst : Nat → Nat, 0 < src.length →
      (∃ i, i < src.length ∧ written_back r.stores dst i = r.min_index) ∧
      (∀ i, i < src.length → r.min_index ≤ written_back r.stores dst i) ∧
      (∃ i, i < src.length ∧ written_back r.stores dst i = r.max_index) ∧
      (∀ i, i < src.length → written_back r.stores dst i ≤ r.max_index)) := by
  refine ⟨_, upload_untouched_disabled_eq cpu T src dst_addr draw_mode restart_index, ?_⟩
  have hwb : ∀ (dst : Nat → Nat) (i : Nat), i < src.length →
      written_back ((src.map (byteswap T)).enumFrom 0) dst i = byteswap T (src.getD i 0) := by
    intro dst i hi
    rw [written_back_enumFrom, if_pos (by simp; exact hi), Nat.sub_zero,
      getD_map_zero _ _ _ hi]
  refine ⟨rfl, rfl, hwb, ?_⟩
  intro dst hpos
  have hne : src.map (byteswap T) ≠ [] := by
    intro h
    rw [List.map_eq_nil_iff] at h
    rw [h] at hpos
    exact Nat.lt_irrefl _ hpos
  have hb : ∀ v ∈ src.map (byteswap T), v ≤ index_limit T := by
    intro v hv
    obtain ⟨x, _, rfl⟩ := List.mem_map.mp hv
    exact byteswap_le_limit T x
  obtain ⟨⟨h1, h2⟩, ⟨h3, h4⟩⟩ := fold_range _ _ hne hb
  simp only []
  refine ⟨?_, ?_, ?_, ?_⟩
  · obtain ⟨i, hi, he⟩ := (mem_map_getD _ _ _).mp h1
    exact ⟨i, hi, by rw [hwb dst i hi, he]⟩
  · intro i hi
    rw [hwb dst i hi]
    exact h2 _ ((mem_map_getD _ _ _).mpr ⟨i, hi, rfl⟩)
  · obtain ⟨i, hi, he⟩ := (mem_map_getD _ _ _).mp h3
    exact ⟨i, hi, by rw [hwb dst i hi, he]⟩
  · intro i hi
    rw [hwb dst i hi]
    exact h4 _ ((mem_map_getD _ _ _).mpr ⟨i, hi, rfl⟩)

/-- Instance of C1: the 16-bit stream `5, 2, 0xffff, 3, 4` (stored big-endian), on an odd
multiple of two as destination address. -/
theorem upload_untouched_restart_disabled_witness :
    upload_untouched ⟨false, false, true⟩ .u16 [1280, 512, 65535, 768, 1024] 6 .triangles
        false 0 = some ⟨2, 65535, 5, [(0, 5), (1, 2), (2, 65535), (3, 3), (4, 4)]⟩ ∧
    ∃ r, upload_untouched ⟨false, false, true⟩ .u16 [1280, 512, 65535, 768, 1024] 6
        .triangles false 0 = some r ∧ r.count = 5 := by
  refine ⟨by decide, ?_⟩
  obtain ⟨r, hr, hc, _⟩ := upload_untouched_restart_disabled ⟨false, false, true⟩ .u16
    [1280, 512, 65535, 768, 1024] 6 .triangles 0
  exact ⟨r, hr, hc⟩

theorem filter_ne_le (T : index_array_type) (r : Nat) (src : List Nat) :
    ∀ v ∈ (src.map (byteswap T)).filter (fun v => decide (v ≠ r)), v ≤ index_limit T := by
  intro v hv
  obtain ⟨x, _, rfl⟩ := List.mem_map.mp (List.mem_filter.mp hv).1
  exact byteswap_le_limit T x

theorem written_back_enum (l : List Nat) (dst : Nat → Nat) (i : Nat) :
    written_back l.enum dst i = if i < l.length then l.getD i 0 else dst i := by
  rw [List.enum, written_back_enumFrom]
  simp

/-- C2: with primitive restart enabled and a disjointed topology the upload returns, on
every destination address, and stores exactly the byte-swapped elements that differ from
`restart_index`, in source order at the consecutive positions `0, 1, ...` (the rest of
the destination is left as it was); `emitted` is their number, hence at most the source
count, and `min` / `max` are the least and the greatest of them. -/
theorem upload_untouched_restart_disjointed (cpu : cpu_flags) (T : index_array_type)
    (src : List Nat) (dst_addr : Nat) (draw_mode : primitive_type) (restart_index : Nat)
    (hd : is_primitive_disjointed draw_mode = true) :
    ∃ r, upload_untouched cpu T src dst_addr draw_mode true restart_index = some r ∧
    r.stores =
      ((src.map (byteswap T)).filter (fun v => decide (v ≠ restart_index))).enum ∧
    (∀ (dst : Nat → Nat) (i : Nat),
      written_back r.stores dst i =
        if i < ((src.map (byteswap T)).filter (fun v => decide (v ≠ restart_index))).length
        then ((src.map (byteswap T)).filter (fun v => decide (v ≠ restart_index))).getD i 0
        else dst i) ∧
    r.count =
      ((src.map (byteswap T)).filter (fun v => decide (v ≠ restart_index))).length ∧
    r.count ≤ src.length ∧
    ((src.map (byteswap T)).filter (fun v => decide (v ≠ restart_index)) ≠ [] →
      (r.min_index ∈
          (src.map (byteswap T)).filter (fun v => decide (v ≠ restart_index)) ∧
        ∀ v ∈ (src.map (byteswap T)).filter (fun v => decide (v ≠ restart_index)),
          r.min_index ≤ v) ∧
      (r.max_index ∈
          (src.map (byteswap T)).filter (fun v => decide (v ≠ restart_index)) ∧
        ∀ v ∈ (src.map (byteswap T)).filter (fun v => decide (v ≠ restart_index)),
          v ≤ r.max_index)) := by
  refine ⟨_, upload_untouched_enabled_ok cpu T src dst_addr draw_mode restart_index
    (Or.inl hd), ?_⟩
  rw [hd]
  have hst : (restart_fold T restart_index true
      { min_index := index_limit T, max_index := 0, count := 0, stores := [] }
      (src.map (byteswap T))).stores =
      ((src.map (byteswap T)).filter (fun v => decide (v ≠ restart_index))).enum := by
    simp only [restart_fold, if_true, List.nil_append]; rfl
  have hc : (restart_fold T restart_index true
      { min_index := index_limit T, max_index := 0, count := 0, stores := [] }
      (src.map (byteswap T))).count =
      ((src.map (byteswap T)).filter (fun v => decide (v ≠ restart_index))).length := by
    simp only [restart_fold, if_true, Nat.zero_add]
  refine ⟨hst, ?_, hc, ?_, ?_⟩
  · intro dst i
    rw [hst]; exact written_back_enum _ dst i
  · rw [hc]
    have := List.length_filter_le (fun v => decide (v ≠ restart_index)) (src.map (byteswap T))
    simpa using this
  · intro hne
    exact fold_range _ _ hne (filter_ne_le T restart_index src)

/-- Instance of C2: `src = [1, 2, RESTART, 3, 4]` with `RESTART = 0xffff`, points. -/
theorem upload_untouched_restart_disjointed_witness :
    is_primitive_disjointed .points = true ∧
    upload_untouched ⟨false, false, true⟩ .u16 [256, 512, 65535, 768, 1024] 6 .points
        true 65535 = some ⟨1, 4, 4, [(0, 1), (1, 2), (2, 3), (3, 4)]⟩ ∧
    ∃ r, upload_untouched ⟨false, false, true⟩ .u16 [256, 512, 65535, 768, 1024] 6 .points
        true 65535 = some r ∧ r.count ≤ 5 := by
  refine ⟨by decide, by decide, ?_⟩
  obtain ⟨r, hr, _, _, _, hle, _⟩ := upload_untouched_restart_disjointed
    ⟨false, false, true⟩ .u16 [256, 512, 65535, 768, 1024] 6 .points 65535 (by decide)
  exact ⟨r, hr, hle⟩

/-- C3 (as amended): with primitive restart enabled and a joined topology, for a stream of
fewer than 32 elements, or a destination address that is a multiple of the alignment of
the vector kernel the CPU flags select (`store_alignment`: 64, 32 or 16 bytes, 1 without
a kernel), or a 16-bit stream with a restart index above `0xffff`, the upload returns
`emitted = n` and stores at every `dst[i]`, `i < n`, the all-ones value of the element
width when `byteswap(src[i])` equals `restart_index` and `byteswap(src[i])` otherwise;
`min` / `max` are the least and the greatest of the elements that are not markers.  For
32 or more elements, a restart index within the width and a destination address that is
not such a multiple, the aligned store of the kernel faults and nothing is returned. -/
theorem upload_untouched_restart_joined (cpu : cpu_flags) (T : index_array_type)
    (src : List Nat) (dst_addr : Nat) (draw_mode : primitive_type) (restart_index : Nat)
    (hd : is_primitive_disjointed draw_mode = false) :
    ((src.length < 32 ∨ dst_addr % store_alignment cpu T = 0 ∨
        (T = .u16 ∧ restart_index > 0xffff)) →
      ∃ r, upload_untouched cpu T src dst_addr draw_mode true restart_index = some r ∧
      r.count = src.length ∧
      r.stores =
        (src.map (fun x => if byteswap T x = restart_index then index_limit T
          else byteswap T x)).enum ∧
      (∀ (dst : Nat → Nat) (i : Nat), i < src.length →
        written_back r.stores dst i =
          if byteswap T (src.getD i 0) = restart_index then index_limit T
          else byteswap T (src.getD i 0)) ∧
      ((src.map (byteswap T)).filter (fun v => decide (v ≠ restart_index)) ≠ [] →
        (r.min_index ∈
            (src.map (byteswap T)).filter (fun v => decide (v ≠ restart_index)) ∧
          ∀ v ∈ (src.map (byteswap T)).filter (fun v => decide (v ≠ restart_index)),
            r.min_index ≤ v) ∧
        (r.max_index ∈
            (src.map (byteswap T)).filter (fun v => decide (v ≠ restart_index)) ∧
          ∀ v ∈ (src.map (byteswap T)).filter (fun v => decide (v ≠ restart_index)),
            v ≤ r.max_index))) ∧
    (32 ≤ src.length → dst_addr % store_alignment cpu T ≠ 0 →
      (T = .u32 ∨ restart_index ≤ 0xffff) →
      upload_untouched cpu T src dst_addr draw_mode true restart_index = none) := by
  refine ⟨?_, fun h32 ha hr =>
    upload_untouched_enabled_fault cpu T src dst_addr draw_mode restart_index hd h32 ha hr⟩
  intro hok
  refine ⟨_, upload_untouched_enabled_ok cpu T src dst_addr draw_mode restart_index
    (Or.inr hok), ?_⟩
  rw [hd]
  have hst : (restart_fold T restart_index false
      { min_index := index_limit T, max_index := 0, count := 0, stores := [] }
      (src.map (byteswap T))).stores =
      (src.map (fun x => if byteswap T x = restart_index then index_limit T
        else byteswap T x)).enum := by
    simp only [restart_fold, Bool.false_eq_true, if_false, List.nil_append, List.map_map,
      Function.comp_def, with_sentinel]
    rfl
  have hc : (restart_fold T restart_index false
      { min_index := index_limit T, max_index := 0, count := 0, stores := [] }
      (src.map (byteswap T))).count = src.length := by
    simp only [restart_fold, Bool.false_eq_true, if_false, Nat.zero_add, List.length_map]
  refine ⟨hc, hst, ?_, ?_⟩
  · intro dst i hi
    rw [hst, written_back_enum, List.length_map, if_pos hi,
      getD_map_zero (fun x => if byteswap T x = restart_index then index_limit T
        else byteswap T x) _ _ hi]
  · intro hne
    exact fold_range _ _ hne (filter_ne_le T restart_index src)

/-- Instance of C3: `src = [1, 2, RESTART, 3, 4]` with `RESTART = 0xfffe`, line strip;
the marker is stored as the sentinel `0xffff`. -/
theorem upload_untouched_restart_joined_witness :
    is_primitive_disjointed .line_strip = false ∧
    upload_untouched ⟨false, false, true⟩ .u16 [256, 512, 65279, 768, 1024] 6 .line_strip
        true 65534 = some ⟨1, 4, 5, [(0, 1), (1, 2), (2, 65535), (3, 3), (4, 4)]⟩ ∧
    ∃ r, upload_untouched ⟨false, false, true⟩ .u16 [256, 512, 65279, 768, 1024] 6
        .line_strip true 65534 = some r ∧ r.count = 5 := by
  refine ⟨by decide, by decide, ?_⟩
  obtain ⟨r, hr, hc, _⟩ := (upload_untouched_restart_joined ⟨false, false, true⟩ .u16
    [256, 512, 65279, 768, 1024] 6 .line_strip 65534 (by decide)).1 (Or.inl (by decide))
  exact ⟨r, hr, hc⟩

/-- C3 fails as stated on a destination that is not aligned for the vector kernel: a
joined stream of 32 sixteen-bit elements, SSE4.1 selected, destination address 2.  The
first `_mm_store_si128` faults and no tuple is returned. -/
theorem upload_untouched_restart_joined_counterexample :
    is_primitive_disjointed .line_strip = false ∧
    upload_untouched ⟨false, false, true⟩ .u16 (List.replicate 32 256) 2 .line_strip
        true 65535 = none ∧
    (upload_untouched ⟨false, false, true⟩ .u16 (List.replicate 32 256) 0 .line_strip
        true 65535).map (fun r => r.count) = some 32 := by
  decide

/-! ## Claims about the facade -/

theorem foldl_inv {σ α : Type} (P : σ → Prop) (f : σ → α → σ)
    (hstep : ∀ s x, P s → P (f s x)) : ∀ (l : List α) (s : σ), P s → P (l.foldl f s) := by
  intro l
  induction l with
  | nil => intro s h; exact h
  | cons x l ih => intro s h; exact ih _ (hstep s x h)

theorem min_max_le (mn mx v : Nat) : (min_max mn mx v).1 ≤ (min_max mn mx v).2 := by
  rw [min_max_eq]
  simp only []
  omega

theorem fan_step_inv (T : index_array_type) (en : Bool) (ri : Nat) (s : fan_state) (raw : Nat)
    (h : s.dst_idx = 0 ∨ s.min_index ≤ s.max_index) :
    (expand_indexed_triangle_fan_step T en ri s raw).dst_idx = 0 ∨
      (expand_indexed_triangle_fan_step T en ri s raw).min_index ≤
        (expand_indexed_triangle_fan_step T en ri s raw).max_index := by
  unfold expand_indexed_triangle_fan_step
  simp only []
  split
  · split
    · exact h
    · exact Or.inr (min_max_le _ _ _)
  · split
    · exact h
    · split
      · exact Or.inr (min_max_le _ _ _)
      · exact Or.inr (min_max_le _ _ _)

theorem quads_step_inv (T : index_array_type) (en : Bool) (ri : Nat) (s : quads_state)
    (raw : Nat) (h : s.dst_idx = 0 ∨ s.min_index ≤ s.max_index) :
    (expand_indexed_quads_step T en ri s raw).dst_idx = 0 ∨
      (expand_indexed_quads_step T en ri s raw).min_index ≤
        (expand_indexed_quads_step T en ri s raw).max_index := by
  unfold expand_indexed_quads_step
  simp only []
  split
  · exact h
  · split
    · exact Or.inr (min_max_le _ _ _)
    · exact Or.inr (min_max_le _ _ _)

theorem fan_range (T : index_array_type) (src : List Nat) (dst_size : Nat) (en : Bool)
    (ri : Nat) (r : upload_result)
    (h : expand_indexed_triangle_fan T src dst_size en ri = some r) (hc : 0 < r.count) :
    r.min_index ≤ r.max_index := by
  unfold expand_indexed_triangle_fan at h
  split at h
  · have hinv := foldl_inv (fun s : fan_state => s.dst_idx = 0 ∨ s.min_index ≤ s.max_index)
      (expand_indexed_triangle_fan_step T en ri) (fun s x hs => fan_step_inv T en ri s x hs) src
      { min_index := index_limit T, max_index := 0, dst_idx := 0, needs_anchor := true
        anchor := index_limit T, last_index := index_limit T, stores := [] } (Or.inl rfl)
    simp only [Option.some.injEq] at h
    rw [← h] at hc ⊢
    simp only [] at hc ⊢
    rcases hinv with h0 | h1
    · omega
    · exact h1
  · exact absurd h (by simp)

theorem quads_range (T : index_array_type) (src : List Nat) (dst_size : Nat) (en : Bool)
    (ri : Nat) (r : upload_result)
    (h : expand_indexed_quads T src dst_size en ri = some r) (hc : 0 < r.count) :
    r.min_index ≤ r.max_index := by
  unfold expand_indexed_quads at h
  split at h
  · have hinv := foldl_inv (fun s : quads_state => s.dst_idx = 0 ∨ s.min_index ≤ s.max_index)
      (expand_indexed_quads_step T en ri) (fun s x hs => quads_step_inv T en ri s x hs) src
      { min_index := index_limit T, max_index := 0, dst_idx := 0, set_size := 0
        tmp_indices := [0, 0, 0, 0], stores := [] } (Or.inl rfl)
    simp only [Option.some.injEq] at h
    rw [← h] at hc ⊢
    simp only [] at hc ⊢
    rcases hinv with h0 | h1
    · omega
    · exact h1
  · exact absurd h (by simp)

theorem fold_min_le_max (l : List Nat) (a b v : Nat) (hv : v ∈ l) :
    l.foldl min a ≤ l.foldl max b :=
  le_trans (foldl_min_le_of_mem l a v hv) (le_foldl_max_of_mem l b v hv)

theorem upload_range (cpu : cpu_flags) (T : index_array_type) (src : List Nat)
    (dst_addr : Nat) (draw_mode : primitive_type) (en : Bool) (ri : Nat) (r : upload_result)
    (h : upload_untouched cpu T src dst_addr draw_mode en ri = some r)
    (hx : ∃ x ∈ src, ¬ (en = true ∧ byteswap T x = ri)) :
    r.min_index ≤ r.max_index := by
  obtain ⟨x, hxs, hxm⟩ := hx
  cases en with
  | false =>
    rw [upload_untouched_disabled_eq] at h
    rw [← Option.some.inj h]
    exact fold_min_le_max _ _ _ (byteswap T x) (List.mem_map.mpr ⟨x, hxs, rfl⟩)
  | true =>
    rw [upload_untouched_enabled_some cpu T src dst_addr draw_mode ri r h]
    have hne : byteswap T x ≠ ri := fun e => hxm ⟨rfl, e⟩
    unfold restart_fold
    apply fold_min_le_max _ _ _ (byteswap T x)
    rw [List.mem_filter]
    exact ⟨List.mem_map.mpr ⟨x, hxs, rfl⟩, by simpa using hne⟩

/-- When `expands(topology)` is false the facade is the dispatcher `upload_untouched` of
the selected width. -/
theorem facade_upload (cpu : cpu_flags) (dst_addr dst_bytes : Nat) (src : List Nat)
    (type : index_array_type) (draw_mode : primitive_type) (en : Bool) (ri : Nat)
    (expands : primitive_type → Bool) (he : expands draw_mode = false) :
    write_index_array_data_to_buffer cpu dst_addr dst_bytes src type draw_mode en ri expands =
      upload_untouched cpu type src dst_addr draw_mode en ri := by
  cases type <;>
  simp [write_index_array_data_to_buffer, write_index_array_data_to_buffer_impl, he]

theorem restart_fold_all_markers (T : index_array_type) (r : Nat) (s : upload_result)
    (vals : List Nat) (h : ∀ v ∈ vals, v = r) :
    (restart_fold T r false s vals).min_index = s.min_index ∧
    (restart_fold T r false s vals).max_index = s.max_index ∧
    (restart_fold T r false s vals).count = s.count + vals.length := by
  have hf : vals.filter (fun v => decide (v ≠ r)) = [] := by
    rw [List.filter_eq_nil_iff]
    intro v hv
    simp [h v hv]
  unfold restart_fold
  simp only [hf, List.foldl_nil, Bool.false_eq_true, if_false, List.length_map]
  exact ⟨trivial, trivial, trivial⟩

/-- C4, as the code has it: whenever the facade returns a triple with `emitted > 0` and the
source holds at least one element that is not a restart marker (restart disabled, or its
byte-swapped value differs from the restart index), `min <= max`; this holds for every
width, topology, restart configuration, expansion predicate and destination.  A joined
upload (`expands` false, restart enabled) of a stream made only of restart markers
returns, whenever it returns, `emitted = n` with `min` all-bits-set and `max = 0`; it
returns for fewer than 32 elements and on a destination aligned for the selected vector
kernel. -/
theorem index_range_invariant (cpu : cpu_flags) (dst_addr dst_bytes : Nat) (src : List Nat)
    (type : index_array_type) (draw_mode : primitive_type) (restart_index_enabled : Bool)
    (restart_index : Nat) (expands : primitive_type → Bool) :
    (∀ r, write_index_array_data_to_buffer cpu dst_addr dst_bytes src type draw_mode
        restart_index_enabled restart_index expands = some r →
      0 < r.count →
      (∃ x ∈ src, ¬ (restart_index_enabled = true ∧ byteswap type x = restart_index)) →
      r.min_index ≤ r.max_index) ∧
    (expands draw_mode = false → restart_index_enabled = true →
      is_primitive_disjointed draw_mode = false →
      (∀ x ∈ src, byteswap type x = restart_index) →
      (∀ r, write_index_array_data_to_buffer cpu dst_addr dst_bytes src type draw_mode
          restart_index_enabled restart_index expands = some r →
        r.min_index = index_limit type ∧ r.max_index = 0 ∧ r.count = src.length) ∧
      (src.length < 32 ∨ dst_addr % store_alignment cpu type = 0 →
        write_index_array_data_to_buffer cpu dst_addr dst_bytes src type draw_mode
          restart_index_enabled restart_index expands ≠ none)) := by
  have himpl : ∀ (T : index_array_type) (dst_size : Nat) (r : upload_result),
      0 < r.count →
      (∃ x ∈ src, ¬ (restart_index_enabled = true ∧ byteswap T x = restart_index)) →
      write_index_array_data_to_buffer_impl cpu T dst_addr dst_size src draw_mode
        restart_index_enabled restart_index expands = some r →
      r.min_index ≤ r.max_index := by
    intro T dst_size r hc hx' h'
    unfold write_index_array_data_to_buffer_impl at h'
    by_cases he : expands draw_mode = true
    · simp only [he, Bool.not_true, Bool.false_eq_true, if_false] at h'
      cases draw_mode with
      | line_loop =>
        obtain ⟨rv, hrv, hr⟩ := Option.map_eq_some'.mp h'
        rw [← hr]
        exact upload_range cpu T src dst_addr _ _ _ rv hrv hx'
      | polygon => exact fan_range T src dst_size _ _ r h' hc
      | triangle_fan => exact fan_range T src dst_size _ _ r h' hc
      | quads => exact quads_range T src dst_size _ _ r h' hc
      | points => exact Option.noConfusion h'
      | lines => exact Option.noConfusion h'
      | line_strip => exact Option.noConfusion h'
      | triangles => exact Option.noConfusion h'
      | triangle_strip => exact Option.noConfusion h'
      | quad_strip => exact Option.noConfusion h'
      | invalid => exact Option.noConfusion h'
    · simp only [he, Bool.not_false, if_true] at h'
      exact upload_range cpu T src dst_addr _ _ _ r h' hx'
  refine ⟨?_, ?_⟩
  · intro r h hc hx
    unfold write_index_array_data_to_buffer at h
    cases type with
    | u16 => exact himpl .u16 _ r hc hx h
    | u32 => exact himpl .u32 _ r hc hx h
  · intro he hen hd hall
    subst hen
    rw [facade_upload cpu dst_addr dst_bytes src type draw_mode true restart_index expands he]
    refine ⟨?_, ?_⟩
    · intro r h
      rw [upload_untouched_enabled_some cpu type src dst_addr draw_mode restart_index r h, hd]
      obtain ⟨h1, h2, h3⟩ := restart_fold_all_markers type restart_index
        { min_index := index_limit type, max_index := 0, count := 0, stores := [] }
        (src.map (byteswap type))
        (by
          intro v hv
          obtain ⟨x, hx, rfl⟩ := List.mem_map.mp hv
          exact hall x hx)
      rw [h1, h2, h3]
      simp
    · intro hok
      rw [upload_untouched_enabled_ok cpu type src dst_addr draw_mode restart_index
        (by
          rcases hok with hok | hok
          · exact Or.inr (Or.inl hok)
          · exact Or.inr (Or.inr (Or.inl hok)))]
      simp

/-- Instance of the amended C4: a joined stream with one marker among four indices. -/
theorem index_range_invariant_witness :
    write_index_array_data_to_buffer ⟨false, false, true⟩ 6 10 [256, 512, 65535, 768, 1024]
        .u16 .line_strip true 65535 (fun _ => false) =
      some ⟨1, 4, 5, [(0, 1), (1, 2), (2, 65535), (3, 3), (4, 4)]⟩ ∧
    (1 : Nat) ≤ 4 :=
  ⟨by decide,
   (index_range_invariant ⟨false, false, true⟩ 6 10 [256, 512, 65535, 768, 1024]
     .u16 .line_strip true 65535 (fun _ => false)).1
     ⟨1, 4, 5, [(0, 1), (1, 2), (2, 65535), (3, 3), (4, 4)]⟩ (by decide) (by decide)
     ⟨256, by decide, by decide⟩⟩

/-- C4 fails as stated: a joined stream that consists of one restart marker is uploaded as
one sentinel, so `emitted = 1`, while `min = 0xffff` and `max = 0` keep their initial
values. -/
theorem index_range_invariant_counterexample :
    ∃ r, write_index_array_data_to_buffer ⟨false, false, true⟩ 6 2 [65535] .u16 .line_strip
        true 65535 (fun _ => false) = some r ∧
      r = ⟨65535, 0, 1, [(0, 65535)]⟩ ∧ 0 < r.count ∧ ¬ r.min_index ≤ r.max_index :=
  ⟨⟨65535, 0, 1, [(0, 65535)]⟩, by decide, rfl, by decide, by decide⟩

theorem fan_step_out_of_range (ri : Nat) (h : ri > 0xFFFF) :
    expand_indexed_triangle_fan_step .u16 true ri =
      expand_indexed_triangle_fan_step .u16 false ri := by
  funext s raw
  have hne : ¬ byteswap .u16 raw = ri := by
    have := bswap16_lt raw
    simp only [byteswap]
    omega
  unfold expand_indexed_triangle_fan_step
  simp [hne]

theorem quads_step_out_of_range (ri : Nat) (h : ri > 0xFFFF) :
    expand_indexed_quads_step .u16 true ri = expand_indexed_quads_step .u16 false ri := by
  funext s raw
  have hne : ¬ byteswap .u16 raw = ri := by
    have := bswap16_lt raw
    simp only [byteswap]
    omega
  unfold expand_indexed_quads_step
  simp [hne]

/-- C5: for a 16-bit stream and a restart index above `0xffff` the facade gives, with
restart enabled, the very result it gives with restart disabled: the same failure or the
same triple and the same stores, for every topology, expansion predicate, stream and
destination. -/
theorem restart_index_out_of_range (cpu : cpu_flags) (dst_addr dst_bytes : Nat)
    (src : List Nat) (draw_mode : primitive_type) (restart_index : Nat)
    (expands : primitive_type → Bool) (h : restart_index > 0xFFFF) :
    write_index_array_data_to_buffer cpu dst_addr dst_bytes src .u16 draw_mode true
        restart_index expands =
      write_index_array_data_to_buffer cpu dst_addr dst_bytes src .u16 draw_mode false
        restart_index expands := by
  have hu : upload_untouched cpu .u16 src dst_addr draw_mode true restart_index =
      upload_untouched cpu .u16 src dst_addr draw_mode false restart_index := by
    unfold upload_untouched
    simp [h]
  unfold write_index_array_data_to_buffer write_index_array_data_to_buffer_impl
    expand_indexed_triangle_fan expand_indexed_quads
  simp only [hu, fan_step_out_of_range restart_index h, quads_step_out_of_range restart_index h]

/-- Instance of C5: restart index `0x10000` on a 16-bit quad list. -/
theorem restart_index_out_of_range_witness :
    (65536 : Nat) > 0xFFFF ∧
    write_index_array_data_to_buffer ⟨false, false, true⟩ 6 12 [0, 256, 512, 768] .u16
        .quads true 65536 (fun _ => true) =
      write_index_array_data_to_buffer ⟨false, false, true⟩ 6 12 [0, 256, 512, 768] .u16
        .quads false 65536 (fun _ => true) :=
  ⟨by decide,
   restart_index_out_of_range ⟨false, false, true⟩ 6 12 [0, 256, 512, 768] .quads 65536
     (fun _ => true) (by decide)⟩

/-! ## Claims about the triangle-fan expander -/

theorem fan_triangles_length (a : Nat) (xs : List Nat) :
    ∀ l : Nat, (fan_triangles a l xs).length = 3 * xs.length := by
  induction xs with
  | nil => intro l; rfl
  | cons x xs ih =>
    intro l
    simp only [fan_triangles, List.length_cons, ih x]
    omega

theorem fan_triangles_getD (a : Nat) (xs : List Nat) :
    ∀ (l k : Nat), k < xs.length →
      (fan_triangles a l xs).getD (3 * k) 0 = a ∧
      (fan_triangles a l xs).getD (3 * k + 1) 0 = (l :: xs).getD k 0 ∧
      (fan_triangles a l xs).getD (3 * k + 2) 0 = xs.getD k 0 := by
  induction xs with
  | nil => intro l k h; simp at h
  | cons x xs ih =>
    intro l k h
    cases k with
    | zero => simp [fan_triangles]
    | succ k =>
      have hk : k < xs.length := by simpa using h
      obtain ⟨h1, h2, h3⟩ := ih x k hk
      have e0 : 3 * (k + 1) = 3 * k + 1 + 1 + 1 := by omega
      have e1 : 3 * (k + 1) + 1 = 3 * k + 1 + 1 + 1 + 1 := by omega
      have e2 : 3 * (k + 1) + 2 = 3 * k + 2 + 1 + 1 + 1 := by omega
      refine ⟨?_, ?_, ?_⟩
      · rw [e0]; simp only [fan_triangles, List.getD_cons_succ]; exact h1
      · rw [e1]; simp only [fan_triangles, List.getD_cons_succ]; exact h2
      · rw [e2]; simp only [fan_triangles, List.getD_cons_succ]; exact h3

theorem mem_dropLast_cons (x : Nat) (xs : List Nat) (h : xs ≠ []) :
    (x :: xs).dropLast = x :: xs.dropLast := by
  cases xs with
  | nil => exact absurd rfl h
  | cons y ys => rfl

/-- The fan loop after the anchor and the first outer index are known, restart disabled:
every further index closes one triangle, provided no index but the last read is all-ones. -/
theorem fan_tail (T : index_array_type) (ri : Nat) (xs : List Nat) :
    ∀ s : fan_state, s.needs_anchor = false →
      (xs ≠ [] → s.last_index ≠ index_limit T) →
      (∀ x ∈ xs.dropLast, byteswap T x ≠ index_limit T) →
      (xs.foldl (expand_indexed_triangle_fan_step T false ri) s).dst_idx =
        s.dst_idx + 3 * xs.length ∧
      (xs.foldl (expand_indexed_triangle_fan_step T false ri) s).stores =
        s.stores ++
          (fan_triangles s.anchor s.last_index (xs.map (byteswap T))).enumFrom s.dst_idx := by
  induction xs with
  | nil => intro s _ _ _; simp [fan_triangles]
  | cons x xs ih =>
    intro s hna hlast hmid
    have hl : s.last_index ≠ index_limit T := hlast (by simp)
    have hstep : expand_indexed_triangle_fan_step T false ri s x =
        { s with
          min_index := (min_max s.min_index s.max_index (byteswap T x)).1
          max_index := (min_max s.min_index s.max_index (byteswap T x)).2
          last_index := byteswap T x, dst_idx := s.dst_idx + 3
          stores := s.stores ++ [(s.dst_idx, s.anchor), (s.dst_idx + 1, s.last_index),
            (s.dst_idx + 2, byteswap T x)] } := by
      unfold expand_indexed_triangle_fan_step
      simp [hna, hl]
    obtain ⟨s1, hs1⟩ : ∃ s1, s1 = expand_indexed_triangle_fan_step T false ri s x := ⟨_, rfl⟩
    have f1 : s1.needs_anchor = false := by rw [hs1, hstep]; exact hna
    have f2 : s1.last_index = byteswap T x := by rw [hs1, hstep]
    have f3 : s1.anchor = s.anchor := by rw [hs1, hstep]
    have f4 : s1.dst_idx = s.dst_idx + 3 := by rw [hs1, hstep]
    have f5 : s1.stores = s.stores ++ [(s.dst_idx, s.anchor), (s.dst_idx + 1, s.last_index),
        (s.dst_idx + 2, byteswap T x)] := by rw [hs1, hstep]
    rw [List.foldl_cons, ← hs1]
    have h1 := ih s1 f1
      (by
        intro hne
        rw [f2]
        apply hmid
        rw [mem_dropLast_cons x xs hne]
        exact List.mem_cons_self _ _)
      (by
        intro y hy
        apply hmid
        cases xs with
        | nil => simp at hy
        | cons z zs =>
          rw [mem_dropLast_cons x (z :: zs) (by simp)]
          exact List.mem_cons_of_mem _ hy)
    obtain ⟨hd, hs⟩ := h1
    refine ⟨?_, ?_⟩
    · rw [hd, f4]; simp only [List.length_cons]; omega
    · rw [hs, f2, f3, f4, f5]
      simp only [List.map_cons, fan_triangles, List.enumFrom_cons, List.append_assoc,
        List.cons_append, List.nil_append]

/-- Closed form of the fan expander with restart disabled. -/
theorem fan_disabled_eq (T : index_array_type) (x0 x1 : Nat) (xs : List Nat) (dst_size ri : Nat)
    (hcap : 3 * xs.length ≤ dst_size)
    (hmid : ∀ x ∈ (x1 :: xs).dropLast, byteswap T x ≠ index_limit T) :
    ∃ r, expand_indexed_triangle_fan T (x0 :: x1 :: xs) dst_size false ri = some r ∧
      r.count = 3 * xs.length ∧
      r.stores = (fan_triangles (byteswap T x0) (byteswap T x1)
        (xs.map (byteswap T))).enumFrom 0 := by
  have hens : dst_size ≥ (3 * (((x0 :: x1 :: xs).length + 2 ^ 64 - 2) % 2 ^ 64)) % 2 ^ 64 := by
    simp only [List.length_cons]
    omega
  unfold expand_indexed_triangle_fan
  rw [if_pos hens]
  have h0 : expand_indexed_triangle_fan_step T false ri
      { min_index := index_limit T, max_index := 0, dst_idx := 0, needs_anchor := true
        anchor := index_limit T, last_index := index_limit T, stores := [] } x0 =
      { min_index := (min_max (index_limit T) 0 (byteswap T x0)).1
        max_index := (min_max (index_limit T) 0 (byteswap T x0)).2
        dst_idx := 0, needs_anchor := false
        anchor := byteswap T x0, last_index := index_limit T, stores := [] } := by
    unfold expand_indexed_triangle_fan_step
    simp
  rw [List.foldl_cons, h0]
  have h1 : ∀ mn mx, expand_indexed_triangle_fan_step T false ri
      { min_index := mn, max_index := mx
        dst_idx := 0, needs_anchor := false
        anchor := byteswap T x0, last_index := index_limit T, stores := [] } x1 =
      { min_index := (min_max mn mx (byteswap T x1)).1
        max_index := (min_max mn mx (byteswap T x1)).2
        dst_idx := 0, needs_anchor := false
        anchor := byteswap T x0, last_index := byteswap T x1, stores := [] } := by
    intro mn mx
    unfold expand_indexed_triangle_fan_step
    simp
  rw [List.foldl_cons, h1]
  obtain ⟨hd, hs⟩ := fan_tail T ri xs
    { min_index := (min_max (min_max (index_limit T) 0 (byteswap T x0)).1
        (min_max (index_limit T) 0 (byteswap T x0)).2 (byteswap T x1)).1
      max_index := (min_max (min_max (index_limit T) 0 (byteswap T x0)).1
        (min_max (index_limit T) 0 (byteswap T x0)).2 (byteswap T x1)).2
      dst_idx := 0, needs_anchor := false
      anchor := byteswap T x0, last_index := byteswap T x1, stores := [] } rfl
    (by
      intro hne
      apply hmid
      rw [mem_dropLast_cons x1 xs hne]
      exact List.mem_cons_self _ _)
    (by
      intro y hy
      apply hmid
      cases xs with
      | nil => simp at hy
      | cons z zs =>
        rw [mem_dropLast_cons x1 (z :: zs) (by simp)]
        exact List.mem_cons_of_mem _ hy)
  refine ⟨_, rfl, ?_, ?_⟩
  · simp only [hd, Nat.zero_add]
  · simp only [hs, List.nil_append]
theorem enumFrom_zero_fst (l : List Nat) :
    (l.enumFrom 0).map Prod.fst = List.range l.length := by
  rw [List.enumFrom_map_fst, List.range_eq_range']

/-- C6, as the code has it: with restart disabled, for a stream of `n >= 2` indices in which
no index other than the first and the last has the all-ones value, and a destination of at
least `3 * (n - 2)` elements, `expand_indexed_triangle_fan` returns `emitted = 3 * (n - 2)`,
stores to exactly the positions `0 .. 3 * (n - 2) - 1` in order, and leaves the triangle
`(s[0], s[k+1], s[k+2])` (byte-swapped) at `dst[3k .. 3k+3)` for every `k < n - 2`. -/
theorem expand_indexed_triangle_fan_restart_disabled (T : index_array_type) (src : List Nat)
    (dst_size restart_index : Nat) (hn : 2 ≤ src.length)
    (hcap : 3 * (src.length - 2) ≤ dst_size)
    (hmid : ∀ x ∈ src.tail.dropLast, byteswap T x ≠ index_limit T) :
    ∃ r, expand_indexed_triangle_fan T src dst_size false restart_index = some r ∧
      r.count = 3 * (src.length - 2) ∧
      r.stores.map Prod.fst = List.range (3 * (src.length - 2)) ∧
      ∀ (dst : Nat → Nat) (k : Nat), k < src.length - 2 →
        written_back r.stores dst (3 * k) = byteswap T (src.getD 0 0) ∧
        written_back r.stores dst (3 * k + 1) = byteswap T (src.getD (k + 1) 0) ∧
        written_back r.stores dst (3 * k + 2) = byteswap T (src.getD (k + 2) 0) := by
  match src, hn, hcap, hmid with
  | x0 :: x1 :: xs, _, hcap, hmid =>
    have hlen : (x0 :: x1 :: xs).length - 2 = xs.length := by simp
    rw [hlen] at hcap ⊢
    obtain ⟨r, hr, hc, hs⟩ := fan_disabled_eq T x0 x1 xs dst_size restart_index hcap hmid
    refine ⟨r, hr, hc, ?_, ?_⟩
    · rw [hs, enumFrom_zero_fst, fan_triangles_length, List.length_map]
    · intro dst k hk
      have hk' : k < (xs.map (byteswap T)).length := by simpa using hk
      obtain ⟨g0, g1, g2⟩ := fan_triangles_getD (byteswap T x0) (xs.map (byteswap T))
        (byteswap T x1) k hk'
      have hL := fan_triangles_length (byteswap T x0) (xs.map (byteswap T)) (byteswap T x1)
      rw [List.length_map] at hL
      rw [hs]
      refine ⟨?_, ?_, ?_⟩
      · rw [written_back_enumFrom, if_pos (by rw [hL]; omega), Nat.sub_zero, g0]
        rfl
      · rw [written_back_enumFrom, if_pos (by rw [hL]; omega), Nat.sub_zero, g1]
        have : (byteswap T x1 :: xs.map (byteswap T)) = (x1 :: xs).map (byteswap T) := rfl
        rw [this, getD_map_zero _ _ _ (by simp; omega)]
        rfl
      · rw [written_back_enumFrom, if_pos (by rw [hL]; omega), Nat.sub_zero, g2,
          getD_map_zero _ _ _ hk]
        rfl

/-- Instance of the amended C6: `src = [0, 1, 2, 3]` gives `dst = [0, 1, 2, 0, 2, 3]`,
`emitted = 6`. -/
theorem expand_indexed_triangle_fan_restart_disabled_witness :
    expand_indexed_triangle_fan .u16 [0, 256, 512, 768] 6 false 0 =
      some ⟨0, 3, 6, [(0, 0), (1, 1), (2, 2), (3, 0), (4, 2), (5, 3)]⟩ ∧
    ∃ r, expand_indexed_triangle_fan .u16 [0, 256, 512, 768] 6 false 0 = some r ∧
      r.count = 3 * (4 - 2) ∧
      r.stores.map Prod.fst = List.range (3 * (4 - 2)) ∧
      ∀ (dst : Nat → Nat) (k : Nat), k < 4 - 2 →
        written_back r.stores dst (3 * k) = byteswap .u16 ([0, 256, 512, 768].getD 0 0) ∧
        written_back r.stores dst (3 * k + 1) =
          byteswap .u16 ([0, 256, 512, 768].getD (k + 1) 0) ∧
        written_back r.stores dst (3 * k + 2) =
          byteswap .u16 ([0, 256, 512, 768].getD (k + 2) 0) :=
  ⟨by decide,
   expand_indexed_triangle_fan_restart_disabled .u16 [0, 256, 512, 768] 6 0 (by decide)
     (by decide) (by decide)⟩

/-- C6 fails as stated: with restart disabled the 16-bit stream `0, 0xffff, 2, 3` yields one
triangle, `emitted = 3`, not `3 * (4 - 2) = 6`, because an outer index equal to the all-ones
value is taken for "no previous index". -/
theorem expand_indexed_triangle_fan_counterexample :
    expand_indexed_triangle_fan .u16 [0, 65535, 512, 768] 6 false 0 =
      some ⟨0, 65535, 3, [(0, 0), (1, 2), (2, 3)]⟩ ∧
    ¬ ∃ r, expand_indexed_triangle_fan .u16 [0, 65535, 512, 768] 6 false 0 = some r ∧
      r.count = 3 * (4 - 2) := by
  have h : expand_indexed_triangle_fan .u16 [0, 65535, 512, 768] 6 false 0 =
      some ⟨0, 65535, 3, [(0, 0), (1, 2), (2, 3)]⟩ := by decide
  refine ⟨h, ?_⟩
  rintro ⟨r, hr, hc⟩
  rw [h] at hr
  simp only [Option.some.injEq] at hr
  rw [← hr] at hc
  exact absurd hc (by decide)

/-! ## Claims about the quad expander -/

theorem marker_free_runs_ne_nil (p : Nat → Bool) (l : List Nat) :
    marker_free_runs p l ≠ [] := by
  cases l with
  | nil => simp [marker_free_runs]
  | cons x xs =>
    unfold marker_free_runs
    split
    · simp
    · split <;> simp

theorem pending_groups_nil_eq (p : Nat → Bool) (vals : List Nat) :
    pending_groups p [] vals = complete_groups p vals := by
  unfold pending_groups complete_groups
  split
  · next h => exact absurd h (marker_free_runs_ne_nil p vals)
  · next run runs h => rw [h]; simp

theorem groups_of_four_short (g : List Nat) (h : g.length < 4) : groups_of_four g = [] := by
  match g, h with
  | [], _ => rfl
  | [_], _ => rfl
  | [_, _], _ => rfl
  | [_, _, _], _ => rfl

theorem pending_groups_end (p : Nat → Bool) (g : List Nat) (h : g.length < 4) :
    pending_groups p g [] = [] := by
  simp [pending_groups, marker_free_runs, groups_of_four_short g h]

theorem pending_groups_marker (p : Nat → Bool) (g : List Nat) (h : g.length < 4) (v : Nat)
    (vs : List Nat) (hv : p v = true) :
    pending_groups p g (v :: vs) = pending_groups p [] vs := by
  rw [pending_groups_nil_eq]
  simp [pending_groups, marker_free_runs, hv, groups_of_four_short g h, complete_groups]

theorem pending_groups_push (p : Nat → Bool) (g : List Nat) (v : Nat) (vs : List Nat)
    (hv : p v = false) :
    pending_groups p g (v :: vs) = pending_groups p (g ++ [v]) vs := by
  unfold pending_groups
  simp only [marker_free_runs, hv, Bool.false_eq_true, if_false]
  cases h : marker_free_runs p vs with
  | nil => exact absurd h (marker_free_runs_ne_nil p vs)
  | cons run runs => simp

theorem pending_groups_full (p : Nat → Bool) (g : List Nat) (h : g.length = 4)
    (vs : List Nat) :
    pending_groups p g vs = g :: pending_groups p [] vs := by
  match g, h with
  | [a, b, c, d], _ =>
    unfold pending_groups
    split
    · next h => exact absurd h (marker_free_runs_ne_nil p vs)
    · next run runs h => simp [groups_of_four]

theorem tmp_take_set (tmp : List Nat) (k v : Nat) (hl : tmp.length = 4) (hk : k < 4) :
    (tmp.set k v).take (k + 1) = tmp.take k ++ [v] := by
  match tmp, hl with
  | [a, b, c, d], _ =>
    match k, hk with
    | 0, _ => rfl
    | 1, _ => rfl
    | 2, _ => rfl
    | 3, _ => rfl

theorem two_triangles_full (tmp : List Nat) (hl : tmp.length = 4) :
    two_triangles (tmp.take 4) =
      [tmp.getD 0 0, tmp.getD 1 0, tmp.getD 2 0, tmp.getD 2 0, tmp.getD 3 0, tmp.getD 0 0] := by
  match tmp, hl with
  | [a, b, c, d], _ => rfl
/-- The quad loop from a state whose group buffer holds `set_size < 4` pending indices:
the groups completed from there on are stored as two triangles each, six elements a
group, at consecutive positions. -/
theorem quads_run (T : index_array_type) (en : Bool) (ri : Nat) (xs : List Nat) :
    ∀ s : quads_state, s.tmp_indices.length = 4 → s.set_size < 4 →
      (xs.foldl (expand_indexed_quads_step T en ri) s).dst_idx =
        s.dst_idx + 6 * (pending_groups (fun v => en && v == ri)
          (s.tmp_indices.take s.set_size) (xs.map (byteswap T))).length ∧
      (xs.foldl (expand_indexed_quads_step T en ri) s).stores =
        s.stores ++ ((pending_groups (fun v => en && v == ri)
          (s.tmp_indices.take s.set_size) (xs.map (byteswap T))).flatMap
            two_triangles).enumFrom s.dst_idx := by
  induction xs with
  | nil =>
    intro s hl hk
    have hg : (s.tmp_indices.take s.set_size).length < 4 := by
      rw [List.length_take]; omega
    simp [pending_groups_end _ _ hg]
  | cons x xs ih =>
    intro s hl hk
    have hg : (s.tmp_indices.take s.set_size).length < 4 := by
      rw [List.length_take]; omega
    obtain ⟨s1, hs1⟩ : ∃ s1, s1 = expand_indexed_quads_step T en ri s x := ⟨_, rfl⟩
    rw [List.foldl_cons, ← hs1, List.map_cons]
    by_cases hm : (en && byteswap T x == ri) = true
    · have hstep : s1 = { s with set_size := 0 } := by
        rw [hs1]; unfold expand_indexed_quads_step; simp only [hm, if_true]
      have f1 : s1.tmp_indices = s.tmp_indices := by rw [hstep]
      have f2 : s1.set_size = 0 := by rw [hstep]
      have f3 : s1.dst_idx = s.dst_idx := by rw [hstep]
      have f4 : s1.stores = s.stores := by rw [hstep]
      obtain ⟨hd, hs⟩ := ih s1 (by rw [f1]; exact hl) (by rw [f2]; decide)
      rw [f1, f2, f3, List.take_zero] at hd
      rw [f1, f2, f3, f4, List.take_zero] at hs
      rw [pending_groups_marker _ _ hg _ _ hm]
      exact ⟨hd, hs⟩
    · have hm' : (fun v => en && v == ri) (byteswap T x) = false := by
        simpa using hm
      rw [pending_groups_push _ _ _ _ hm']
      have hts := tmp_take_set s.tmp_indices s.set_size (byteswap T x) hl hk
      have hsl : (s.tmp_indices.set s.set_size (byteswap T x)).length = 4 := by
        rw [List.length_set]; exact hl
      by_cases h4 : s.set_size + 1 = 4
      · have h3 : s.set_size = 3 := by omega
        rw [h3] at hts hsl
        have hts' : (s.tmp_indices.set 3 (byteswap T x)).take 4 =
            s.tmp_indices.take 3 ++ [byteswap T x] := hts
        have hstep : s1 =
            { min_index := (min_max s.min_index s.max_index (byteswap T x)).1
              max_index := (min_max s.min_index s.max_index (byteswap T x)).2
              dst_idx := s.dst_idx + 6, set_size := 0
              tmp_indices := s.tmp_indices.set 3 (byteswap T x)
              stores := s.stores ++ ((two_triangles
                ((s.tmp_indices.set 3 (byteswap T x)).take 4)).enumFrom s.dst_idx) } := by
          rw [hs1, two_triangles_full _ hsl]
          unfold expand_indexed_quads_step
          simp only [hm, Bool.false_eq_true, if_false, h3, if_true, List.enumFrom_cons,
            List.enumFrom_nil]
        have f1 : s1.tmp_indices = s.tmp_indices.set 3 (byteswap T x) := by rw [hstep]
        have f2 : s1.set_size = 0 := by rw [hstep]
        have f3 : s1.dst_idx = s.dst_idx + 6 := by rw [hstep]
        have f4 : s1.stores = s.stores ++ ((two_triangles
            ((s.tmp_indices.set 3 (byteswap T x)).take 4)).enumFrom s.dst_idx) := by
          rw [hstep]
        obtain ⟨hd, hs⟩ := ih s1 (by rw [f1]; exact hsl) (by rw [f2]; decide)
        rw [f1, f2, f3, List.take_zero] at hd
        rw [f1, f2, f3, f4, List.take_zero] at hs
        have hfull : (s.tmp_indices.take 3 ++ [byteswap T x]).length = 4 := by
          rw [← hts', List.length_take, hsl]; rfl
        rw [h3, pending_groups_full _ _ hfull]
        refine ⟨?_, ?_⟩
        · rw [hd]; simp only [List.length_cons]; omega
        · rw [hs, hts']
          simp only [List.flatMap_cons, List.enumFrom_append, List.append_assoc]
          rfl
      · have hstep : s1 =
            { s with
              min_index := (min_max s.min_index s.max_index (byteswap T x)).1
              max_index := (min_max s.min_index s.max_index (byteswap T x)).2
              set_size := s.set_size + 1
              tmp_indices := s.tmp_indices.set s.set_size (byteswap T x) } := by
          rw [hs1]
          unfold expand_indexed_quads_step
          simp only [hm, Bool.false_eq_true, if_false, h4]
        have f1 : s1.tmp_indices = s.tmp_indices.set s.set_size (byteswap T x) := by rw [hstep]
        have f2 : s1.set_size = s.set_size + 1 := by rw [hstep]
        have f3 : s1.dst_idx = s.dst_idx := by rw [hstep]
        have f4 : s1.stores = s.stores := by rw [hstep]
        obtain ⟨hd, hs⟩ := ih s1 (by rw [f1]; exact hsl) (by rw [f2]; omega)
        rw [f1, f2, f3, hts] at hd
        rw [f1, f2, f3, f4, hts] at hs
        exact ⟨hd, hs⟩
theorem two_triangles_length (g : List Nat) : (two_triangles g).length = 6 := rfl

theorem flatMap_two_triangles_length (gs : List (List Nat)) :
    (gs.flatMap two_triangles).length = 6 * gs.length := by
  induction gs with
  | nil => rfl
  | cons g gs ih =>
    rw [List.flatMap_cons, List.length_append, ih, two_triangles_length, List.length_cons]
    omega

theorem flatMap_two_triangles_getD (gs : List (List Nat)) :
    ∀ (j t : Nat), j < gs.length → t < 6 →
      (gs.flatMap two_triangles).getD (6 * j + t) 0 = (two_triangles (gs.getD j [])).getD t 0 := by
  induction gs with
  | nil => intro j t h _; simp at h
  | cons g gs ih =>
    intro j t hj ht
    rw [List.flatMap_cons]
    cases j with
    | zero =>
      rw [Nat.mul_zero, Nat.zero_add, List.getD_append _ _ _ _ (by rw [two_triangles_length]; exact ht)]
      rfl
    | succ j =>
      have hj' : j < gs.length := by simpa using hj
      rw [List.getD_append_right _ _ _ _ (by rw [two_triangles_length]; omega),
        two_triangles_length]
      have e : 6 * (j + 1) + t - 6 = 6 * j + t := by omega
      rw [e, ih j t hj' ht]
      rfl

theorem quads_eq (T : index_array_type) (src : List Nat) (dst_size : Nat) (en : Bool) (ri : Nat)
    (hcap : 6 * src.length ≤ 4 * dst_size) :
    ∃ r, expand_indexed_quads T src dst_size en ri = some r ∧
      r.count = 6 * (complete_groups (fun v => en && v == ri) (src.map (byteswap T))).length ∧
      r.stores = ((complete_groups (fun v => en && v == ri)
        (src.map (byteswap T))).flatMap two_triangles).enumFrom 0 := by
  have hens : 4 * (dst_size * get_index_type_size T) ≥ 6 * (src.length * get_index_type_size T) := by
    cases T <;> simp only [get_index_type_size] <;> omega
  unfold expand_indexed_quads
  rw [if_pos hens]
  obtain ⟨hd, hs⟩ := quads_run T en ri src
    { min_index := index_limit T, max_index := 0, dst_idx := 0, set_size := 0
      tmp_indices := [0, 0, 0, 0], stores := [] } rfl (Nat.zero_lt_succ 3)
  simp only [List.take_zero, pending_groups_nil_eq, Nat.zero_add, List.nil_append] at hd hs
  exact ⟨_, rfl, hd, hs⟩

/-- C7: when its capacity check passes, `expand_indexed_quads` collects the indices that
are not restart markers into groups of four in arrival order, a marker discarding the
group being filled, and stores the `j`-th complete group `(v0, v1, v2, v3)` at
`dst[6j .. 6j+6)` as `(v0, v1, v2, v2, v3, v0)`: the stored stream is the concatenation,
over the maximal marker-free runs, of the two triangles of each complete group of four of
the run, and `emitted` is six times the number of complete groups. -/
theorem expand_indexed_quads_grouping (T : index_array_type) (src : List Nat)
    (dst_size : Nat) (is_primitive_restart_enabled : Bool) (primitive_restart_index : Nat)
    (hcap : 6 * src.length ≤ 4 * dst_size) :
    ∃ r, expand_indexed_quads T src dst_size is_primitive_restart_enabled
        primitive_restart_index = some r ∧
      r.stores = (((marker_free_runs
          (fun v => is_primitive_restart_enabled && v == primitive_restart_index)
          (src.map (byteswap T))).flatMap groups_of_four).flatMap two_triangles).enum ∧
      r.count = 6 * ((marker_free_runs
          (fun v => is_primitive_restart_enabled && v == primitive_restart_index)
          (src.map (byteswap T))).flatMap groups_of_four).length ∧
      ∀ (dst : Nat → Nat) (j : Nat),
        j < ((marker_free_runs
          (fun v => is_primitive_restart_enabled && v == primitive_restart_index)
          (src.map (byteswap T))).flatMap groups_of_four).length →
        written_back r.stores dst (6 * j) = (((marker_free_runs
          (fun v => is_primitive_restart_enabled && v == primitive_restart_index)
          (src.map (byteswap T))).flatMap groups_of_four).getD j []).getD 0 0 ∧
        written_back r.stores dst (6 * j + 1) = (((marker_free_runs
          (fun v => is_primitive_restart_enabled && v == primitive_restart_index)
          (src.map (byteswap T))).flatMap groups_of_four).getD j []).getD 1 0 ∧
        written_back r.stores dst (6 * j + 2) = (((marker_free_runs
          (fun v => is_primitive_restart_enabled && v == primitive_restart_index)
          (src.map (byteswap T))).flatMap groups_of_four).getD j []).getD 2 0 ∧
        written_back r.stores dst (6 * j + 3) = (((marker_free_runs
          (fun v => is_primitive_restart_enabled && v == primitive_restart_index)
          (src.map (byteswap T))).flatMap groups_of_four).getD j []).getD 2 0 ∧
        written_back r.stores dst (6 * j + 4) = (((marker_free_runs
          (fun v => is_primitive_restart_enabled && v == primitive_restart_index)
          (src.map (byteswap T))).flatMap groups_of_four).getD j []).getD 3 0 ∧
        written_back r.stores dst (6 * j + 5) = (((marker_free_runs
          (fun v => is_primitive_restart_enabled && v == primitive_restart_index)
          (src.map (byteswap T))).flatMap groups_of_four).getD j []).getD 0 0 := by
  obtain ⟨r, hr, hc, hs⟩ := quads_eq T src dst_size is_primitive_restart_enabled
    primitive_restart_index hcap
  unfold complete_groups at hc hs
  refine ⟨r, hr, hs, hc, ?_⟩
  intro dst j hj
  have hlen := flatMap_two_triangles_length ((marker_free_runs
    (fun v => is_primitive_restart_enabled && v == primitive_restart_index)
    (src.map (byteswap T))).flatMap groups_of_four)
  have hw : ∀ t, t < 6 → written_back r.stores dst (6 * j + t) =
      (two_triangles (((marker_free_runs
        (fun v => is_primitive_restart_enabled && v == primitive_restart_index)
        (src.map (byteswap T))).flatMap groups_of_four).getD j [])).getD t 0 := by
    intro t ht
    rw [hs, written_back_enumFrom, if_pos (by rw [hlen]; omega), Nat.sub_zero,
      flatMap_two_triangles_getD _ j t hj ht]
  exact ⟨hw 0 (by decide), hw 1 (by decide), hw 2 (by decide), hw 3 (by decide),
    hw 4 (by decide), hw 5 (by decide)⟩

/-- Instance of C7: `src = [0, 1, 2, 3]` gives `dst = [0, 1, 2, 2, 3, 0]`, `emitted = 6`;
with a marker after two indices the pending pair is discarded. -/
theorem expand_indexed_quads_grouping_witness :
    expand_indexed_quads .u16 [0, 256, 512, 768] 6 false 0 =
      some ⟨0, 3, 6, [(0, 0), (1, 1), (2, 2), (3, 2), (4, 3), (5, 0)]⟩ ∧
    expand_indexed_quads .u16 [2304, 2048, 65535, 0, 256, 512, 768] 12 true 65535 =
      some ⟨0, 9, 6, [(0, 0), (1, 1), (2, 2), (3, 2), (4, 3), (5, 0)]⟩ ∧
    ∃ r, expand_indexed_quads .u16 [2304, 2048, 65535, 0, 256, 512, 768] 12 true 65535 =
        some r ∧
      r.stores = (((marker_free_runs (fun v => true && v == 65535)
          ([2304, 2048, 65535, 0, 256, 512, 768].map (byteswap .u16))).flatMap
            groups_of_four).flatMap two_triangles).enum := by
  refine ⟨by decide, by decide, ?_⟩
  obtain ⟨r, hr, hs, _⟩ := expand_indexed_quads_grouping .u16
    [2304, 2048, 65535, 0, 256, 512, 768] 12 true 65535 (by decide)
  exact ⟨r, hr, hs⟩

theorem marker_free_runs_no_marker (p : Nat → Bool) (l : List Nat)
    (h : ∀ v ∈ l, p v = false) : marker_free_runs p l = [l] := by
  induction l with
  | nil => rfl
  | cons x xs ih =>
    have hx : p x = false := h x (List.mem_cons_self _ _)
    have hxs := ih (fun v hv => h v (List.mem_cons_of_mem _ hv))
    simp [marker_free_runs, hx, hxs]

theorem groups_of_four_length : ∀ l : List Nat, (groups_of_four l).length = l.length / 4
  | [] => by decide
  | [_] => by simp [groups_of_four]
  | [_, _] => by simp [groups_of_four]
  | [_, _, _] => by simp [groups_of_four]
  | _ :: _ :: _ :: _ :: rest => by
    simp only [groups_of_four, List.length_cons, groups_of_four_length rest]
    omega

/-- C8, as the code has it: with restart disabled and the capacity check passed,
`expand_indexed_quads` returns `emitted = 6 * floor(n / 4)` for a stream of `n` indices
(a trailing group of fewer than four indices emits nothing); this is `6n / 4`, that is
`1.5 * n`, when `n` is a multiple of four. -/
theorem expand_indexed_quads_count (T : index_array_type) (src : List Nat)
    (dst_size primitive_restart_index : Nat) (hcap : 6 * src.length ≤ 4 * dst_size) :
    ∃ r, expand_indexed_quads T src dst_size false primitive_restart_index = some r ∧
      r.count = 6 * (src.length / 4) ∧
      (src.length % 4 = 0 → r.count = 6 * src.length / 4 ∧ 2 * r.count = 3 * src.length) := by
  obtain ⟨r, hr, hc, _⟩ := quads_eq T src dst_size false primitive_restart_index hcap
  have hruns : marker_free_runs (fun v => false && v == primitive_restart_index)
      (src.map (byteswap T)) = [src.map (byteswap T)] :=
    marker_free_runs_no_marker _ _ (fun _ _ => rfl)
  have hcount : r.count = 6 * (src.length / 4) := by
    rw [hc, complete_groups, hruns]
    simp [groups_of_four_length]
  refine ⟨r, hr, hcount, ?_⟩
  intro h4
  rw [hcount]
  omega

/-- Instance of the amended C8: eight indices give twelve. -/
theorem expand_indexed_quads_count_witness :
    expand_indexed_quads .u16 [0, 256, 512, 768, 1024, 1280, 1536, 1792] 12 false 0 =
      some ⟨0, 7, 12, [(0, 0), (1, 1), (2, 2), (3, 2), (4, 3), (5, 0),
        (6, 4), (7, 5), (8, 6), (9, 6), (10, 7), (11, 4)]⟩ ∧
    ∃ r, expand_indexed_quads .u16 [0, 256, 512, 768, 1024, 1280, 1536, 1792] 12 false 0 =
        some r ∧
      r.count = 6 * (8 / 4) ∧ (8 % 4 = 0 → r.count = 6 * 8 / 4 ∧ 2 * r.count = 3 * 8) :=
  ⟨by decide,
   expand_indexed_quads_count .u16 [0, 256, 512, 768, 1024, 1280, 1536, 1792] 12 0
     (by decide)⟩

/-- C8 fails as stated: five indices with restart disabled give `emitted = 6`, not
`6 * 5 / 4 = 7` (nor `1.5 * 5`): the fifth index never completes a group. -/
theorem expand_indexed_quads_count_counterexample :
    expand_indexed_quads .u16 [0, 256, 512, 768, 1024] 8 false 0 =
      some ⟨0, 4, 6, [(0, 0), (1, 1), (2, 2), (3, 2), (4, 3), (5, 0)]⟩ ∧
    ¬ ∃ r, expand_indexed_quads .u16 [0, 256, 512, 768, 1024] 8 false 0 = some r ∧
      r.count = 6 * 5 / 4 := by
  have h : expand_indexed_quads .u16 [0, 256, 512, 768, 1024] 8 false 0 =
      some ⟨0, 4, 6, [(0, 0), (1, 1), (2, 2), (3, 2), (4, 3), (5, 0)]⟩ := by decide
  refine ⟨h, ?_⟩
  rintro ⟨r, hr, hc⟩
  rw [h] at hr
  simp only [Option.some.injEq] at hr
  rw [← hr] at hc
  exact absurd hc (by decide)

/-! ## Line loop and the size formula -/

/-- The line-loop case of the facade, for every input: the returned triple is the upload
kernel's, so `emitted` does not count the closing index, and the closing index is stored at
`dst[dst.size()]`, the element after the end of the destination span. -/
theorem line_loop_expansion (cpu : cpu_flags) (T : index_array_type)
    (dst_addr dst_size : Nat) (src : List Nat) (restart_index_enabled : Bool)
    (restart_index : Nat) (expands : primitive_type → Bool)
    (he : expands .line_loop = true) :
    write_index_array_data_to_buffer_impl cpu T dst_addr dst_size src .line_loop
        restart_index_enabled restart_index expands =
      (upload_untouched cpu T src dst_addr .line_loop restart_index_enabled
        restart_index).map
        (fun returnvalue => { returnvalue with
          stores := returnvalue.stores ++ [(dst_size, byteswap T (src.getD 0 0))] }) := by
  unfold write_index_array_data_to_buffer_impl
  simp only [he, Bool.not_true, Bool.false_eq_true, if_false]
  have : dst_size * get_index_type_size T / get_index_type_size T = dst_size := by
    cases T <;> simp [get_index_type_size]
  rw [this]

/-- C9, the code at the claim's input: `src = [5, 6, 7]`, a destination of `3 + 1` elements
(8 bytes), line loop expanded.  The three indices are stored at `dst[0..3)`, the closing
index `5` is stored at `dst[4]` (past the end of the span, `dst[3]` is never written) and
`emitted = 3`, where the claim has `dst = [5, 6, 7, 5]` and `emitted = 4`. -/
theorem line_loop_closing_index :
    write_index_array_data_to_buffer ⟨false, false, true⟩ 0 8 [1280, 1536, 1792] .u16
        .line_loop false 0 (fun _ => true) =
      some ⟨5, 7, 3, [(0, 5), (1, 6), (2, 7), (4, 5)]⟩ ∧
    (∀ dst : Nat → Nat, written_back [(0, 5), (1, 6), (2, 7), (4, 5)] dst 3 = dst 3) := by
  refine ⟨by decide, ?_⟩
  intro dst
  simp [written_back]

/-- C10, as the code has it: `get_index_count` returns `n` for a native topology; for a
line loop `n + 1` unless `n = 2^32 - 1` (where it wraps to 0); for a triangle fan or
polygon `3 * (n - 2)` when `n >= 2` and the product fits in 32 bits (for `n < 2` the
subtraction wraps); for quads `6n / 4` when `6n` fits in 32 bits; in general the `u32`
values `(n + 1) mod 2^32`, `3 * ((n - 2) mod 2^32) mod 2^32` and `(6n mod 2^32) / 4`. -/
theorem get_index_count_values (n : Nat) :
    get_index_count .points n = some n ∧
    get_index_count .lines n = some n ∧
    get_index_count .line_strip n = some n ∧
    get_index_count .triangles n = some n ∧
    get_index_count .triangle_strip n = some n ∧
    get_index_count .quad_strip n = some n ∧
    get_index_count .line_loop n = some ((n + 1) % 2 ^ 32) ∧
    get_index_count .triangle_fan n = some ((((n + 2 ^ 32 - 2) % 2 ^ 32) * 3) % 2 ^ 32) ∧
    get_index_count .polygon n = some ((((n + 2 ^ 32 - 2) % 2 ^ 32) * 3) % 2 ^ 32) ∧
    get_index_count .quads n = some (((6 * n) % 2 ^ 32) / 4) ∧
    (n + 1 < 2 ^ 32 → get_index_count .line_loop n = some (n + 1)) ∧
    (2 ≤ n → 3 * (n - 2) < 2 ^ 32 →
      get_index_count .triangle_fan n = some (3 * (n - 2)) ∧
      get_index_count .polygon n = some (3 * (n - 2))) ∧
    (6 * n < 2 ^ 32 → get_index_count .quads n = some (6 * n / 4)) ∧
    get_index_count .quads 8 = some 12 ∧
    get_index_count .triangle_fan 5 = some 9 := by
  refine ⟨rfl, rfl, rfl, rfl, rfl, rfl, rfl, rfl, rfl, rfl, ?_, ?_, ?_, by decide, by decide⟩
  · intro h
    simp only [get_index_count, is_primitive_native]
    rw [Nat.mod_eq_of_lt h]
  · intro h2 h3
    simp only [get_index_count, is_primitive_native]
    have : (((n + 2 ^ 32 - 2) % 2 ^ 32) * 3) % 2 ^ 32 = 3 * (n - 2) := by omega
    rw [this]
    exact ⟨rfl, rfl⟩
  · intro h
    simp only [get_index_count, is_primitive_native]
    rw [Nat.mod_eq_of_lt h]

/-- C10 fails as stated at the ends of the 32-bit range: a line loop of `2^32 - 1` indices
gives 0, a fan of one index gives `2^32 - 3`, quads of `2^30` indices give `2^29`. -/
theorem get_index_count_counterexample :
    get_index_count .line_loop 4294967295 = some 0 ∧
    get_index_count .line_loop 4294967295 ≠ some (4294967295 + 1) ∧
    get_index_count .triangle_fan 1 = some 4294967293 ∧
    get_index_count .quads 1073741824 = some 536870912 ∧
    get_index_count .quads 1073741824 ≠ some (6 * 1073741824 / 4) := by
  decide

/-! ## The byte-swap copy -/

theorem lor_eq_zero (a b : Nat) : a ||| b = 0 ↔ a = 0 ∧ b = 0 := by
  constructor
  · intro h
    have ht : ∀ i, (a.testBit i || b.testBit i) = false := by
      intro i
      rw [← Nat.testBit_or, h, Nat.zero_testBit]
    constructor
    · apply Nat.eq_of_testBit_eq
      intro i
      have := ht i
      rw [Nat.zero_testBit]
      cases hb : a.testBit i
      · rfl
      · rw [hb] at this; simp at this
    · apply Nat.eq_of_testBit_eq
      intro i
      have := ht i
      rw [Nat.zero_testBit]
      cases hb : b.testBit i
      · rfl
      · rw [hb] at this; simp at this
  · rintro ⟨rfl, rfl⟩
    rfl

theorem bswap32_bytes (b0 b1 b2 b3 : Nat) (h0 : b0 < 256) (h1 : b1 < 256) (h2 : b2 < 256)
    (h3 : b3 < 256) :
    bswap32 (b0 + 256 * b1 + 65536 * b2 + 16777216 * b3) =
      b3 + 256 * b2 + 65536 * b1 + 16777216 * b0 := by
  unfold bswap32
  omega

theorem bswap32_bswap32 (x : Nat) (h : x < 2 ^ 32) : bswap32 (bswap32 x) = x := by
  have hx : x = x % 256 + 256 * (x / 256 % 256) + 65536 * (x / 65536 % 256) +
      16777216 * (x / 16777216) := by omega
  have h0 : x % 256 < 256 := by omega
  have h1 : x / 256 % 256 < 256 := by omega
  have h2 : x / 65536 % 256 < 256 := by omega
  have h3 : x / 16777216 < 256 := by omega
  generalize x % 256 = b0 at hx h0
  generalize x / 256 % 256 = b1 at hx h1
  generalize x / 65536 % 256 = b2 at hx h2
  generalize x / 16777216 = b3 at hx h3
  rw [hx, bswap32_bytes b0 b1 b2 b3 h0 h1 h2 h3, bswap32_bytes b3 b2 b1 b0 h3 h2 h1 h0]

theorem written_back_of_not_mem (st : List (Nat × Nat)) (d : Nat → Nat) (i : Nat)
    (h : ∀ p ∈ st, p.1 ≠ i) : written_back st d i = d i := by
  induction st generalizing d with
  | nil => rfl
  | cons p st ih =>
    have hp : i ≠ p.1 := fun e => h p (List.mem_cons_self _ _) e.symm
    have := ih (fun j => if j = p.1 then p.2 else d j)
      (fun q hq => h q (List.mem_cons_of_mem _ hq))
    simp only [written_back, List.foldl_cons] at this ⊢
    rw [this, if_neg hp]

theorem written_back_map_range (f : Nat → Nat) (n : Nat) (d : Nat → Nat) (i : Nat) :
    written_back ((List.range n).map (fun j => (j, f j))) d i = if i < n then f i else d i := by
  induction n with
  | zero => rfl
  | succ n ih =>
    rw [List.range_succ, List.map_append, written_back_append]
    simp only [List.map_cons, List.map_nil, written_back, List.foldl_cons, List.foldl_nil]
    simp only [written_back] at ih
    by_cases h : i = n
    · subst h; simp
    · rw [if_neg h, ih]
      clear ih
      by_cases h2 : i < n
      · rw [if_pos h2, if_pos (by omega)]
      · rw [if_neg h2, if_neg (by omega)]

/-- The state of `copy_data_swap_u32_naive` after `k` iterations. -/
theorem copy_fold (Compare : Bool) (dst : Nat → Nat) (src : List Nat) :
    ∀ k : Nat,
      ((List.range k).foldl (copy_data_swap_u32_naive_step Compare dst src)
        { result := 0, stores := [] }).stores =
          (List.range k).map (fun i => (i, bswap32 (src.getD i 0))) ∧
      (((List.range k).foldl (copy_data_swap_u32_naive_step Compare dst src)
        { result := 0, stores := [] }).result = 0 ↔
          (Compare = true → ∀ i, i < k → bswap32 (src.getD i 0) = dst i)) := by
  intro k
  induction k with
  | zero =>
    refine ⟨rfl, ?_⟩
    simp
  | succ k ih =>
    obtain ⟨hs, hr⟩ := ih
    rw [List.range_succ, List.foldl_append, List.foldl_cons, List.foldl_nil]
    generalize (List.range k).foldl (copy_data_swap_u32_naive_step Compare dst src)
      { result := 0, stores := [] } = s at hs hr ⊢
    have hread : written_back s.stores dst k = dst k := by
      apply written_back_of_not_mem
      intro p hp
      rw [hs] at hp
      obtain ⟨j, hj, rfl⟩ := List.mem_map.mp hp
      have := List.mem_range.mp hj
      simp only []
      omega
    have hread2 := hread
    rw [hs] at hread2
    unfold copy_data_swap_u32_naive_step
    simp only [hread, hread2, hs, List.map_append, List.map_cons, List.map_nil, true_and]
    cases Compare with
    | false => simpa using hr
    | true =>
      simp only [if_true, lor_eq_zero, Nat.xor_eq_zero, hr, forall_const]
      constructor
      · rintro ⟨h1, h2⟩ i hi
        by_cases hik : i = k
        · rw [hik]; exact h2
        · exact h1 i (by omega)
      · intro h
        exact ⟨fun i hi => h i (by omega), h k (by omega)⟩

/-- C12: for every count within the arrays, `copy_data_swap_u32_naive<true>` leaves
`dst[i] = byteswap(src[i])` for every `i < count` (the rest of `dst` is untouched) and
returns `true` if and only if some `i < count` has `byteswap(src[i])` different from the
value `dst[i]` held before the call. -/
theorem copy_and_detect_change (dst : Nat → Nat) (src : List Nat) (count : Nat)
    (hc : count ≤ src.length) :
    (∀ i, written_back (copy_data_swap_u32_naive true dst src count).2 dst i =
      if i < count then bswap32 (src.getD i 0) else dst i) ∧
    ∃ changed, (copy_data_swap_u32_naive true dst src count).1 = some changed ∧
      (changed = true ↔ ∃ i, i < count ∧ bswap32 (src.getD i 0) ≠ dst i) := by
  obtain ⟨hs, hr⟩ := copy_fold true dst src count
  unfold copy_data_swap_u32_naive
  simp only [if_true]
  refine ⟨?_, _, rfl, ?_⟩
  · intro i
    rw [hs]
    exact written_back_map_range _ _ _ _
  · rw [decide_eq_true_iff, Ne, hr]
    simp only [forall_const, not_forall]
    constructor
    · rintro ⟨i, hi, h⟩
      exact ⟨i, hi, h⟩
    · rintro ⟨i, hi, h⟩
      exact ⟨i, hi, h⟩

/-- Instance of C12: the second word differs from the old content, the flag is `true`; on
unchanged content the flag is `false`. -/
theorem copy_and_detect_change_witness :
    copy_data_swap_u32_naive true (fun i => if i = 0 then 1 else 7) [16777216, 2] 2 =
      (some true, [(0, 1), (1, 33554432)]) ∧
    copy_data_swap_u32_naive true (fun i => if i = 0 then 1 else 33554432) [16777216, 2] 2 =
      (some false, [(0, 1), (1, 33554432)]) ∧
    ∃ changed, (copy_data_swap_u32_naive true (fun i => if i = 0 then 1 else 7)
        [16777216, 2] 2).1 = some changed ∧
      (changed = true ↔ ∃ i, i < 2 ∧
        bswap32 ([16777216, 2].getD i 0) ≠ (fun i => if i = 0 then 1 else 7) i) :=
  ⟨by decide, by decide,
   (copy_and_detect_change (fun i => if i = 0 then 1 else 7) [16777216, 2] 2 (by decide)).2⟩

/-- C13: the byte-swap copy is self-inverse on 32-bit words: copying `count` words from
`src` into `tmp` and then from `tmp` into `back` with `copy_data_swap_u32_naive<false>`
leaves `back[i] = src[i]` for every `i < count`. -/
theorem copy_twice_is_identity (tmp back : Nat → Nat) (src : List Nat) (count : Nat)
    (hc : count ≤ src.length) (h32 : ∀ x ∈ src, x < 2 ^ 32) :
    ∀ i, i < count →
      written_back
        (copy_data_swap_u32_naive false back
          ((List.range count).map
            (written_back (copy_data_swap_u32_naive false tmp src count).2 tmp)) count).2
        back i = src.getD i 0 := by
  intro i hi
  obtain ⟨hs1, _⟩ := copy_fold false tmp src count
  obtain ⟨hs2, _⟩ := copy_fold false back
    ((List.range count).map
      (written_back (copy_data_swap_u32_naive false tmp src count).2 tmp)) count
  have e1 : (copy_data_swap_u32_naive false tmp src count).2 =
      (List.range count).map (fun i => (i, bswap32 (src.getD i 0))) := hs1
  have e2 : (copy_data_swap_u32_naive false back
      ((List.range count).map
        (written_back (copy_data_swap_u32_naive false tmp src count).2 tmp)) count).2 =
      (List.range count).map (fun i => (i, bswap32 (((List.range count).map
        (written_back (copy_data_swap_u32_naive false tmp src count).2 tmp)).getD i 0))) := hs2
  rw [e2, written_back_map_range, if_pos hi]
  have hlen : i < ((List.range count).map
      (written_back (copy_data_swap_u32_naive false tmp src count).2 tmp)).length := by
    simpa using hi
  rw [List.getD_eq_getElem _ _ hlen, List.getElem_map, List.getElem_range, e1,
    written_back_map_range, if_pos hi]
  have hil : i < src.length := by omega
  rw [List.getD_eq_getElem _ _ hil]
  exact bswap32_bswap32 _ (h32 _ (List.getElem_mem _))

/-- Instance of C13: two words go through `tmp` and come back. -/
theorem copy_twice_is_identity_witness :
    (copy_data_swap_u32_naive false (fun _ => 0) [305419896, 1] 2).2 =
      [(0, 2018915346), (1, 16777216)] ∧
    ∀ i, i < 2 →
      written_back
        (copy_data_swap_u32_naive false (fun _ => 9)
          ((List.range 2).map
            (written_back (copy_data_swap_u32_naive false (fun _ => 0) [305419896, 1] 2).2
              (fun _ => 0))) 2).2
        (fun _ => 9) i = [305419896, 1].getD i 0 :=
  ⟨by decide,
   copy_twice_is_identity (fun _ => 0) (fun _ => 9) [305419896, 1] 2 (by decide) (by decide)⟩

/-! ## The non-indexed generator -/

theorem foldl_append_flatMap {β : Type} (f : Nat → List β) (l : List Nat) :
    ∀ init : List β, l.foldl (fun st i => st ++ f i) init = init ++ l.flatMap f := by
  induction l with
  | nil => intro init; simp
  | cons x l ih =>
    intro init
    rw [List.foldl_cons, ih, List.flatMap_cons, List.append_assoc]

theorem flatMap_congr_range {β : Type} (f g : Nat → List β) (n : Nat)
    (h : ∀ i, i < n → f i = g i) : (List.range n).flatMap f = (List.range n).flatMap g := by
  induction n with
  | zero => rfl
  | succ n ih =>
    rw [List.range_succ, List.flatMap_append, List.flatMap_append,
      ih (fun i hi => h i (by omega))]
    simp only [List.flatMap_cons, List.flatMap_nil, List.append_nil]
    rw [h n (by omega)]

theorem flatMap_singleton_range {β : Type} (f : Nat → β) (n : Nat) :
    (List.range n).flatMap (fun i => [f i]) = (List.range n).map f := by
  induction n with
  | zero => rfl
  | succ n ih =>
    rw [List.range_succ, List.flatMap_append, List.map_append, ih]
    rfl

/-- C14, as the code has it: for a vertex count of at most 65536 the generator stores, on
the 16-bit destination, exactly: for `line_loop`, `dst[i] = i` for `i < count` and then
`dst[count] = 0`; for `triangle_fan` and `polygon` with `count >= 2`, the triples
`(0, i+1, i+2)` at `dst[3i .. 3i+3)` for `i < count - 2`; for `quads`, the six values
`(4i, 4i+1, 4i+2, 4i+2, 4i+3, 4i)` at `dst[6i .. 6i+6)` for `i < count / 4`.  For every
count (destination positions within 32 bits) the stored values are these indices modulo
`2^16`.  The generator fails for every native topology and for `invalid`, whatever the
count. -/
theorem non_indexed_generator_shapes (count : Nat) :
    (count ≤ 65536 →
      write_index_array_for_non_indexed_non_native_primitive_to_buffer .line_loop count =
        some ((List.range count).map (fun i => (i, i)) ++ [(count, 0)])) ∧
    (2 ≤ count → count ≤ 65536 →
      write_index_array_for_non_indexed_non_native_primitive_to_buffer .triangle_fan count =
        some ((List.range (count - 2)).flatMap
          (fun i => [(3 * i, 0), (3 * i + 1, i + 1), (3 * i + 2, i + 2)])) ∧
      write_index_array_for_non_indexed_non_native_primitive_to_buffer .polygon count =
        some ((List.range (count - 2)).flatMap
          (fun i => [(3 * i, 0), (3 * i + 1, i + 1), (3 * i + 2, i + 2)]))) ∧
    (count ≤ 65536 →
      write_index_array_for_non_indexed_non_native_primitive_to_buffer .quads count =
        some ((List.range (count / 4)).flatMap
          (fun i => [(6 * i, 4 * i), (6 * i + 1, 4 * i + 1), (6 * i + 2, 4 * i + 2),
            (6 * i + 3, 4 * i + 2), (6 * i + 4, 4 * i + 3), (6 * i + 5, 4 * i)]))) ∧
    write_index_array_for_non_indexed_non_native_primitive_to_buffer .line_loop count =
      some ((List.range count).map (fun i => (i, i % 65536)) ++ [(count, 0)]) ∧
    (2 ≤ count → 3 * (count - 2) ≤ 2 ^ 32 →
      write_index_array_for_non_indexed_non_native_primitive_to_buffer .triangle_fan count =
        some ((List.range (count - 2)).flatMap
          (fun i => [(3 * i, 0), (3 * i + 1, (i + 1) % 65536),
            (3 * i + 2, (i + 2) % 65536)])) ∧
      write_index_array_for_non_indexed_non_native_primitive_to_buffer .polygon count =
        some ((List.range (count - 2)).flatMap
          (fun i => [(3 * i, 0), (3 * i + 1, (i + 1) % 65536),
            (3 * i + 2, (i + 2) % 65536)]))) ∧
    (6 * (count / 4) ≤ 2 ^ 32 →
      write_index_array_for_non_indexed_non_native_primitive_to_buffer .quads count =
        some ((List.range (count / 4)).flatMap
          (fun i => [(6 * i, (4 * i) % 65536), (6 * i + 1, (4 * i + 1) % 65536),
            (6 * i + 2, (4 * i + 2) % 65536), (6 * i + 3, (4 * i + 2) % 65536),
            (6 * i + 4, (4 * i + 3) % 65536), (6 * i + 5, (4 * i) % 65536)]))) ∧
    write_index_array_for_non_indexed_non_native_primitive_to_buffer .points count = none ∧
    write_index_array_for_non_indexed_non_native_primitive_to_buffer .lines count = none ∧
    write_index_array_for_non_indexed_non_native_primitive_to_buffer .line_strip count = none ∧
    write_index_array_for_non_indexed_non_native_primitive_to_buffer .triangles count = none ∧
    write_index_array_for_non_indexed_non_native_primitive_to_buffer .triangle_strip count = none ∧
    write_index_array_for_non_indexed_non_native_primitive_to_buffer .quad_strip count = none ∧
    write_index_array_for_non_indexed_non_native_primitive_to_buffer .invalid count = none := by
  have hline : write_index_array_for_non_indexed_non_native_primitive_to_buffer .line_loop count =
      some ((List.range count).map (fun i => (i, i % 65536)) ++ [(count, 0)]) := by
    simp only [write_index_array_for_non_indexed_non_native_primitive_to_buffer]
    rw [foldl_append_flatMap, List.nil_append, flatMap_singleton_range]
  have hfan : 2 ≤ count → 3 * (count - 2) ≤ 2 ^ 32 →
      (List.range ((count + 2 ^ 32 - 2) % 2 ^ 32)).foldl
        (fun st i => st ++ [((3 * i) % 2 ^ 32, 0), ((3 * i + 1) % 2 ^ 32, (i + 2 - 1) % 65536),
          ((3 * i + 2) % 2 ^ 32, (i + 2) % 65536)]) [] =
        (List.range (count - 2)).flatMap
          (fun i => [(3 * i, 0), (3 * i + 1, (i + 1) % 65536),
            (3 * i + 2, (i + 2) % 65536)]) := by
    intro h2 hw
    have e : (count + 2 ^ 32 - 2) % 2 ^ 32 = count - 2 := by omega
    rw [e, foldl_append_flatMap, List.nil_append]
    apply flatMap_congr_range
    intro i hi
    have a0 : (3 * i) % 2 ^ 32 = 3 * i := by omega
    have a1 : (3 * i + 1) % 2 ^ 32 = 3 * i + 1 := by omega
    have a2 : (3 * i + 2) % 2 ^ 32 = 3 * i + 2 := by omega
    have v1 : i + 2 - 1 = i + 1 := by omega
    rw [a0, a1, a2, v1]
  have hquads : 6 * (count / 4) ≤ 2 ^ 32 →
      write_index_array_for_non_indexed_non_native_primitive_to_buffer .quads count =
        some ((List.range (count / 4)).flatMap
          (fun i => [(6 * i, (4 * i) % 65536), (6 * i + 1, (4 * i + 1) % 65536),
            (6 * i + 2, (4 * i + 2) % 65536), (6 * i + 3, (4 * i + 2) % 65536),
            (6 * i + 4, (4 * i + 3) % 65536), (6 * i + 5, (4 * i) % 65536)])) := by
    intro hw
    simp only [write_index_array_for_non_indexed_non_native_primitive_to_buffer]
    rw [foldl_append_flatMap, List.nil_append]
    congr 1
    apply flatMap_congr_range
    intro i hi
    have a0 : (6 * i) % 2 ^ 32 = 6 * i := by omega
    have a1 : (6 * i + 1) % 2 ^ 32 = 6 * i + 1 := by omega
    have a2 : (6 * i + 2) % 2 ^ 32 = 6 * i + 2 := by omega
    have a3 : (6 * i + 3) % 2 ^ 32 = 6 * i + 3 := by omega
    have a4 : (6 * i + 4) % 2 ^ 32 = 6 * i + 4 := by omega
    have a5 : (6 * i + 5) % 2 ^ 32 = 6 * i + 5 := by omega
    rw [a0, a1, a2, a3, a4, a5]
  have hfan2 : 2 ≤ count → 3 * (count - 2) ≤ 2 ^ 32 →
      write_index_array_for_non_indexed_non_native_primitive_to_buffer .triangle_fan count =
        some ((List.range (count - 2)).flatMap
          (fun i => [(3 * i, 0), (3 * i + 1, (i + 1) % 65536),
            (3 * i + 2, (i + 2) % 65536)])) ∧
      write_index_array_for_non_indexed_non_native_primitive_to_buffer .polygon count =
        some ((List.range (count - 2)).flatMap
          (fun i => [(3 * i, 0), (3 * i + 1, (i + 1) % 65536),
            (3 * i + 2, (i + 2) % 65536)])) := by
    intro h2 hw
    simp only [write_index_array_for_non_indexed_non_native_primitive_to_buffer]
    rw [hfan h2 hw]
    exact ⟨rfl, rfl⟩
  refine ⟨?_, ?_, ?_, hline, hfan2, hquads, rfl, rfl, rfl, rfl, rfl, rfl, rfl⟩
  · intro hc
    rw [hline]
    congr 2
    apply List.map_congr_left
    intro i hi
    have := List.mem_range.mp hi
    have e : i % 65536 = i := by omega
    rw [e]
  · intro h2 hc
    obtain ⟨e1, e2⟩ := hfan2 h2 (by omega)
    have e : (List.range (count - 2)).flatMap
        (fun i => [(3 * i, 0), (3 * i + 1, (i + 1) % 65536), (3 * i + 2, (i + 2) % 65536)]) =
        (List.range (count - 2)).flatMap
          (fun i => [(3 * i, 0), (3 * i + 1, i + 1), (3 * i + 2, i + 2)]) := by
      apply flatMap_congr_range
      intro i hi
      have v1 : (i + 1) % 65536 = i + 1 := by omega
      have v2 : (i + 2) % 65536 = i + 2 := by omega
      rw [v1, v2]
    rw [e1, e2, e]
    exact ⟨rfl, rfl⟩
  · intro hc
    rw [hquads (by omega)]
    congr 1
    apply flatMap_congr_range
    intro i hi
    have v0 : (4 * i) % 65536 = 4 * i := by omega
    have v1 : (4 * i + 1) % 65536 = 4 * i + 1 := by omega
    have v2 : (4 * i + 2) % 65536 = 4 * i + 2 := by omega
    have v3 : (4 * i + 3) % 65536 = 4 * i + 3 := by omega
    rw [v0, v1, v2, v3]

/-- Instance of the amended C14: four vertices as a fan, eight as quads, three as a loop. -/
theorem non_indexed_generator_shapes_witness :
    write_index_array_for_non_indexed_non_native_primitive_to_buffer .line_loop 3 =
      some [(0, 0), (1, 1), (2, 2), (3, 0)] ∧
    write_index_array_for_non_indexed_non_native_primitive_to_buffer .triangle_fan 4 =
      some [(0, 0), (1, 1), (2, 2), (3, 0), (4, 2), (5, 3)] ∧
    write_index_array_for_non_indexed_non_native_primitive_to_buffer .quads 8 =
      some [(0, 0), (1, 1), (2, 2), (3, 2), (4, 3), (5, 0),
        (6, 4), (7, 5), (8, 6), (9, 6), (10, 7), (11, 4)] ∧
    write_index_array_for_non_indexed_non_native_primitive_to_buffer .line_loop 3 =
      some ((List.range 3).map (fun i => (i, i)) ++ [(3, 0)]) :=
  ⟨by decide, by decide, by decide, (non_indexed_generator_shapes 3).1 (by decide)⟩

/-- C14 fails as stated for more than 65536 vertices: the destination is 16 bits wide, so
a line loop of 65537 vertices stores `dst[65536] = 0`, not 65536. -/
theorem non_indexed_generator_counterexample :
    ∃ st, write_index_array_for_non_indexed_non_native_primitive_to_buffer .line_loop 65537
        = some st ∧
      (65536, 0) ∈ st ∧ (65536, 65536) ∉ st := by
  refine ⟨_, rfl, ?_, ?_⟩
  · rw [foldl_append_flatMap, List.nil_append, flatMap_singleton_range]
    apply List.mem_append_left
    exact List.mem_map.mpr ⟨65536, List.mem_range.mpr (by decide), rfl⟩
  · rw [foldl_append_flatMap, List.nil_append, flatMap_singleton_range]
    intro h
    rcases List.mem_append.mp h with h | h
    · obtain ⟨j, _, hj⟩ := List.mem_map.mp h
      simp only [Prod.mk.injEq] at hj
      omega
    · simp at h

/-! ## Routing, classification and fatal cases -/

/-- C16: the facade routes by `expands(topology)`.  When it is false the result is exactly
the upload kernel's (tuple and stores, or its fault), whatever the topology; when it is
true, `polygon` and `triangle_fan` give the result of the fan expander, `quads` that of
the quad expander, `line_loop` the upload kernel's tuple with the closing store added,
and every other topology fails.  The destination element count is the byte size over the
width. -/
theorem facade_routing (cpu : cpu_flags) (dst_addr dst_bytes : Nat) (src : List Nat)
    (type : index_array_type) (draw_mode : primitive_type) (restart_index_enabled : Bool)
    (restart_index : Nat) (expands : primitive_type → Bool) :
    (expands draw_mode = false →
      write_index_array_data_to_buffer cpu dst_addr dst_bytes src type draw_mode
          restart_index_enabled restart_index expands =
        upload_untouched cpu type src dst_addr draw_mode restart_index_enabled
          restart_index) ∧
    (expands draw_mode = true →
      (draw_mode = .polygon ∨ draw_mode = .triangle_fan →
        write_index_array_data_to_buffer cpu dst_addr dst_bytes src type draw_mode
            restart_index_enabled restart_index expands =
          expand_indexed_triangle_fan type src (dst_bytes / get_index_type_size type)
            restart_index_enabled restart_index) ∧
      (draw_mode = .quads →
        write_index_array_data_to_buffer cpu dst_addr dst_bytes src type draw_mode
            restart_index_enabled restart_index expands =
          expand_indexed_quads type src (dst_bytes / get_index_type_size type)
            restart_index_enabled restart_index) ∧
      (draw_mode = .line_loop →
        write_index_array_data_to_buffer cpu dst_addr dst_bytes src type draw_mode
            restart_index_enabled restart_index expands =
          (upload_untouched cpu type src dst_addr .line_loop restart_index_enabled
            restart_index).map
            (fun returnvalue => { returnvalue with
              stores := returnvalue.stores ++
                [(dst_bytes / get_index_type_size type, byteswap type (src.getD 0 0))] })) ∧
      (is_primitive_native draw_mode ≠ some false →
        write_index_array_data_to_buffer cpu dst_addr dst_bytes src type draw_mode
            restart_index_enabled restart_index expands = none)) := by
  refine ⟨?_, ?_⟩
  · intro he
    exact facade_upload cpu dst_addr dst_bytes src type draw_mode restart_index_enabled
      restart_index expands he
  · intro he
    refine ⟨?_, ?_, ?_, ?_⟩
    · rintro (h | h) <;> subst h <;> cases type <;>
      simp [write_index_array_data_to_buffer, write_index_array_data_to_buffer_impl, he,
        get_index_type_size]
    · intro h
      subst h
      cases type <;>
      simp [write_index_array_data_to_buffer, write_index_array_data_to_buffer_impl, he,
        get_index_type_size]
    · intro h
      subst h
      cases type
      · exact line_loop_expansion cpu .u16 dst_addr _ src _ _ expands he
      · exact line_loop_expansion cpu .u32 dst_addr _ src _ _ expands he
    · intro h
      cases draw_mode <;> cases type <;>
      simp [write_index_array_data_to_buffer, write_index_array_data_to_buffer_impl, he,
        is_primitive_native] at h ⊢

/-- When `expands(invalid)` is false the facade does not fail on the invalid topology: it
returns the upload kernel's result, `invalid` being classified as disjointed. -/
theorem invalid_topology_counterexample :
    write_index_array_data_to_buffer ⟨false, false, true⟩ 0 4 [256, 512] .u16 .invalid
        false 0 (fun _ => false) = some ⟨1, 2, 2, [(0, 1), (1, 2)]⟩ ∧
    write_index_array_data_to_buffer ⟨false, false, true⟩ 0 4 [256, 512] .u16 .invalid
        false 0 (fun _ => false) ≠ none := by
  constructor
  · decide
  · decide

/-- C17, as the code has it: with topology `invalid` the facade fails when
`expands(invalid)` is true; when `expands(invalid)` is false it returns the upload
kernel's result (nothing on that path inspects the topology but `is_primitive_disjointed`,
which answers `true`, so that no vector kernel runs and the upload returns on every
destination).  `is_primitive_native(invalid)` and `get_index_count(invalid, n)` fail. -/
theorem invalid_topology (cpu : cpu_flags) (dst_addr dst_bytes : Nat) (src : List Nat)
    (type : index_array_type) (restart_index_enabled : Bool) (restart_index : Nat)
    (expands : primitive_type → Bool) (n : Nat) :
    (expands .invalid = true →
      write_index_array_data_to_buffer cpu dst_addr dst_bytes src type .invalid
        restart_index_enabled restart_index expands = none) ∧
    (expands .invalid = false →
      write_index_array_data_to_buffer cpu dst_addr dst_bytes src type .invalid
          restart_index_enabled restart_index expands =
        upload_untouched cpu type src dst_addr .invalid restart_index_enabled
          restart_index ∧
      upload_untouched cpu type src dst_addr .invalid restart_index_enabled restart_index
        ≠ none) ∧
    is_primitive_disjointed .invalid = true ∧
    is_primitive_native .invalid = none ∧
    get_index_count .invalid n = none := by
  refine ⟨?_, ?_, rfl, rfl, rfl⟩
  · intro he
    cases type <;>
    simp [write_index_array_data_to_buffer, write_index_array_data_to_buffer_impl, he]
  · intro he
    refine ⟨facade_upload cpu dst_addr dst_bytes src type .invalid restart_index_enabled
      restart_index expands he, ?_⟩
    cases restart_index_enabled with
    | false =>
      rw [upload_untouched_disabled_eq]
      simp
    | true =>
      rw [upload_untouched_enabled_ok cpu type src dst_addr .invalid restart_index
        (Or.inl rfl)]
      simp

/-- C18: `is_primitive_disjointed` is true for points, lines, triangles and quads and
false for line_strip, line_loop, triangle_strip, triangle_fan, polygon and quad_strip;
`is_primitive_native` is false exactly for line_loop, triangle_fan, polygon and quads and
true for the other six valid topologies. -/
theorem topology_classification :
    is_primitive_disjointed .points = true ∧ is_primitive_disjointed .lines = true ∧
    is_primitive_disjointed .triangles = true ∧ is_primitive_disjointed .quads = true ∧
    is_primitive_disjointed .line_strip = false ∧ is_primitive_disjointed .line_loop = false ∧
    is_primitive_disjointed .triangle_strip = false ∧
    is_primitive_disjointed .triangle_fan = false ∧
    is_primitive_disjointed .polygon = false ∧ is_primitive_disjointed .quad_strip = false ∧
    (∀ t, is_primitive_native t = some false ↔
      t = .line_loop ∨ t = .triangle_fan ∨ t = .polygon ∨ t = .quads) ∧
    (∀ t, is_primitive_native t = some true ↔
      t = .points ∨ t = .lines ∨ t = .line_strip ∨ t = .triangles ∨ t = .triangle_strip ∨
        t = .quad_strip) := by
  refine ⟨rfl, rfl, rfl, rfl, rfl, rfl, rfl, rfl, rfl, rfl, ?_, ?_⟩
  · intro t
    cases t <;> simp [is_primitive_native]
  · intro t
    cases t <;> simp [is_primitive_native]

/-- The fan expander on a stream of fewer than two indices: the capacity check compares
the destination size with `3 * (n - 2)` wrapped in 64 bits and fails. -/
theorem fan_short_stream_fails (T : index_array_type) (src : List Nat) (dst_size : Nat)
    (en : Bool) (ri : Nat) (hn : src.length < 2) (hd : dst_size < 2 ^ 64 - 6) :
    expand_indexed_triangle_fan T src dst_size en ri = none := by
  have h64 : (2 : Nat) ^ 64 = 18446744073709551616 := by norm_num
  rw [h64] at hd
  unfold expand_indexed_triangle_fan
  rw [if_neg]
  have hl : src.length = 0 ∨ src.length = 1 := by omega
  rcases hl with hl | hl
  · rw [hl]
    have e : (3 * ((0 + 2 ^ 64 - 2) % 2 ^ 64)) % 2 ^ 64 = 18446744073709551610 := by norm_num
    rw [e]
    omega
  · rw [hl]
    have e : (3 * ((1 + 2 ^ 64 - 2) % 2 ^ 64)) % 2 ^ 64 = 18446744073709551613 := by norm_num
    rw [e]
    omega

/-- C20, the code at streams of fewer than three indices, restart disabled and a
destination of six elements: two indices complete with `emitted = 0` and no store, as the
claim says; one index and no index fail the capacity check (where the claim has them
complete with `emitted = 0`). -/
theorem fan_incomplete_streams :
    expand_indexed_triangle_fan .u16 [256, 512] 6 false 0 = some ⟨1, 2, 0, []⟩ ∧
    expand_indexed_triangle_fan .u16 [256] 6 false 0 = none ∧
    expand_indexed_triangle_fan .u16 [] 6 false 0 = none ∧
    expand_indexed_triangle_fan .u32 [] 0 true 4294967295 = none := by
  refine ⟨by decide, by decide, by decide, by decide⟩

/-! ## Capacity: the expanders write below their bound -/

theorem fan_bound_step (T : index_array_type) (en : Bool) (ri : Nat) (s : fan_state)
    (x k : Nat) (h : fan_bound_inv T s k) :
    fan_bound_inv T (expand_indexed_triangle_fan_step T en ri s x) (k + 1) := by
  obtain ⟨h1, h2, h3, h4, h5⟩ := h
  unfold expand_indexed_triangle_fan_step
  simp only []
  by_cases hna : s.needs_anchor = true
  · have hl := h1 hna
    by_cases hm : (en && byteswap T x == ri) = true
    · simp only [hna, hm, if_true]
      refine ⟨h1, ?_, ?_, ?_, h5⟩
      · intro hf; rw [hna] at hf; exact absurd hf (by simp)
      · intro hf; rw [hna] at hf; exact absurd hf (by simp)
      · rcases h4 with h4 | h4
        · exact Or.inl h4
        · exact Or.inr (by omega)
    · simp only [hna, hm, if_true, Bool.false_eq_true, if_false]
      refine ⟨by simp, by intro _; omega, ?_, ?_, h5⟩
      · intro _ hne
        exact absurd hl hne
      · rcases h4 with h4 | h4
        · exact Or.inl h4
        · exact Or.inr (by first | omega | (dsimp only; omega))
  · have hna' : s.needs_anchor = false := by simpa using hna
    have hk1 := h2 hna'
    by_cases hm : (en && byteswap T x == ri) = true
    · simp only [hna', hm, Bool.false_eq_true, if_false, if_true]
      refine ⟨fun _ => rfl, by simp, by simp, ?_, h5⟩
      rcases h4 with h4 | h4
      · exact Or.inl h4
      · exact Or.inr (by first | omega | (dsimp only; omega))
    · by_cases hl : s.last_index = index_limit T
      · simp only [hna', hm, hl, Bool.false_eq_true, if_false, if_true]
        refine ⟨by simp [hna'], by intro _; omega, by intro _ _; omega, ?_, h5⟩
        rcases h4 with h4 | h4
        · exact Or.inl h4
        · exact Or.inr (by first | omega | (dsimp only; omega))
      · have hk2 := h3 hna' hl
        simp only [hna', hm, hl, Bool.false_eq_true, if_false]
        refine ⟨by simp [hna'], by intro _; omega, by intro _ _; omega, ?_, ?_⟩
        · right
          rcases h4 with h4 | h4
          · rw [h4]; dsimp only; omega
          · dsimp only; omega
        · intro p hp
          simp only [List.mem_append, List.mem_cons, List.mem_singleton, List.not_mem_nil,
            or_false] at hp
          rcases hp with hp | hp | hp | hp
          · have := h5 p hp
            dsimp only; omega
          · rw [hp]; dsimp only; omega
          · rw [hp]; dsimp only; omega
          · rw [hp]; dsimp only; omega

theorem fan_bound_run (T : index_array_type) (en : Bool) (ri : Nat) (xs : List Nat) :
    ∀ (s : fan_state) (k : Nat), fan_bound_inv T s k →
      fan_bound_inv T (xs.foldl (expand_indexed_triangle_fan_step T en ri) s)
        (k + xs.length) := by
  induction xs with
  | nil => intro s k h; exact h
  | cons x xs ih =>
    intro s k h
    have := ih _ (k + 1) (fan_bound_step T en ri s x k h)
    rw [List.foldl_cons, List.length_cons]
    have e : k + (xs.length + 1) = k + 1 + xs.length := by omega
    rw [e]
    exact this

/-- The fan expander returns exactly when its capacity check holds, and then every store
lands below `emitted <= 3 * (n - 2)`. -/
theorem fan_bound (T : index_array_type) (src : List Nat) (dst_size : Nat) (en : Bool)
    (ri : Nat) (hn : 2 ≤ src.length) (hcap : 3 * (src.length - 2) ≤ dst_size) :
    ∃ r, expand_indexed_triangle_fan T src dst_size en ri = some r ∧
      r.count ≤ 3 * (src.length - 2) ∧ ∀ p ∈ r.stores, p.1 < r.count := by
  have hens : dst_size ≥ (3 * ((src.length + 2 ^ 64 - 2) % 2 ^ 64)) % 2 ^ 64 := by
    have h64 : (2 : Nat) ^ 64 = 18446744073709551616 := by norm_num
    rw [h64]
    have e1 : (src.length + 18446744073709551616 - 2) % 18446744073709551616 ≤
        src.length - 2 := by omega
    have e2 := Nat.mod_le (3 * ((src.length + 18446744073709551616 - 2) %
      18446744073709551616)) 18446744073709551616
    omega
  have hinv := fan_bound_run T en ri src
    { min_index := index_limit T, max_index := 0, dst_idx := 0, needs_anchor := true
      anchor := index_limit T, last_index := index_limit T, stores := [] } 0
    ⟨fun _ => rfl, by simp, by simp, Or.inl rfl, by simp⟩
  obtain ⟨_, _, _, h4, h5⟩ := hinv
  unfold expand_indexed_triangle_fan
  rw [if_pos hens]
  refine ⟨_, rfl, ?_, h5⟩
  simp only []
  rcases h4 with h4 | h4
  · rw [h4]; omega
  · omega

theorem pending_groups_bound (p : Nat → Bool) (vals : List Nat) :
    ∀ g : List Nat, g.length < 4 →
      4 * (pending_groups p g vals).length ≤ g.length + vals.length := by
  induction vals with
  | nil =>
    intro g hg
    rw [pending_groups_end p g hg]
    simp
  | cons v vs ih =>
    intro g hg
    by_cases hv : p v = true
    · rw [pending_groups_marker p g hg v vs hv]
      have := ih [] (by simp)
      simp only [List.length_cons, List.length_nil] at this ⊢
      omega
    · have hv' : p v = false := by simpa using hv
      rw [pending_groups_push p g v vs hv']
      by_cases h4 : g.length + 1 = 4
      · rw [pending_groups_full p (g ++ [v]) (by simpa using h4)]
        have := ih [] (by simp)
        simp only [List.length_cons, List.length_nil] at this ⊢
        omega
      · have := ih (g ++ [v]) (by simp; omega)
        simp only [List.length_cons, List.length_append, List.length_nil] at this ⊢
        omega

theorem quads_bound (T : index_array_type) (src : List Nat) (dst_size : Nat) (en : Bool)
    (ri : Nat) (hcap : 6 * src.length ≤ 4 * dst_size) :
    ∃ r, expand_indexed_quads T src dst_size en ri = some r ∧
      r.count ≤ 6 * (src.length / 4) ∧ r.count ≤ dst_size ∧ ∀ p ∈ r.stores, p.1 < r.count := by
  obtain ⟨r, hr, hc, hs⟩ := quads_eq T src dst_size en ri hcap
  have hb := pending_groups_bound (fun v => en && v == ri) (src.map (byteswap T)) []
    (by simp)
  rw [pending_groups_nil_eq] at hb
  simp only [List.length_nil, List.length_map, Nat.zero_add] at hb
  refine ⟨r, hr, by omega, by omega, ?_⟩
  intro p hp
  rw [hs] at hp
  have := List.fst_lt_add_of_mem_enumFrom hp
  rw [flatMap_two_triangles_length] at this
  omega

/-! ## The pre-sizing contract -/

theorem facade_sized (cpu : cpu_flags) (dst_addr c : Nat) (src : List Nat)
    (type : index_array_type) (draw_mode : primitive_type) (en : Bool) (ri : Nat)
    (expands : primitive_type → Bool) :
    write_index_array_data_to_buffer cpu dst_addr (c * get_index_type_size type) src type
      draw_mode en ri expands =
    write_index_array_data_to_buffer_impl cpu type dst_addr c src draw_mode en ri expands := by
  cases type
  · show write_index_array_data_to_buffer_impl cpu .u16 dst_addr (c * 2 / 2) src draw_mode
      en ri expands = _
    rw [Nat.mul_div_cancel c (by decide : 0 < 2)]
  · show write_index_array_data_to_buffer_impl cpu .u32 dst_addr (c * 4 / 4) src draw_mode
      en ri expands = _
    rw [Nat.mul_div_cancel c (by decide : 0 < 4)]

theorem get_index_type_size_pos (T : index_array_type) : 0 < get_index_type_size T := by
  cases T <;> decide

theorem get_index_count_fan (n : Nat) (hn : 2 ≤ n) (hw : 3 * (n - 2) < 2 ^ 32) :
    (((n + 2 ^ 32 - 2) % 2 ^ 32) * 3) % 2 ^ 32 = 3 * (n - 2) := by
  have h32 : (2 : Nat) ^ 32 = 4294967296 := by norm_num
  rw [h32] at hw ⊢
  have e : (n + 4294967296 - 2) % 4294967296 = n - 2 := by omega
  rw [e]
  omega

/-- C11 (as amended): when `get_index_count` gives `c` for a topology the facade expands, a
destination of exactly `c` elements passes the capacity check and every store lands below
`c` for `triangle_fan` and `polygon` streams of at least two indices and for `quads`
streams of an even number of indices (counts within `u32`); for a `quads` stream of an odd
number of indices the capacity check fails. -/
theorem presizing_contract (cpu : cpu_flags) (dst_addr : Nat) (type : index_array_type)
    (src : List Nat) (en : Bool) (ri : Nat) (expands : primitive_type → Bool)
    (t : primitive_type) (c : Nat)
    (hexp : expands t = true) (hc : get_index_count t src.length = some c) :
    ((t = .triangle_fan ∨ t = .polygon) → 2 ≤ src.length → 3 * (src.length - 2) < 2 ^ 32 →
      ∃ r, write_index_array_data_to_buffer cpu dst_addr (c * get_index_type_size type) src
          type t en ri expands = some r ∧ ∀ p ∈ r.stores, p.1 < c) ∧
    (t = .quads → 6 * src.length < 2 ^ 32 → src.length % 2 = 0 →
      ∃ r, write_index_array_data_to_buffer cpu dst_addr (c * get_index_type_size type) src
          type t en ri expands = some r ∧ ∀ p ∈ r.stores, p.1 < c) ∧
    (t = .quads → 6 * src.length < 2 ^ 32 → src.length % 2 = 1 →
      write_index_array_data_to_buffer cpu dst_addr (c * get_index_type_size type) src
          type t en ri expands = none) := by
  rw [facade_sized]
  unfold write_index_array_data_to_buffer_impl
  rw [hexp]
  simp only [Bool.not_true, Bool.false_eq_true, if_false]
  refine ⟨?_, ?_, ?_⟩
  · intro ht hn hw
    have hc' : c = 3 * (src.length - 2) := by
      rcases ht with ht | ht
      · rw [ht] at hc
        simp only [get_index_count, is_primitive_native, Option.some.injEq] at hc
        rw [get_index_count_fan _ hn hw] at hc
        exact hc.symm
      · rw [ht] at hc
        simp only [get_index_count, is_primitive_native, Option.some.injEq] at hc
        rw [get_index_count_fan _ hn hw] at hc
        exact hc.symm
    obtain ⟨r, hr, hcount, hst⟩ := fan_bound type src c en ri hn (by omega)
    refine ⟨r, ?_, fun p hp => by have := hst p hp; omega⟩
    rcases ht with ht | ht
    · rw [ht]; exact hr
    · rw [ht]; exact hr
  · intro ht hw he
    rw [ht] at hc
    simp only [get_index_count, is_primitive_native, Option.some.injEq] at hc
    rw [Nat.mod_eq_of_lt hw] at hc
    obtain ⟨r, hr, hcount, _, hst⟩ := quads_bound type src c en ri (by omega)
    refine ⟨r, ?_, fun p hp => by have := hst p hp; omega⟩
    rw [ht]; exact hr
  · intro ht hw ho
    rw [ht] at hc
    simp only [get_index_count, is_primitive_native, Option.some.injEq] at hc
    rw [Nat.mod_eq_of_lt hw] at hc
    rw [ht]
    show expand_indexed_quads type src c en ri = none
    unfold expand_indexed_quads
    rw [if_neg]
    have hp := get_index_type_size_pos type
    have e1 : 4 * (c * get_index_type_size type) = (4 * c) * get_index_type_size type := by
      ring
    have e2 : 6 * (src.length * get_index_type_size type) =
        (6 * src.length) * get_index_type_size type := by ring
    rw [e1, e2]
    intro hge
    have := Nat.le_of_mul_le_mul_right hge hp
    omega

theorem presizing_contract_witness :
    (fun _ => true) primitive_type.quads = true ∧
    get_index_count .quads [0, 256, 512, 768].length = some 6 ∧
    ∃ r, write_index_array_data_to_buffer ⟨false, false, false⟩ 0
        (6 * get_index_type_size .u16) [0, 256, 512, 768] .u16 .quads false 0
        (fun _ => true) = some r ∧ ∀ p ∈ r.stores, p.1 < 6 :=
  ⟨rfl, by decide,
    (presizing_contract ⟨false, false, false⟩ 0 .u16 [0, 256, 512, 768] false 0
      (fun _ => true) .quads 6 rfl (by decide)).2.1 rfl (by decide) (by decide)⟩

/-- C11 (counterexample to the claim as stated): a `quads` stream of five 16-bit indices
with a destination of exactly `get_index_count(quads, 5) = 7` elements fails the capacity
check (`4 * 14 < 6 * 10` bytes). -/
theorem presizing_contract_counterexample :
    get_index_count .quads 5 = some 7 ∧
    write_index_array_data_to_buffer ⟨false, false, false⟩ 0 (7 * 2)
      [0, 256, 512, 768, 1024] .u16 .quads false 0 (fun _ => true) = none := by
  decide

/-! ## Min/max of the expanders -/

theorem fan_step_min_max (T : index_array_type) (en : Bool) (ri : Nat) (s : fan_state)
    (x : Nat) :
    (expand_indexed_triangle_fan_step T en ri s x).min_index =
      (if (en && byteswap T x == ri) = true then s.min_index
        else min s.min_index (byteswap T x)) ∧
    (expand_indexed_triangle_fan_step T en ri s x).max_index =
      (if (en && byteswap T x == ri) = true then s.max_index
        else max s.max_index (byteswap T x)) := by
  unfold expand_indexed_triangle_fan_step
  simp only [min_max_eq]
  by_cases hm : (en && byteswap T x == ri) = true
  · simp only [hm, if_true]
    split <;> exact ⟨rfl, rfl⟩
  · simp only [hm, Bool.false_eq_true, if_false]
    split
    · exact ⟨rfl, rfl⟩
    · split <;> exact ⟨rfl, rfl⟩

theorem quads_step_min_max (T : index_array_type) (en : Bool) (ri : Nat) (s : quads_state)
    (x : Nat) :
    (expand_indexed_quads_step T en ri s x).min_index =
      (if (en && byteswap T x == ri) = true then s.min_index
        else min s.min_index (byteswap T x)) ∧
    (expand_indexed_quads_step T en ri s x).max_index =
      (if (en && byteswap T x == ri) = true then s.max_index
        else max s.max_index (byteswap T x)) := by
  unfold expand_indexed_quads_step
  simp only [min_max_eq]
  by_cases hm : (en && byteswap T x == ri) = true
  · simp only [hm, if_true]
    exact ⟨trivial, trivial⟩
  · simp only [hm, Bool.false_eq_true, if_false]
    split <;> exact ⟨rfl, rfl⟩

/-- A loop whose step folds every non-marker index into `min` / `max` ends with the fold of
`min` / `max` over the non-marker indices. -/
theorem fold_min_max_closed {σ : Type} (T : index_array_type) (en : Bool) (ri : Nat)
    (step : σ → Nat → σ) (mn mx : σ → Nat)
    (hstep : ∀ s x,
      mn (step s x) = (if (en && byteswap T x == ri) = true then mn s
        else min (mn s) (byteswap T x)) ∧
      mx (step s x) = (if (en && byteswap T x == ri) = true then mx s
        else max (mx s) (byteswap T x)))
    (xs : List Nat) :
    ∀ s : σ,
      mn (xs.foldl step s) =
        ((xs.map (byteswap T)).filter (fun v => !(en && v == ri))).foldl min (mn s) ∧
      mx (xs.foldl step s) =
        ((xs.map (byteswap T)).filter (fun v => !(en && v == ri))).foldl max (mx s) := by
  induction xs with
  | nil => intro s; exact ⟨rfl, rfl⟩
  | cons x xs ih =>
    intro s
    obtain ⟨h1, h2⟩ := ih (step s x)
    obtain ⟨e1, e2⟩ := hstep s x
    rw [List.foldl_cons, h1, h2, e1, e2, List.map_cons]
    by_cases hm : (en && byteswap T x == ri) = true
    · rw [List.filter_cons_of_neg (by simp [hm])]
      simp only [hm, if_true]
      exact ⟨trivial, trivial⟩
    · have hm' : (en && byteswap T x == ri) = false := by simpa using hm
      rw [List.filter_cons_of_pos (by simp [hm'])]
      simp only [hm', Bool.false_eq_true, if_false, List.foldl_cons]
      exact ⟨trivial, trivial⟩

theorem fan_range_step (T : index_array_type) (en : Bool) (ri : Nat) (s : fan_state)
    (x : Nat) (h : fan_range_inv T s) :
    fan_range_inv T (expand_indexed_triangle_fan_step T en ri s x) := by
  obtain ⟨h1, h2, h3⟩ := h
  unfold expand_indexed_triangle_fan_step
  simp only [min_max_eq]
  by_cases hna : s.needs_anchor = true
  · by_cases hm : (en && byteswap T x == ri) = true
    · simp only [hna, hm, if_true]
      exact ⟨h1, h2, h3⟩
    · simp only [hna, hm, if_true, Bool.false_eq_true, if_false]
      refine ⟨?_, ?_, ?_⟩
      · intro p hp
        have := h1 p hp
        dsimp only
        omega
      · intro _
        dsimp only
        omega
      · intro hl
        have := h3 hl
        dsimp only
        omega
  · have hna' : s.needs_anchor = false := by simpa using hna
    have ha := h2 hna'
    by_cases hm : (en && byteswap T x == ri) = true
    · simp only [hna', hm, Bool.false_eq_true, if_false, if_true]
      refine ⟨h1, ?_, ?_⟩
      · intro hf
        exact absurd hf (by simp)
      · intro hl
        exact absurd rfl hl
    · by_cases hl : s.last_index = index_limit T
      · simp only [hna', hm, hl, Bool.false_eq_true, if_false, if_true]
        refine ⟨?_, ?_, ?_⟩
        · intro p hp
          have := h1 p hp
          dsimp only
          omega
        · intro _
          dsimp only
          omega
        · intro _
          dsimp only
          omega
      · have hlr := h3 hl
        simp only [hna', hm, hl, Bool.false_eq_true, if_false]
        refine ⟨?_, ?_, ?_⟩
        · intro p hp
          simp only [List.mem_append, List.mem_cons, List.mem_singleton, List.not_mem_nil,
            or_false] at hp
          rcases hp with hp | hp | hp | hp
          · have := h1 p hp
            dsimp only
            omega
          · rw [hp]; dsimp only; omega
          · rw [hp]; dsimp only; omega
          · rw [hp]; dsimp only; omega
        · intro _
          dsimp only
          omega
        · intro _
          dsimp only
          omega

theorem getD_set_zero (l : List Nat) (k j v : Nat) (hk : k < l.length) :
    (l.set k v).getD j 0 = if j = k then v else l.getD j 0 := by
  rw [List.getD_eq_getElem?_getD, List.getD_eq_getElem?_getD, List.getElem?_set]
  by_cases h : k = j
  · subst h
    simp [hk]
  · have h' : ¬ j = k := fun e => h e.symm
    simp [h, h']

theorem quads_range_step (T : index_array_type) (en : Bool) (ri : Nat) (s : quads_state)
    (x : Nat) (h : quads_range_inv s) :
    quads_range_inv (expand_indexed_quads_step T en ri s x) := by
  obtain ⟨h1, h2, h3, h4⟩ := h
  unfold expand_indexed_quads_step
  simp only [min_max_eq]
  by_cases hm : (en && byteswap T x == ri) = true
  · simp only [hm, if_true]
    refine ⟨h1, by dsimp only; omega, h3, ?_⟩
    intro j hj
    exact absurd hj (Nat.not_lt_zero j)
  · simp only [hm, Bool.false_eq_true, if_false]
    have hset : ∀ j, j < s.set_size + 1 →
        min s.min_index (byteswap T x) ≤ (s.tmp_indices.set s.set_size (byteswap T x)).getD j 0 ∧
        (s.tmp_indices.set s.set_size (byteswap T x)).getD j 0 ≤
          max s.max_index (byteswap T x) := by
      intro j hj
      rw [getD_set_zero _ _ _ _ (by omega)]
      by_cases e : j = s.set_size
      · rw [if_pos e]; omega
      · rw [if_neg e]
        have := h4 j (by omega)
        omega
    by_cases h4' : s.set_size + 1 = 4
    · simp only [h4', if_true]
      rw [h4'] at hset
      refine ⟨by dsimp only; rw [List.length_set]; exact h1, by dsimp only; omega, ?_, ?_⟩
      · intro p hp
        simp only [List.mem_append, List.mem_cons, List.mem_singleton, List.not_mem_nil,
          or_false] at hp
        rcases hp with hp | hp | hp | hp | hp | hp | hp
        · have := h3 p hp
          dsimp only
          omega
        · rw [hp]; exact hset 0 (by omega)
        · rw [hp]; exact hset 1 (by omega)
        · rw [hp]; exact hset 2 (by omega)
        · rw [hp]; exact hset 2 (by omega)
        · rw [hp]; exact hset 3 (by omega)
        · rw [hp]; exact hset 0 (by omega)
      · intro j hj
        exact absurd hj (Nat.not_lt_zero j)
    · simp only [h4', if_false]
      refine ⟨by dsimp only; rw [List.length_set]; exact h1, by dsimp only; omega, ?_, ?_⟩
      · intro p hp
        have := h3 p hp
        dsimp only
        omega
      · intro j hj
        exact hset j hj

theorem fan_result_range (T : index_array_type) (src : List Nat) (dst_size : Nat) (en : Bool)
    (ri : Nat) (r : upload_result)
    (h : expand_indexed_triangle_fan T src dst_size en ri = some r) :
    r.min_index = ((src.map (byteswap T)).filter (fun v => !(en && v == ri))).foldl min
      (index_limit T) ∧
    r.max_index = ((src.map (byteswap T)).filter (fun v => !(en && v == ri))).foldl max 0 ∧
    ∀ p ∈ r.stores, r.min_index ≤ p.2 ∧ p.2 ≤ r.max_index := by
  unfold expand_indexed_triangle_fan at h
  split at h
  · have hinv := foldl_inv (fan_range_inv T) (expand_indexed_triangle_fan_step T en ri)
      (fun s x hs => fan_range_step T en ri s x hs) src
      { min_index := index_limit T, max_index := 0, dst_idx := 0, needs_anchor := true
        anchor := index_limit T, last_index := index_limit T, stores := [] }
      ⟨by simp, by simp, by simp⟩
    have hmm := fold_min_max_closed T en ri (expand_indexed_triangle_fan_step T en ri)
      fan_state.min_index fan_state.max_index (fan_step_min_max T en ri) src
      { min_index := index_limit T, max_index := 0, dst_idx := 0, needs_anchor := true
        anchor := index_limit T, last_index := index_limit T, stores := [] }
    simp only [Option.some.injEq] at h
    rw [← h]
    exact ⟨hmm.1, hmm.2, hinv.1⟩
  · exact absurd h (by simp)

theorem quads_result_range (T : index_array_type) (src : List Nat) (dst_size : Nat)
    (en : Bool) (ri : Nat) (r : upload_result)
    (h : expand_indexed_quads T src dst_size en ri = some r) :
    r.min_index = ((src.map (byteswap T)).filter (fun v => !(en && v == ri))).foldl min
      (index_limit T) ∧
    r.max_index = ((src.map (byteswap T)).filter (fun v => !(en && v == ri))).foldl max 0 ∧
    ∀ p ∈ r.stores, r.min_index ≤ p.2 ∧ p.2 ≤ r.max_index := by
  unfold expand_indexed_quads at h
  split at h
  · have hinv := foldl_inv quads_range_inv (expand_indexed_quads_step T en ri)
      (fun s x hs => quads_range_step T en ri s x hs) src
      { min_index := index_limit T, max_index := 0, dst_idx := 0, set_size := 0
        tmp_indices := [0, 0, 0, 0], stores := [] }
      ⟨rfl, Nat.zero_lt_succ 3, by simp, by simp⟩
    have hmm := fold_min_max_closed T en ri (expand_indexed_quads_step T en ri)
      quads_state.min_index quads_state.max_index (quads_step_min_max T en ri) src
      { min_index := index_limit T, max_index := 0, dst_idx := 0, set_size := 0
        tmp_indices := [0, 0, 0, 0], stores := [] }
    simp only [Option.some.injEq] at h
    rw [← h]
    exact ⟨hmm.1, hmm.2, hinv.2.2.1⟩
  · exact absurd h (by simp)

/-- C15 (as amended): the `min` and `max` returned by the triangle-fan and the quad expander
are the minimum and the maximum over all non-marker source indices (starting from the
all-ones value and from zero), whether or not the index ends up in an emitted triangle;
every written destination element lies between them.  Both expanders return a result when
their capacity check holds. -/
theorem expander_min_max (T : index_array_type) (src : List Nat) (dst_size : Nat) (en : Bool)
    (ri : Nat) :
    (∀ r, (expand_indexed_triangle_fan T src dst_size en ri = some r ∨
        expand_indexed_quads T src dst_size en ri = some r) →
      r.min_index = ((src.map (byteswap T)).filter (fun v => !(en && v == ri))).foldl min
        (index_limit T) ∧
      r.max_index = ((src.map (byteswap T)).filter (fun v => !(en && v == ri))).foldl max 0 ∧
      ∀ p ∈ r.stores, r.min_index ≤ p.2 ∧ p.2 ≤ r.max_index) ∧
    (2 ≤ src.length → 3 * (src.length - 2) ≤ dst_size →
      expand_indexed_triangle_fan T src dst_size en ri ≠ none) ∧
    (6 * src.length ≤ 4 * dst_size → expand_indexed_quads T src dst_size en ri ≠ none) := by
  refine ⟨?_, ?_, ?_⟩
  · intro r h
    rcases h with h | h
    · exact fan_result_range T src dst_size en ri r h
    · exact quads_result_range T src dst_size en ri r h
  · intro hn hcap
    obtain ⟨r, hr, _⟩ := fan_bound T src dst_size en ri hn hcap
    rw [hr]
    simp
  · intro hcap
    obtain ⟨r, hr, _⟩ := quads_bound T src dst_size en ri hcap
    rw [hr]
    simp

/-- C15 (counterexample to the claim as stated): for the quad stream `0, 1, 2, 3, 9` with
restart disabled the expander emits six elements `0, 1, 2, 2, 3, 0` and returns `max = 9`,
the index of the discarded incomplete group, which is no written element. -/
theorem expander_min_max_counterexample :
    expand_indexed_quads .u16 [0, 256, 512, 768, 2304] 8 false 0 =
      some ⟨0, 9, 6, [(0, 0), (1, 1), (2, 2), (3, 2), (4, 3), (5, 0)]⟩ ∧
    ∀ p ∈ [(0, 0), (1, 1), (2, 2), (3, 2), (4, 3), (5, 0)], Prod.snd p ≠ 9 := by
  decide

/-! ## Triangle fans with primitive restart -/

theorem fan_of_run_short (g : List Nat) (h : g.length ≤ 2) : fan_of_run g = [] := by
  match g, h with
  | [], _ => rfl
  | [_], _ => rfl
  | [_, _], _ => rfl

theorem pending_fan_nil_eq (p : Nat → Bool) (vals : List Nat) :
    pending_fan p [] vals = (marker_free_runs p vals).flatMap fan_of_run := by
  unfold pending_fan
  split
  · next h => exact absurd h (marker_free_runs_ne_nil p vals)
  · next run runs h => rw [h]; simp

theorem pending_fan_end (p : Nat → Bool) (g : List Nat) (h : g.length ≤ 2) :
    pending_fan p g [] = [] := by
  simp [pending_fan, marker_free_runs, fan_of_run_short g h]

theorem pending_fan_marker (p : Nat → Bool) (g : List Nat) (h : g.length ≤ 2) (v : Nat)
    (vs : List Nat) (hv : p v = true) :
    pending_fan p g (v :: vs) = pending_fan p [] vs := by
  rw [pending_fan_nil_eq]
  simp [pending_fan, marker_free_runs, hv, fan_of_run_short g h]

theorem pending_fan_push (p : Nat → Bool) (g : List Nat) (v : Nat) (vs : List Nat)
    (hv : p v = false) :
    pending_fan p g (v :: vs) = pending_fan p (g ++ [v]) vs := by
  unfold pending_fan
  simp only [marker_free_runs, hv, Bool.false_eq_true, if_false]
  cases h : marker_free_runs p vs with
  | nil => exact absurd h (marker_free_runs_ne_nil p vs)
  | cons run runs => simp

theorem pending_fan_emit (p : Nat → Bool) (a l x : Nat) (vs : List Nat) :
    pending_fan p [a, l, x] vs = [a, l, x] ++ pending_fan p [a, x] vs := by
  unfold pending_fan
  split
  · next h => exact absurd h (marker_free_runs_ne_nil p vs)
  · next run runs h => simp [fan_of_run, fan_triangles]

theorem fan_pending_length (T : index_array_type) (s : fan_state) :
    (fan_pending T s).length ≤ 2 := by
  unfold fan_pending
  split
  · simp
  · split <;> simp

theorem fan_run (T : index_array_type) (en : Bool) (ri : Nat) (xs : List Nat) :
    ∀ s : fan_state, (s.needs_anchor = true → s.last_index = index_limit T) →
      (∀ x ∈ xs, (en && byteswap T x == ri) = false → byteswap T x ≠ index_limit T) →
      (xs.foldl (expand_indexed_triangle_fan_step T en ri) s).dst_idx =
        s.dst_idx + (pending_fan (fun v => en && v == ri) (fan_pending T s)
          (xs.map (byteswap T))).length ∧
      (xs.foldl (expand_indexed_triangle_fan_step T en ri) s).stores =
        s.stores ++ (pending_fan (fun v => en && v == ri) (fan_pending T s)
          (xs.map (byteswap T))).enumFrom s.dst_idx := by
  induction xs with
  | nil =>
    intro s _ _
    simp [pending_fan_end _ _ (fan_pending_length T s)]
  | cons x xs ih =>
    intro s hinv hnl
    have hnl' : ∀ y ∈ xs, (en && byteswap T y == ri) = false →
        byteswap T y ≠ index_limit T := fun y hy => hnl y (List.mem_cons_of_mem _ hy)
    obtain ⟨s1, hs1⟩ : ∃ s1, s1 = expand_indexed_triangle_fan_step T en ri s x := ⟨_, rfl⟩
    rw [List.foldl_cons, ← hs1, List.map_cons]
    by_cases hm : (en && byteswap T x == ri) = true
    · have f1 : s1.needs_anchor = true := by
        rw [hs1]; unfold expand_indexed_triangle_fan_step
        simp only [hm, if_true]
        split
        · next h => exact h
        · rfl
      have f2 : s1.last_index = index_limit T := by
        rw [hs1]; unfold expand_indexed_triangle_fan_step
        simp only [hm, if_true]
        split
        · next h => exact hinv h
        · rfl
      have f3 : s1.dst_idx = s.dst_idx := by
        rw [hs1]; unfold expand_indexed_triangle_fan_step
        simp only [hm, if_true]
        split <;> rfl
      have f4 : s1.stores = s.stores := by
        rw [hs1]; unfold expand_indexed_triangle_fan_step
        simp only [hm, if_true]
        split <;> rfl
      have f5 : fan_pending T s1 = [] := by
        unfold fan_pending; rw [f1]; rfl
      obtain ⟨i1, i2⟩ := ih s1 (fun _ => f2) hnl'
      rw [i1, i2, f3, f4, f5,
        pending_fan_marker (fun v => en && v == ri) _ (fan_pending_length T s) _ _ hm]
      exact ⟨rfl, rfl⟩
    · have hm' : (en && byteswap T x == ri) = false := by simpa using hm
      have hx : byteswap T x ≠ index_limit T := hnl x (List.mem_cons_self _ _) hm'
      rw [pending_fan_push (fun v => en && v == ri) _ _ _ hm']
      by_cases hna : s.needs_anchor = true
      · have hl := hinv hna
        have hstep : s1 = { s with
            min_index := (min_max s.min_index s.max_index (byteswap T x)).1
            max_index := (min_max s.min_index s.max_index (byteswap T x)).2
            anchor := byteswap T x, needs_anchor := false } := by
          rw [hs1]; unfold expand_indexed_triangle_fan_step
          simp only [hna, hm', if_true, Bool.false_eq_true, if_false]
        have f1 : s1.needs_anchor = false := by rw [hstep]
        have f3 : s1.dst_idx = s.dst_idx := by rw [hstep]
        have f4 : s1.stores = s.stores := by rw [hstep]
        have f5 : fan_pending T s1 = fan_pending T s ++ [byteswap T x] := by
          unfold fan_pending
          rw [hstep]
          simp [hna, hl]
        obtain ⟨i1, i2⟩ := ih s1 (fun h => by rw [f1] at h; exact absurd h (by simp)) hnl'
        rw [i1, i2, f3, f4, f5]
        exact ⟨rfl, rfl⟩
      · have hna' : s.needs_anchor = false := by simpa using hna
        by_cases hl : s.last_index = index_limit T
        · have hstep : s1 = { s with
              min_index := (min_max s.min_index s.max_index (byteswap T x)).1
              max_index := (min_max s.min_index s.max_index (byteswap T x)).2
              last_index := byteswap T x } := by
            rw [hs1]; unfold expand_indexed_triangle_fan_step
            simp only [hna', hm', hl, if_true, Bool.false_eq_true, if_false]
          have f1 : s1.needs_anchor = false := by rw [hstep]; exact hna'
          have f3 : s1.dst_idx = s.dst_idx := by rw [hstep]
          have f4 : s1.stores = s.stores := by rw [hstep]
          have f5 : fan_pending T s1 = fan_pending T s ++ [byteswap T x] := by
            unfold fan_pending
            rw [hstep]
            simp [hna', hl, hx]
          obtain ⟨i1, i2⟩ := ih s1 (fun h => by rw [f1] at h; exact absurd h (by simp)) hnl'
          rw [i1, i2, f3, f4, f5]
          exact ⟨rfl, rfl⟩
        · have hstep : s1 = { s with
              min_index := (min_max s.min_index s.max_index (byteswap T x)).1
              max_index := (min_max s.min_index s.max_index (byteswap T x)).2
              last_index := byteswap T x, dst_idx := s.dst_idx + 3
              stores := s.stores ++ [(s.dst_idx, s.anchor), (s.dst_idx + 1, s.last_index),
                (s.dst_idx + 2, byteswap T x)] } := by
            rw [hs1]; unfold expand_indexed_triangle_fan_step
            simp only [hna', hm', hl, Bool.false_eq_true, if_false]
          have f1 : s1.needs_anchor = false := by rw [hstep]; exact hna'
          have f3 : s1.dst_idx = s.dst_idx + 3 := by rw [hstep]
          have f4 : s1.stores = s.stores ++ [(s.dst_idx, s.anchor),
              (s.dst_idx + 1, s.last_index), (s.dst_idx + 2, byteswap T x)] := by rw [hstep]
          have f5 : fan_pending T s1 = [s.anchor, byteswap T x] := by
            unfold fan_pending
            rw [hstep]
            simp [hna', hx]
          have f6 : fan_pending T s = [s.anchor, s.last_index] := by
            unfold fan_pending
            simp [hna', hl]
          obtain ⟨i1, i2⟩ := ih s1 (fun h => by rw [f1] at h; exact absurd h (by simp)) hnl'
          rw [i1, i2, f3, f4, f5, f6]
          have e : [s.anchor, s.last_index] ++ [byteswap T x] =
              [s.anchor, s.last_index, byteswap T x] := rfl
          rw [e, pending_fan_emit]
          refine ⟨?_, ?_⟩
          · simp only [List.length_append, List.length_cons, List.length_nil]
            omega
          · simp only [List.enumFrom_append, List.enumFrom_cons, List.enumFrom_nil,
              List.length_cons, List.length_nil, List.append_assoc, List.cons_append,
              List.nil_append, List.singleton_append]

theorem fan_eq (T : index_array_type) (src : List Nat) (dst_size : Nat) (en : Bool) (ri : Nat)
    (hn : 2 ≤ src.length) (hcap : 3 * (src.length - 2) ≤ dst_size)
    (hnl : ∀ x ∈ src, (en && byteswap T x == ri) = false → byteswap T x ≠ index_limit T) :
    ∃ r, expand_indexed_triangle_fan T src dst_size en ri = some r ∧
      r.count = ((marker_free_runs (fun v => en && v == ri)
        (src.map (byteswap T))).flatMap fan_of_run).length ∧
      r.stores = ((marker_free_runs (fun v => en && v == ri)
        (src.map (byteswap T))).flatMap fan_of_run).enumFrom 0 := by
  obtain ⟨r, hr, _⟩ := fan_bound T src dst_size en ri hn hcap
  refine ⟨r, hr, ?_⟩
  unfold expand_indexed_triangle_fan at hr
  split at hr
  · obtain ⟨hd, hs⟩ := fan_run T en ri src
      { min_index := index_limit T, max_index := 0, dst_idx := 0, needs_anchor := true
        anchor := index_limit T, last_index := index_limit T, stores := [] }
      (fun _ => rfl) hnl
    have e : fan_pending T
        { min_index := index_limit T, max_index := 0, dst_idx := 0, needs_anchor := true
          anchor := index_limit T, last_index := index_limit T, stores := [] } = [] := rfl
    rw [e, pending_fan_nil_eq] at hd hs
    simp only [Nat.zero_add, List.nil_append] at hd hs
    simp only [Option.some.injEq] at hr
    rw [← hr]
    exact ⟨hd, hs⟩
  · exact absurd hr (by simp)

theorem fan_triangles_range (a : Nat) (xs : List Nat) :
    ∀ l : Nat, fan_triangles a l xs =
      (List.range xs.length).flatMap (fun k => [a, (l :: xs).getD k 0, xs.getD k 0]) := by
  induction xs with
  | nil => intro l; rfl
  | cons x xs ih =>
    intro l
    rw [List.length_cons, List.range_succ_eq_map, List.flatMap_cons, List.flatMap_map]
    simp only [fan_triangles, List.getD_cons_zero, List.getD_cons_succ, List.cons_append,
      List.nil_append]
    rw [ih x]

theorem fan_of_run_eq (r : List Nat) : fan_of_run r = run_fan r := by
  match r with
  | [] => rfl
  | [_] => rfl
  | a :: l :: xs =>
    unfold run_fan
    have e : xs.length + 1 + 1 - 2 = xs.length := by omega
    simp only [fan_of_run, fan_triangles_range, List.length_cons, e,
      List.getD_cons_zero, List.getD_cons_succ]

theorem fan_of_run_length (r : List Nat) : (fan_of_run r).length = 3 * (r.length - 2) := by
  match r with
  | [] => rfl
  | [_] => rfl
  | a :: l :: xs =>
    have e : xs.length + 1 + 1 - 2 = xs.length := by omega
    simp only [fan_of_run, fan_triangles_length, List.length_cons, e]

theorem flatMap_fan_of_run_length (runs : List (List Nat)) :
    (runs.flatMap fan_of_run).length = (runs.map (fun r => 3 * (r.length - 2))).sum := by
  induction runs with
  | nil => rfl
  | cons r runs ih =>
    rw [List.flatMap_cons, List.length_append, ih, fan_of_run_length, List.map_cons,
      List.sum_cons]

theorem flatMap_fan_of_run_eq (runs : List (List Nat)) :
    runs.flatMap fan_of_run = runs.flatMap run_fan := by
  induction runs with
  | nil => rfl
  | cons r runs ih => rw [List.flatMap_cons, List.flatMap_cons, ih, fan_of_run_eq]

/-- C19: with primitive restart enabled, for a stream of at least two indices whose
non-marker indices all differ from the all-bits-set value (and a destination that passes
the capacity check), `expand_indexed_triangle_fan` stores, at the consecutive positions
`0, 1, ...`, the concatenation over the maximal marker-free runs `r` of the source, in
order, of the triangles `(r[0], r[k+1], r[k+2])` for `k < |r| - 2`; a run of fewer than
three indices contributes nothing, and `emitted` is the sum over the runs of
`3 * max(|r| - 2, 0)`. -/
theorem expand_indexed_triangle_fan_restart_enabled (T : index_array_type) (src : List Nat)
    (dst_size : Nat) (primitive_restart_index : Nat)
    (hn : 2 ≤ src.length) (hcap : 3 * (src.length - 2) ≤ dst_size)
    (hnl : ∀ x ∈ src, byteswap T x ≠ primitive_restart_index →
      byteswap T x ≠ index_limit T) :
    ∃ r, expand_indexed_triangle_fan T src dst_size true primitive_restart_index = some r ∧
      r.stores = ((marker_free_runs (fun v => v == primitive_restart_index)
        (src.map (byteswap T))).flatMap run_fan).enum ∧
      r.count = ((marker_free_runs (fun v => v == primitive_restart_index)
        (src.map (byteswap T))).map (fun run => 3 * (run.length - 2))).sum ∧
      (∀ (dst : Nat → Nat) (j : Nat), j < r.count →
        written_back r.stores dst j = ((marker_free_runs
          (fun v => v == primitive_restart_index)
          (src.map (byteswap T))).flatMap run_fan).getD j 0) ∧
      (∀ run : List Nat, run.length < 3 → run_fan run = []) := by
  obtain ⟨r, hr, hc, hs⟩ := fan_eq T src dst_size true primitive_restart_index hn hcap
    (fun x hx hm => hnl x hx (by simpa using hm))
  simp only [Bool.true_and] at hc hs
  have hlen := hc
  rw [flatMap_fan_of_run_length] at hc
  rw [flatMap_fan_of_run_eq] at hs hlen
  refine ⟨r, hr, hs, hc, ?_, ?_⟩
  · intro dst j hj
    rw [hs, written_back_enumFrom, if_pos (by omega), Nat.sub_zero]
  · intro run hrun
    unfold run_fan
    have e : run.length - 2 = 0 := by omega
    rw [e]
    rfl

/-- Instance of C19: the stream `1, 2, 3, 4, R, 5, 6, 7, R, 8, 9` with `R = 65535` gives the
fans `(1,2,3), (1,3,4)` and `(5,6,7)`; the last run of two indices gives none. -/
theorem expand_indexed_triangle_fan_restart_enabled_witness :
    expand_indexed_triangle_fan .u16
        [256, 512, 768, 1024, 65535, 1280, 1536, 1792, 65535, 2048, 2304] 27 true 65535 =
      some ⟨1, 9, 9, [(0, 1), (1, 2), (2, 3), (3, 1), (4, 3), (5, 4), (6, 5), (7, 6),
        (8, 7)]⟩ ∧
    ∃ r, expand_indexed_triangle_fan .u16
        [256, 512, 768, 1024, 65535, 1280, 1536, 1792, 65535, 2048, 2304] 27 true 65535 =
        some r ∧
      r.stores = ((marker_free_runs (fun v => v == 65535)
        ([256, 512, 768, 1024, 65535, 1280, 1536, 1792, 65535, 2048, 2304].map
          (byteswap .u16))).flatMap run_fan).enum := by
  refine ⟨by decide, ?_⟩
  obtain ⟨r, hr, hs, _⟩ := expand_indexed_triangle_fan_restart_enabled .u16
    [256, 512, 768, 1024, 65535, 1280, 1536, 1792, 65535, 2048, 2304] 27 65535
    (by decide) (by decide) (by decide)
  exact ⟨r, hr, hs⟩

/-! ## The accelerated upload against the scalar loop -/

/-- C21 (as amended): in the joined form (`skip_restart = false`) and for a stream of at
least 32 elements, on a destination address that is a multiple of the alignment of the
selected vector kernel (16 bytes for SSE4.1, 32 for AVX2, 64 for AVX-512),
`primitive_restart_impl::upload_untouched` gives the same stores, `min`, `max` and
emitted count as the scalar loop run alone over the whole stream, under every setting of
the CPU flags; on a destination address that is no such multiple the first aligned store
of the kernel faults and nothing is returned.  The same holds of each chunked vector path
by itself: the 16-bit kernels of eight lanes (SSE4.1) and sixteen lanes (AVX2) and the
32-bit kernel of four lanes over the leading whole chunks, then the scalar loop over the
remaining elements, each being the path the function takes under the matching flags. -/
theorem accelerated_upload_refines_scalar (cpu : cpu_flags) (T : index_array_type)
    (src : List Nat) (dst_addr restart_index : Nat) (h32 : 32 ≤ src.length) :
    (dst_addr % store_alignment cpu T = 0 →
      primitive_restart_impl.upload_untouched cpu T src dst_addr restart_index false =
        some (primitive_restart_impl.scalar_loop T src restart_index false
          { min_index := index_limit T, max_index := 0, count := 0, stores := [] })) ∧
    (dst_addr % store_alignment cpu T ≠ 0 →
      primitive_restart_impl.upload_untouched cpu T src dst_addr restart_index false =
        none) ∧
    (primitive_restart_impl.upload_untouched ⟨false, false, true⟩ .u16 src dst_addr restart_index
          false =
        (primitive_restart_impl.upload_u16_swapped_sse4_1 src dst_addr (src.length >>> 3)
          restart_index).map
          (fun k => primitive_restart_impl.scalar_loop .u16 src restart_index false
            { min_index := k.1, max_index := k.2.1, count := src.length / 8 * 8,
              stores := k.2.2 }) ∧
      (dst_addr % 16 = 0 →
        (primitive_restart_impl.upload_u16_swapped_sse4_1 src dst_addr (src.length >>> 3)
          restart_index).map
          (fun k => primitive_restart_impl.scalar_loop .u16 src restart_index false
            { min_index := k.1, max_index := k.2.1, count := src.length / 8 * 8,
              stores := k.2.2 }) =
          some (primitive_restart_impl.scalar_loop .u16 src restart_index false
            { min_index := index_limit .u16, max_index := 0, count := 0, stores := [] })) ∧
      (dst_addr % 16 ≠ 0 →
        primitive_restart_impl.upload_u16_swapped_sse4_1 src dst_addr (src.length >>> 3)
          restart_index = none)) ∧
    (primitive_restart_impl.upload_untouched ⟨false, true, false⟩ .u16 src dst_addr restart_index
          false =
        (primitive_restart_impl.upload_u16_swapped_avx2 src dst_addr (src.length >>> 4)
          restart_index).map
          (fun k => primitive_restart_impl.scalar_loop .u16 src restart_index false
            { min_index := k.1, max_index := k.2.1, count := src.length / 16 * 16,
              stores := k.2.2 }) ∧
      (dst_addr % 32 = 0 →
        (primitive_restart_impl.upload_u16_swapped_avx2 src dst_addr (src.length >>> 4)
          restart_index).map
          (fun k => primitive_restart_impl.scalar_loop .u16 src restart_index false
            { min_index := k.1, max_index := k.2.1, count := src.length / 16 * 16,
              stores := k.2.2 }) =
          some (primitive_restart_impl.scalar_loop .u16 src restart_index false
            { min_index := index_limit .u16, max_index := 0, count := 0, stores := [] })) ∧
      (dst_addr % 32 ≠ 0 →
        primitive_restart_impl.upload_u16_swapped_avx2 src dst_addr (src.length >>> 4)
          restart_index = none)) ∧
    (primitive_restart_impl.upload_untouched ⟨false, false, true⟩ .u32 src dst_addr restart_index
          false =
        (primitive_restart_impl.upload_u32_swapped_sse4_1 src dst_addr (src.length >>> 2)
          restart_index).map
          (fun k => primitive_restart_impl.scalar_loop .u32 src restart_index false
            { min_index := k.1, max_index := k.2.1, count := src.length / 4 * 4,
              stores := k.2.2 }) ∧
      (dst_addr % 16 = 0 →
        (primitive_restart_impl.upload_u32_swapped_sse4_1 src dst_addr (src.length >>> 2)
          restart_index).map
          (fun k => primitive_restart_impl.scalar_loop .u32 src restart_index false
            { min_index := k.1, max_index := k.2.1, count := src.length / 4 * 4,
              stores := k.2.2 }) =
          some (primitive_restart_impl.scalar_loop .u32 src restart_index false
            { min_index := index_limit .u32, max_index := 0, count := 0, stores := [] })) ∧
      (dst_addr % 16 ≠ 0 →
        primitive_restart_impl.upload_u32_swapped_sse4_1 src dst_addr (src.length >>> 2)
          restart_index = none)) := by
  have hd : decide (src.length ≥ 32) = true := by simpa using h32
  refine ⟨?_, ?_, ⟨?_, ?_, ?_⟩, ⟨?_, ?_, ?_⟩, ⟨?_, ?_, ?_⟩⟩
  · intro ha
    rw [restart_upload_eq, if_neg, scalar_loop_eq T src restart_index false _ (Nat.zero_le _)]
    · rfl
    · rw [vector_store_faults_ok cpu T _ _ _ (Or.inr (Or.inr ha))]
      exact Bool.noConfusion
  · intro ha
    rw [restart_upload_eq, if_pos (vector_store_faults_bad cpu T _ _ h32 ha)]
  · unfold primitive_restart_impl.upload_untouched
    simp [hd]
  · intro ha
    have e : src.length >>> 3 = src.length / 8 := Nat.shiftRight_eq_div_pow _ 3
    rw [e, chunk_path .u16 src restart_index 8 _
        (sse4_1_u16_closed src dst_addr restart_index (src.length / 8) (Nat.mul_div_le _ _) ha),
      scalar_loop_eq .u16 src restart_index false _ (Nat.zero_le _)]
    rfl
  · intro ha
    have e : src.length >>> 3 = src.length / 8 := Nat.shiftRight_eq_div_pow _ 3
    rw [e]
    exact sse4_1_u16_fault src dst_addr restart_index _
      (Nat.div_pos (le_trans (by decide) h32) (by decide)) ha
  · unfold primitive_restart_impl.upload_untouched
    simp [hd]
  · intro ha
    have e : src.length >>> 4 = src.length / 16 := Nat.shiftRight_eq_div_pow _ 4
    rw [e, chunk_path .u16 src restart_index 16 _
        (avx2_u16_closed src dst_addr restart_index (src.length / 16) (Nat.mul_div_le _ _) ha),
      scalar_loop_eq .u16 src restart_index false _ (Nat.zero_le _)]
    rfl
  · intro ha
    have e : src.length >>> 4 = src.length / 16 := Nat.shiftRight_eq_div_pow _ 4
    rw [e]
    exact avx2_u16_fault src dst_addr restart_index _
      (Nat.div_pos (le_trans (by decide) h32) (by decide)) ha
  · unfold primitive_restart_impl.upload_untouched
    simp [hd]
  · intro ha
    have e : src.length >>> 2 = src.length / 4 := Nat.shiftRight_eq_div_pow _ 2
    rw [e, chunk_path .u32 src restart_index 4 _
        (sse4_1_u32_closed src dst_addr restart_index (src.length / 4) (Nat.mul_div_le _ _) ha),
      scalar_loop_eq .u32 src restart_index false _ (Nat.zero_le _)]
    rfl
  · intro ha
    have e : src.length >>> 2 = src.length / 4 := Nat.shiftRight_eq_div_pow _ 2
    rw [e]
    exact sse4_1_u32_fault src dst_addr restart_index _
      (Nat.div_pos (le_trans (by decide) h32) (by decide)) ha

/-- Instance of C21: 35 sixteen-bit elements `1, 2, ..., 35` with the restart index 3 on
the destination address 64, so that four whole chunks of eight go through the SSE4.1
kernel and three elements through the scalar loop; the result is that of the scalar loop
alone. -/
theorem accelerated_upload_refines_scalar_witness :
    32 ≤ ((List.range 35).map (fun i => bswap16 (i + 1))).length ∧
    primitive_restart_impl.upload_untouched ⟨false, false, true⟩ .u16
        ((List.range 35).map (fun i => bswap16 (i + 1))) 64 3 false =
      some (primitive_restart_impl.scalar_loop .u16
        ((List.range 35).map (fun i => bswap16 (i + 1))) 3 false
        { min_index := index_limit .u16, max_index := 0, count := 0, stores := [] }) ∧
    (primitive_restart_impl.upload_untouched ⟨false, false, true⟩ .u16
        ((List.range 35).map (fun i => bswap16 (i + 1))) 64 3 false).map
      (fun r => (r.min_index, r.max_index, r.count)) = some (1, 35, 35) :=
  ⟨by decide,
    (accelerated_upload_refines_scalar ⟨false, false, true⟩ .u16
      ((List.range 35).map (fun i => bswap16 (i + 1))) 64 3 (by decide)).1 (by decide),
    by decide⟩

/-- C21 fails as stated on a destination that is not aligned for the vector kernel: for 32
sixteen-bit elements at the destination address 2 the SSE4.1 path faults at its first
`_mm_store_si128`, while the scalar loop alone stores all 32 elements. -/
theorem accelerated_upload_counterexample :
    primitive_restart_impl.upload_untouched ⟨false, false, true⟩ .u16
        (List.replicate 32 256) 2 65535 false = none ∧
    primitive_restart_impl.upload_u16_swapped_sse4_1 (List.replicate 32 256) 2 4 65535
      = none ∧
    (primitive_restart_impl.scalar_loop .u16 (List.replicate 32 256) 65535 false
      { min_index := index_limit .u16, max_index := 0, count := 0, stores := [] }).count
      = 32 := by
  decide

/-! ## A restart index that never fires -/

theorem naive_upload_eq (T : index_array_type) (src : List Nat) :
    untouched_impl.upload_untouched_naive T src src.length =
      (((src.map (byteswap T)).foldl max 0 <<< 32) |||
          (src.map (byteswap T)).foldl min (index_limit T),
        (src.map (byteswap T)).enumFrom 0) := by
  have hloop := naive_loop_eq T src src.length 0 0 (index_limit T) [] (by omega)
  simp only [List.drop_zero, List.take_length, Nat.zero_add, List.nil_append] at hloop
  simp only [untouched_impl.upload_untouched_naive, hloop]

/-- C25 (as amended): when no byte-swapped element of the stream equals `restart_index`,
the restart-aware upload `primitive_restart_impl::upload_untouched` in the disjointed
mode, and in the joined mode for fewer than 32 elements or on a destination address that
is a multiple of the alignment of the selected vector kernel, makes the same stores as
the scalar upload `upload_untouched_naive` on that stream, its `min` and `max` are the
two halves of the packed value the scalar upload returns, and `emitted` is the stream
length; it is the result of the restart-disabled upload.  On the empty stream this is
`min = all-bits-set`, `max = 0`, `emitted = 0`, nothing stored.  In the joined mode with
32 or more elements on a destination address that is no such multiple, the aligned store
of the kernel faults and nothing is returned. -/
theorem restart_never_fires (cpu : cpu_flags) (T : index_array_type) (src : List Nat)
    (dst_addr restart_index : Nat) (skip_restart : Bool)
    (h : ∀ x ∈ src, byteswap T x ≠ restart_index) :
    ((skip_restart = true ∨ src.length < 32 ∨ dst_addr % store_alignment cpu T = 0) →
      ∃ r, primitive_restart_impl.upload_untouched cpu T src dst_addr restart_index
          skip_restart = some r ∧
        untouched_impl.upload_untouched_naive T src src.length =
          ((r.max_index <<< 32) ||| r.min_index, r.stores) ∧
        r.count = src.length ∧
        r = untouched_impl.upload_untouched T src ∧
        (∀ dst : Nat → Nat,
          written_back r.stores dst =
            written_back (untouched_impl.upload_untouched_naive T src src.length).2 dst) ∧
        (src = [] →
          r = { min_index := index_limit T, max_index := 0, count := 0, stores := [] } ∧
          untouched_impl.upload_untouched_naive T src src.length =
            ((0 <<< 32) ||| index_limit T, []))) ∧
    (skip_restart = false → 32 ≤ src.length → dst_addr % store_alignment cpu T ≠ 0 →
      primitive_restart_impl.upload_untouched cpu T src dst_addr restart_index
        skip_restart = none) := by
  refine ⟨?_, ?_⟩
  · intro hok
    have hr : primitive_restart_impl.upload_untouched cpu T src dst_addr restart_index
        skip_restart =
        some { min_index := (src.map (byteswap T)).foldl min (index_limit T)
               max_index := (src.map (byteswap T)).foldl max 0
               count := src.length
               stores := (src.map (byteswap T)).enumFrom 0 } := by
      rw [restart_upload_eq, if_neg, restart_fold_no_marker]
      · simp
      · intro v hv
        obtain ⟨x, hx, rfl⟩ := List.mem_map.mp hv
        exact h x hx
      · rw [vector_store_faults_ok cpu T _ _ _ hok]
        exact Bool.noConfusion
    refine ⟨_, hr, ?_⟩
    rw [naive_upload_eq, untouched_upload_eq]
    refine ⟨rfl, rfl, rfl, fun _ => rfl, ?_⟩
    intro he
    subst he
    exact ⟨rfl, rfl⟩
  · intro hs h32 ha
    subst hs
    rw [restart_upload_eq, if_pos (vector_store_faults_bad cpu T _ _ h32 ha)]

/-- Instance of C25: the 16-bit stream `5, 2, 7` with restart index `0xffff`, which no
element equals. -/
theorem restart_never_fires_witness :
    (∀ x ∈ [1280, 512, 1792], byteswap .u16 x ≠ 65535) ∧
    primitive_restart_impl.upload_untouched ⟨false, false, true⟩ .u16 [1280, 512, 1792] 6
        65535 true = some ⟨2, 7, 3, [(0, 5), (1, 2), (2, 7)]⟩ ∧
    ∃ r, primitive_restart_impl.upload_untouched ⟨false, false, true⟩ .u16
        [1280, 512, 1792] 6 65535 false = some r ∧
      r = untouched_impl.upload_untouched .u16 [1280, 512, 1792] := by
  refine ⟨by decide, by decide, ?_⟩
  obtain ⟨r, hr, _, _, he, _⟩ := (restart_never_fires ⟨false, false, true⟩ .u16
    [1280, 512, 1792] 6 65535 false (by decide)).1 (Or.inr (Or.inl (by decide)))
  exact ⟨r, hr, he⟩

/-- C25 fails as stated on a destination that is not aligned for the vector kernel: 32
sixteen-bit elements none of which equals the restart index, joined mode, SSE4.1 selected,
destination address 2.  The restart-aware upload faults at its first `_mm_store_si128`,
while the scalar upload stores all 32 elements. -/
theorem restart_never_fires_counterexample :
    (∀ x ∈ List.replicate 32 256, byteswap .u16 x ≠ 65535) ∧
    primitive_restart_impl.upload_untouched ⟨false, false, true⟩ .u16
        (List.replicate 32 256) 2 65535 false = none ∧
    (untouched_impl.upload_untouched_naive .u16 (List.replicate 32 256) 32).2.length
      = 32 := by
  decide

/-! ## Writes stay in bounds -/

/-- C24: once its capacity check passes, an expander writes only below `dst.size()`.  For
`expand_indexed_triangle_fan` on a stream of `n >= 2` indices with
`dst.size() >= 3 * (n - 2)`: it returns, `emitted <= 3 * (n - 2)` and every store index is
below `emitted`, hence below `dst.size()`.  For `expand_indexed_quads` with
`4 * dst.size_bytes() >= 6 * src.size_bytes()`: it returns, `emitted` is six times the
number of complete groups, `emitted <= dst.size()` and every store index is below
`emitted`.  Before each source element is read the group buffer of the quad loop has
four slots and its fill count `set_size`, the slot written next, is below four. -/
theorem expander_writes_in_bounds (T : index_array_type) (src : List Nat) (dst_size : Nat)
    (is_primitive_restart_enabled : Bool) (primitive_restart_index : Nat) :
    (2 ≤ src.length → dst_size ≥ 3 * (src.length - 2) →
      ∃ r, expand_indexed_triangle_fan T src dst_size is_primitive_restart_enabled
          primitive_restart_index = some r ∧
        r.count ≤ 3 * (src.length - 2) ∧ r.count ≤ dst_size ∧
        ∀ p ∈ r.stores, p.1 < r.count ∧ p.1 < dst_size) ∧
    (4 * (dst_size * get_index_type_size T) ≥ 6 * (src.length * get_index_type_size T) →
      ∃ r, expand_indexed_quads T src dst_size is_primitive_restart_enabled
          primitive_restart_index = some r ∧
        r.count = 6 * (complete_groups
          (fun v => is_primitive_restart_enabled && v == primitive_restart_index)
          (src.map (byteswap T))).length ∧
        r.count ≤ dst_size ∧
        ∀ p ∈ r.stores, p.1 < r.count ∧ p.1 < dst_size) ∧
    (∀ k : Nat,
      ((src.take k).foldl
        (expand_indexed_quads_step T is_primitive_restart_enabled primitive_restart_index)
        { min_index := index_limit T, max_index := 0, dst_idx := 0, set_size := 0
          tmp_indices := [0, 0, 0, 0], stores := [] }).set_size < 4 ∧
      ((src.take k).foldl
        (expand_indexed_quads_step T is_primitive_restart_enabled primitive_restart_index)
        { min_index := index_limit T, max_index := 0, dst_idx := 0, set_size := 0
          tmp_indices := [0, 0, 0, 0], stores := [] }).tmp_indices.length = 4) := by
  refine ⟨?_, ?_, ?_⟩
  · intro hn hcap
    obtain ⟨r, hr, hc, hs⟩ := fan_bound T src dst_size is_primitive_restart_enabled
      primitive_restart_index hn hcap
    refine ⟨r, hr, hc, by omega, ?_⟩
    intro p hp
    have := hs p hp
    exact ⟨this, by omega⟩
  · intro hbytes
    have hp := get_index_type_size_pos T
    have e1 : 4 * (dst_size * get_index_type_size T) =
        (4 * dst_size) * get_index_type_size T := by ring
    have e2 : 6 * (src.length * get_index_type_size T) =
        (6 * src.length) * get_index_type_size T := by ring
    rw [e1, e2] at hbytes
    have hcap : 6 * src.length ≤ 4 * dst_size := Nat.le_of_mul_le_mul_right hbytes hp
    obtain ⟨r, hr, _, hd, hs⟩ := quads_bound T src dst_size is_primitive_restart_enabled
      primitive_restart_index hcap
    obtain ⟨r2, hr2, hc2, _⟩ := quads_eq T src dst_size is_primitive_restart_enabled
      primitive_restart_index hcap
    have e : r2 = r := by
      rw [hr] at hr2
      exact (Option.some.inj hr2).symm
    rw [e] at hc2
    refine ⟨r, hr, hc2, hd, ?_⟩
    intro p hp
    have := hs p hp
    exact ⟨this, by omega⟩
  · intro k
    have hinv := foldl_inv quads_range_inv
      (expand_indexed_quads_step T is_primitive_restart_enabled primitive_restart_index)
      (fun s x hs => quads_range_step T is_primitive_restart_enabled primitive_restart_index
        s x hs) (src.take k)
      { min_index := index_limit T, max_index := 0, dst_idx := 0, set_size := 0
        tmp_indices := [0, 0, 0, 0], stores := [] }
      ⟨rfl, Nat.zero_lt_succ 3, by simp, by simp⟩
    exact ⟨hinv.2.1, hinv.1⟩

/-! ## Restart markers are never emitted -/

theorem foldl_inv_mem {σ α : Type} (P : σ → Prop) (f : σ → α → σ) (l : List α)
    (hstep : ∀ s x, x ∈ l → P s → P (f s x)) : ∀ s : σ, P s → P (l.foldl f s) := by
  have gen : ∀ l2 : List α, (∀ x ∈ l2, x ∈ l) → ∀ s : σ, P s → P (l2.foldl f s) := by
    intro l2
    induction l2 with
    | nil => intro _ s h; exact h
    | cons x l2 ih =>
      intro hsub s h
      exact ih (fun y hy => hsub y (List.mem_cons_of_mem _ hy)) _
        (hstep s x (hsub x (List.mem_cons_self _ _)) h)
  exact gen l (fun _ hx => hx)

theorem fan_store_step (Q : Nat → Prop) (T : index_array_type) (en : Bool) (ri : Nat)
    (s : fan_state) (x : Nat)
    (hq : (en && byteswap T x == ri) = false → Q (byteswap T x))
    (h : fan_store_inv Q T s) :
    fan_store_inv Q T (expand_indexed_triangle_fan_step T en ri s x) := by
  obtain ⟨h1, h2, h3, h4⟩ := h
  unfold expand_indexed_triangle_fan_step
  simp only []
  by_cases hna : s.needs_anchor = true
  · by_cases hm : (en && byteswap T x == ri) = true
    · simp only [hna, hm, if_true]
      exact ⟨h1, h2, h3, h4⟩
    · have hm' : (en && byteswap T x == ri) = false := by simpa using hm
      simp only [hna, hm, if_true, Bool.false_eq_true, if_false]
      exact ⟨h1, fun _ => hq hm', h3, h4⟩
  · have hna' : s.needs_anchor = false := by simpa using hna
    have ha := h2 hna'
    by_cases hm : (en && byteswap T x == ri) = true
    · simp only [hna', hm, Bool.false_eq_true, if_false, if_true]
      refine ⟨h1, ?_, ?_, h4⟩
      · intro hf
        exact absurd hf (by simp)
      · intro hl
        exact absurd rfl hl
    · have hm' : (en && byteswap T x == ri) = false := by simpa using hm
      by_cases hl : s.last_index = index_limit T
      · simp only [hna', hm, hl, Bool.false_eq_true, if_false, if_true]
        exact ⟨h1, fun _ => ha, fun _ => hq hm', h4⟩
      · have hlq := h3 hl
        simp only [hna', hm, hl, Bool.false_eq_true, if_false]
        refine ⟨?_, fun _ => ha, fun _ => hq hm', ?_⟩
        · intro p hp
          simp only [List.mem_append, List.mem_cons, List.mem_singleton, List.not_mem_nil,
            or_false] at hp
          rcases hp with hp | hp | hp | hp
          · exact h1 p hp
          · rw [hp]; exact ha
          · rw [hp]; exact hlq
          · rw [hp]; exact hq hm'
        · exact (Nat.dvd_add_right h4).mpr (dvd_refl 3)

theorem quads_store_step (Q : Nat → Prop) (T : index_array_type) (en : Bool) (ri : Nat)
    (s : quads_state) (x : Nat)
    (hq : (en && byteswap T x == ri) = false → Q (byteswap T x))
    (h : quads_store_inv Q s) :
    quads_store_inv Q (expand_indexed_quads_step T en ri s x) := by
  obtain ⟨h1, h2, h3, h4, h5⟩ := h
  unfold expand_indexed_quads_step
  simp only []
  by_cases hm : (en && byteswap T x == ri) = true
  · simp only [hm, if_true]
    refine ⟨h1, Nat.zero_lt_succ 3, h3, ?_, h5⟩
    intro j hj
    exact absurd hj (Nat.not_lt_zero j)
  · have hm' : (en && byteswap T x == ri) = false := by simpa using hm
    simp only [hm, Bool.false_eq_true, if_false]
    have hset : ∀ j, j < s.set_size + 1 →
        Q ((s.tmp_indices.set s.set_size (byteswap T x)).getD j 0) := by
      intro j hj
      rw [getD_set_zero _ _ _ _ (by omega)]
      by_cases e : j = s.set_size
      · rw [if_pos e]; exact hq hm'
      · rw [if_neg e]
        exact h4 j (by omega)
    by_cases h4' : s.set_size + 1 = 4
    · simp only [h4', if_true]
      rw [h4'] at hset
      refine ⟨by dsimp only; rw [List.length_set]; exact h1, Nat.zero_lt_succ 3, ?_, ?_, ?_⟩
      · intro p hp
        simp only [List.mem_append, List.mem_cons, List.mem_singleton, List.not_mem_nil,
          or_false] at hp
        rcases hp with hp | hp | hp | hp | hp | hp | hp
        · exact h3 p hp
        · rw [hp]; exact hset 0 (by omega)
        · rw [hp]; exact hset 1 (by omega)
        · rw [hp]; exact hset 2 (by omega)
        · rw [hp]; exact hset 2 (by omega)
        · rw [hp]; exact hset 3 (by omega)
        · rw [hp]; exact hset 0 (by omega)
      · intro j hj
        exact absurd hj (Nat.not_lt_zero j)
      · exact (Nat.dvd_add_right h5).mpr (dvd_refl 6)
    · simp only [h4', if_false]
      refine ⟨by dsimp only; rw [List.length_set]; exact h1, by dsimp only; omega, h3, ?_, h5⟩
      intro j hj
      exact hset j hj

theorem kept_of_mem (T : index_array_type) (en : Bool) (ri : Nat) (src : List Nat) (x : Nat)
    (hx : x ∈ src) (hm : (en && byteswap T x == ri) = false) :
    byteswap T x ∈ (src.map (byteswap T)).filter (fun v => !(en && v == ri)) := by
  rw [List.mem_filter]
  exact ⟨List.mem_map_of_mem _ hx, by simp [hm]⟩

theorem fan_result_stores (T : index_array_type) (src : List Nat) (dst_size : Nat) (en : Bool)
    (ri : Nat) (r : upload_result)
    (h : expand_indexed_triangle_fan T src dst_size en ri = some r) :
    (∀ p ∈ r.stores,
      p.2 ∈ (src.map (byteswap T)).filter (fun v => !(en && v == ri))) ∧ 3 ∣ r.count := by
  unfold expand_indexed_triangle_fan at h
  split at h
  · have hinv := foldl_inv_mem
      (fan_store_inv (fun v => v ∈ (src.map (byteswap T)).filter (fun v => !(en && v == ri))) T)
      (expand_indexed_triangle_fan_step T en ri) src
      (fun s x hx hs => fan_store_step _ T en ri s x (kept_of_mem T en ri src x hx) hs)
      { min_index := index_limit T, max_index := 0, dst_idx := 0, needs_anchor := true
        anchor := index_limit T, last_index := index_limit T, stores := [] }
      ⟨by simp, by simp, by simp, dvd_zero 3⟩
    simp only [Option.some.injEq] at h
    rw [← h]
    exact ⟨hinv.1, hinv.2.2.2⟩
  · exact absurd h (by simp)

theorem quads_result_stores (T : index_array_type) (src : List Nat) (dst_size : Nat)
    (en : Bool) (ri : Nat) (r : upload_result)
    (h : expand_indexed_quads T src dst_size en ri = some r) :
    (∀ p ∈ r.stores,
      p.2 ∈ (src.map (byteswap T)).filter (fun v => !(en && v == ri))) ∧ 6 ∣ r.count := by
  unfold expand_indexed_quads at h
  split at h
  · have hinv := foldl_inv_mem
      (quads_store_inv (fun v => v ∈ (src.map (byteswap T)).filter (fun v => !(en && v == ri))))
      (expand_indexed_quads_step T en ri) src
      (fun s x hx hs => quads_store_step _ T en ri s x (kept_of_mem T en ri src x hx) hs)
      { min_index := index_limit T, max_index := 0, dst_idx := 0, set_size := 0
        tmp_indices := [0, 0, 0, 0], stores := [] }
      ⟨rfl, Nat.zero_lt_succ 3, by simp, by simp, dvd_zero 6⟩
    simp only [Option.some.injEq] at h
    rw [← h]
    exact ⟨hinv.2.2.1, hinv.2.2.2.2⟩
  · exact absurd h (by simp)

theorem kept_enabled (T : index_array_type) (ri : Nat) (src : List Nat) (v : Nat)
    (h : v ∈ (src.map (byteswap T)).filter (fun v => !(true && v == ri))) :
    v ≠ ri ∧ v ∈ src.map (byteswap T) := by
  rw [List.mem_filter] at h
  refine ⟨?_, h.1⟩
  have := h.2
  simpa using this

/-- C23: with primitive restart enabled, whenever `expand_indexed_triangle_fan` or
`expand_indexed_quads` returns, every element it wrote is the value of a source index
that is not a restart marker (so none equals `restart_index`), the returned `min` is the
initial all-bits-set value or the value of a non-marker source index, the returned `max`
is the initial zero or the value of a non-marker source index, and `emitted` is a
multiple of three (fan) or of six (quads).  Both expanders return when their capacity
check holds. -/
theorem expanders_exclude_markers (T : index_array_type) (src : List Nat) (dst_size : Nat)
    (primitive_restart_index : Nat) :
    (∀ r, (expand_indexed_triangle_fan T src dst_size true primitive_restart_index = some r ∨
        expand_indexed_quads T src dst_size true primitive_restart_index = some r) →
      (∀ p ∈ r.stores, p.2 ≠ primitive_restart_index ∧ p.2 ∈ src.map (byteswap T)) ∧
      (r.min_index = index_limit T ∨
        (r.min_index ≠ primitive_restart_index ∧ r.min_index ∈ src.map (byteswap T))) ∧
      (r.max_index = 0 ∨
        (r.max_index ≠ primitive_restart_index ∧ r.max_index ∈ src.map (byteswap T)))) ∧
    (∀ r, expand_indexed_triangle_fan T src dst_size true primitive_restart_index = some r →
      3 ∣ r.count) ∧
    (∀ r, expand_indexed_quads T src dst_size true primitive_restart_index = some r →
      6 ∣ r.count) ∧
    (2 ≤ src.length → 3 * (src.length - 2) ≤ dst_size →
      expand_indexed_triangle_fan T src dst_size true primitive_restart_index ≠ none) ∧
    (6 * src.length ≤ 4 * dst_size →
      expand_indexed_quads T src dst_size true primitive_restart_index ≠ none) := by
  have key : ∀ r : upload_result,
      (∀ p ∈ r.stores, p.2 ∈ (src.map (byteswap T)).filter
        (fun v => !(true && v == primitive_restart_index))) →
      r.min_index = ((src.map (byteswap T)).filter
        (fun v => !(true && v == primitive_restart_index))).foldl min (index_limit T) →
      r.max_index = ((src.map (byteswap T)).filter
        (fun v => !(true && v == primitive_restart_index))).foldl max 0 →
      (∀ p ∈ r.stores, p.2 ≠ primitive_restart_index ∧ p.2 ∈ src.map (byteswap T)) ∧
      (r.min_index = index_limit T ∨
        (r.min_index ≠ primitive_restart_index ∧ r.min_index ∈ src.map (byteswap T))) ∧
      (r.max_index = 0 ∨
        (r.max_index ≠ primitive_restart_index ∧ r.max_index ∈ src.map (byteswap T))) := by
    intro r hs hmin hmax
    refine ⟨fun p hp => kept_enabled T _ src _ (hs p hp), ?_, ?_⟩
    · rcases foldl_min_eq_or_mem ((src.map (byteswap T)).filter
        (fun v => !(true && v == primitive_restart_index))) (index_limit T) with h | h
      · left; rw [hmin]; exact h
      · right; rw [hmin]; exact kept_enabled T _ src _ h
    · rcases foldl_max_eq_or_mem ((src.map (byteswap T)).filter
        (fun v => !(true && v == primitive_restart_index))) 0 with h | h
      · left; rw [hmax]; exact h
      · right; rw [hmax]; exact kept_enabled T _ src _ h
  refine ⟨?_, ?_, ?_, ?_, ?_⟩
  · intro r h
    rcases h with h | h
    · obtain ⟨hmin, hmax, _⟩ := fan_result_range T src dst_size true _ r h
      exact key r (fan_result_stores T src dst_size true _ r h).1 hmin hmax
    · obtain ⟨hmin, hmax, _⟩ := quads_result_range T src dst_size true _ r h
      exact key r (quads_result_stores T src dst_size true _ r h).1 hmin hmax
  · intro r h
    exact (fan_result_stores T src dst_size true _ r h).2
  · intro r h
    exact (quads_result_stores T src dst_size true _ r h).2
  · intro hn hcap
    obtain ⟨r, hr, _⟩ := fan_bound T src dst_size true primitive_restart_index hn hcap
    rw [hr]
    simp
  · intro hcap
    obtain ⟨r, hr, _⟩ := quads_bound T src dst_size true primitive_restart_index hcap
    rw [hr]
    simp

/-! ## The non-indexed generator against the indexed expanders -/

theorem bswap16_bytes (b0 b1 : Nat) (h0 : b0 < 256) (h1 : b1 < 256) :
    bswap16 (b0 + 256 * b1) = b1 + 256 * b0 := by
  unfold bswap16
  omega

theorem bswap16_bswap16 (x : Nat) (h : x < 65536) : bswap16 (bswap16 x) = x := by
  have hx : x = x % 256 + 256 * (x / 256) := by omega
  have h0 : x % 256 < 256 := by omega
  have h1 : x / 256 < 256 := by omega
  generalize x % 256 = b0 at hx h0
  generalize x / 256 = b1 at hx h1
  rw [hx, bswap16_bytes b0 b1 h0 h1, bswap16_bytes b1 b0 h1 h0]

theorem identity_stream (count : Nat) (hc : count ≤ 65536) :
    ((List.range count).map bswap16).map (byteswap .u16) = List.range count := by
  rw [List.map_map]
  conv => rhs; rw [← List.map_id (List.range count)]
  apply List.map_congr_left
  intro i hi
  have := List.mem_range.mp hi
  exact bswap16_bswap16 i (by omega)

theorem enumFrom_flatMap_range (c : Nat) (f : Nat → List Nat)
    (hf : ∀ i, (f i).length = c) (n : Nat) :
    ((List.range n).flatMap f).length = c * n ∧
    ((List.range n).flatMap f).enumFrom 0 =
      (List.range n).flatMap (fun i => (f i).enumFrom (c * i)) := by
  induction n with
  | zero => exact ⟨rfl, rfl⟩
  | succ n ih =>
    obtain ⟨h1, h2⟩ := ih
    rw [List.range_succ, List.flatMap_append, List.flatMap_append, List.enumFrom_append, h2,
      h1, List.length_append, h1]
    simp only [List.flatMap_cons, List.flatMap_nil, List.append_nil, hf, Nat.zero_add]
    exact ⟨by ring, trivial⟩

theorem run_fan_range (count : Nat) :
    run_fan (List.range count) =
      (List.range (count - 2)).flatMap (fun k => [0, k + 1, k + 2]) := by
  unfold run_fan
  rw [List.length_range]
  apply flatMap_congr_range
  intro i hi
  have h0 : (List.range count).getD 0 0 = 0 := by
    rw [List.getD_eq_getElem _ _ (by rw [List.length_range]; omega), List.getElem_range]
  have h1 : (List.range count).getD (i + 1) 0 = i + 1 := by
    rw [List.getD_eq_getElem _ _ (by rw [List.length_range]; omega), List.getElem_range]
  have h2 : (List.range count).getD (i + 2) 0 = i + 2 := by
    rw [List.getD_eq_getElem _ _ (by rw [List.length_range]; omega), List.getElem_range]
  rw [h0, h1, h2]

theorem groups_of_four_range (m : Nat) :
    ∀ a n : Nat, n / 4 = m →
      groups_of_four (List.range' a n) =
        (List.range m).map (fun j => [a + 4 * j, a + 4 * j + 1, a + 4 * j + 2,
          a + 4 * j + 3]) := by
  induction m with
  | zero =>
    intro a n h
    apply groups_of_four_short
    rw [List.length_range']
    omega
  | succ m ih =>
    intro a n h
    obtain ⟨k, rfl⟩ : ∃ k, n = k + 4 := ⟨n - 4, by omega⟩
    have hk : k / 4 = m := by omega
    have e : List.range' a (k + 4) =
        a :: (a + 1) :: (a + 2) :: (a + 3) :: List.range' (a + 4) k := by
      simp [List.range'_succ, Nat.add_assoc]
    rw [e, groups_of_four, ih (a + 4) k hk, List.range_succ_eq_map, List.map_cons,
      List.map_map]
    congr 1
    apply List.map_congr_left
    intro j _
    simp only [Function.comp, Nat.succ_eq_add_one]
    have e0 : a + 4 + 4 * j = a + 4 * (j + 1) := by omega
    rw [e0]

theorem generator_fan_closed (count : Nat) (h2 : 2 ≤ count) (hc : count ≤ 65536) :
    (List.range ((count + 2 ^ 32 - 2) % 2 ^ 32)).foldl
      (fun st i => st ++ [((3 * i) % 2 ^ 32, 0), ((3 * i + 1) % 2 ^ 32, (i + 2 - 1) % 65536),
        ((3 * i + 2) % 2 ^ 32, (i + 2) % 65536)]) [] =
      (List.range (count - 2)).flatMap
        (fun i => [(3 * i, 0), (3 * i + 1, i + 1), (3 * i + 2, i + 2)]) := by
  have e : (count + 2 ^ 32 - 2) % 2 ^ 32 = count - 2 := by omega
  rw [e, foldl_append_flatMap, List.nil_append]
  apply flatMap_congr_range
  intro i hi
  have a0 : (3 * i) % 2 ^ 32 = 3 * i := by omega
  have a1 : (3 * i + 1) % 2 ^ 32 = 3 * i + 1 := by omega
  have a2 : (3 * i + 2) % 2 ^ 32 = 3 * i + 2 := by omega
  have v1 : (i + 2 - 1) % 65536 = i + 1 := by omega
  have v2 : (i + 2) % 65536 = i + 2 := by omega
  rw [a0, a1, a2, v1, v2]

theorem generator_quads_closed (count : Nat) (hc : count ≤ 65536) :
    write_index_array_for_non_indexed_non_native_primitive_to_buffer .quads count =
      some ((List.range (count / 4)).flatMap
        (fun i => [(6 * i, 4 * i), (6 * i + 1, 4 * i + 1), (6 * i + 2, 4 * i + 2),
          (6 * i + 3, 4 * i + 2), (6 * i + 4, 4 * i + 3), (6 * i + 5, 4 * i)])) := by
  simp only [write_index_array_for_non_indexed_non_native_primitive_to_buffer]
  rw [foldl_append_flatMap, List.nil_append]
  congr 1
  apply flatMap_congr_range
  intro i hi
  have a0 : (6 * i) % 2 ^ 32 = 6 * i := by omega
  have a1 : (6 * i + 1) % 2 ^ 32 = 6 * i + 1 := by omega
  have a2 : (6 * i + 2) % 2 ^ 32 = 6 * i + 2 := by omega
  have a3 : (6 * i + 3) % 2 ^ 32 = 6 * i + 3 := by omega
  have a4 : (6 * i + 4) % 2 ^ 32 = 6 * i + 4 := by omega
  have a5 : (6 * i + 5) % 2 ^ 32 = 6 * i + 5 := by omega
  have v0 : (4 * i) % 65536 = 4 * i := by omega
  have v1 : (4 * i + 1) % 65536 = 4 * i + 1 := by omega
  have v2 : (4 * i + 2) % 65536 = 4 * i + 2 := by omega
  have v3 : (4 * i + 3) % 65536 = 4 * i + 3 := by omega
  rw [a0, a1, a2, a3, a4, a5, v0, v1, v2, v3]

theorem flatMap_range_length {β : Type} (c : Nat) (f : Nat → List β)
    (hf : ∀ i, (f i).length = c) (n : Nat) : ((List.range n).flatMap f).length = c * n := by
  induction n with
  | zero => rfl
  | succ n ih =>
    rw [List.range_succ, List.flatMap_append, List.length_append, ih]
    simp only [List.flatMap_cons, List.flatMap_nil, List.append_nil, hf]
    ring

theorem fan_identity_stream (count dst_size ri : Nat) (h2 : 2 ≤ count) (hc : count ≤ 65535)
    (hcap : 3 * (count - 2) ≤ dst_size) :
    ∃ r, expand_indexed_triangle_fan .u16 ((List.range count).map bswap16) dst_size false ri
        = some r ∧
      r.count = 3 * (count - 2) ∧
      r.stores = (List.range (count - 2)).flatMap
        (fun i => [(3 * i, 0), (3 * i + 1, i + 1), (3 * i + 2, i + 2)]) := by
  have hlen : ((List.range count).map bswap16).length = count := by simp
  obtain ⟨r, hr, hcnt, hs⟩ := fan_eq .u16 ((List.range count).map bswap16) dst_size false ri
    (by rw [hlen]; exact h2) (by rw [hlen]; exact hcap)
    (by
      intro x hx _
      obtain ⟨i, hi, rfl⟩ := List.mem_map.mp hx
      have hi' := List.mem_range.mp hi
      show bswap16 (bswap16 i) ≠ index_limit .u16
      rw [bswap16_bswap16 i (by omega), index_limit_u16]
      omega)
  have hruns : marker_free_runs (fun v => false && v == ri) (List.range count) =
      [List.range count] := marker_free_runs_no_marker _ _ (fun _ _ => rfl)
  obtain ⟨e1, e2⟩ := enumFrom_flatMap_range 3 (fun k => [0, k + 1, k + 2]) (fun _ => rfl)
    (count - 2)
  rw [identity_stream count (by omega), hruns] at hcnt hs
  simp only [List.flatMap_cons, List.flatMap_nil, List.append_nil] at hcnt hs
  rw [fan_of_run_eq, run_fan_range] at hcnt hs
  rw [e1] at hcnt
  rw [e2] at hs
  exact ⟨r, hr, hcnt, hs⟩

theorem quads_identity_stream (count dst_size ri : Nat) (hc : count ≤ 65536)
    (hcap : 6 * count ≤ 4 * dst_size) :
    ∃ r, expand_indexed_quads .u16 ((List.range count).map bswap16) dst_size false ri
        = some r ∧
      r.count = 6 * (count / 4) ∧
      r.stores = (List.range (count / 4)).flatMap
        (fun i => [(6 * i, 4 * i), (6 * i + 1, 4 * i + 1), (6 * i + 2, 4 * i + 2),
          (6 * i + 3, 4 * i + 2), (6 * i + 4, 4 * i + 3), (6 * i + 5, 4 * i)]) := by
  have hlen : ((List.range count).map bswap16).length = count := by simp
  obtain ⟨r, hr, hcnt, hs⟩ := quads_eq .u16 ((List.range count).map bswap16) dst_size false ri
    (by rw [hlen]; exact hcap)
  have hruns : marker_free_runs (fun v => false && v == ri) (List.range count) =
      [List.range count] := marker_free_runs_no_marker _ _ (fun _ _ => rfl)
  have hg : groups_of_four (List.range count) =
      (List.range (count / 4)).map (fun j => [4 * j, 4 * j + 1, 4 * j + 2, 4 * j + 3]) := by
    rw [List.range_eq_range', groups_of_four_range (count / 4) 0 count rfl]
    apply List.map_congr_left
    intro j _
    simp only [Nat.zero_add]
  obtain ⟨e1, e2⟩ := enumFrom_flatMap_range 6
    (fun j => [4 * j, 4 * j + 1, 4 * j + 2, 4 * j + 2, 4 * j + 3, 4 * j]) (fun _ => rfl)
    (count / 4)
  unfold complete_groups at hcnt hs
  rw [identity_stream count hc, hruns] at hcnt hs
  simp only [List.flatMap_cons, List.flatMap_nil, List.append_nil] at hcnt hs
  rw [hg] at hcnt hs
  rw [List.length_map, List.length_range] at hcnt
  rw [List.flatMap_map] at hs
  have ht : (List.range (count / 4)).flatMap
      (fun j => two_triangles [4 * j, 4 * j + 1, 4 * j + 2, 4 * j + 3]) =
      (List.range (count / 4)).flatMap
        (fun j => [4 * j, 4 * j + 1, 4 * j + 2, 4 * j + 2, 4 * j + 3, 4 * j]) := rfl
  rw [ht, e2] at hs
  exact ⟨r, hr, hcnt, hs⟩

/-- C22: for every count with `2 <= count <= 65535`, on the source stream
`0, 1, ..., count - 1` (stored big-endian) with restart disabled and a destination that
passes the capacity check, the 16-bit fan expander makes exactly the stores the generator
`write_index_array_for_non_indexed_non_native_primitive_to_buffer` makes for
`triangle_fan` and for `polygon`, and the 16-bit quad expander exactly those it makes for
`quads`: the same values at the same positions `0 .. emitted - 1`, `emitted` being the
number of elements the generator writes. -/
theorem generator_matches_expanders (count dst_size restart_index : Nat)
    (h2 : 2 ≤ count) (hc : count ≤ 65535) :
    ((List.range count).map bswap16).map (byteswap .u16) = List.range count ∧
    (3 * (count - 2) ≤ dst_size →
      ∃ r st,
        expand_indexed_triangle_fan .u16 ((List.range count).map bswap16) dst_size false
          restart_index = some r ∧
        write_index_array_for_non_indexed_non_native_primitive_to_buffer .triangle_fan count
          = some st ∧
        write_index_array_for_non_indexed_non_native_primitive_to_buffer .polygon count
          = some st ∧
        r.stores = st ∧ r.count = st.length) ∧
    (6 * count ≤ 4 * dst_size →
      ∃ r st,
        expand_indexed_quads .u16 ((List.range count).map bswap16) dst_size false
          restart_index = some r ∧
        write_index_array_for_non_indexed_non_native_primitive_to_buffer .quads count
          = some st ∧
        r.stores = st ∧ r.count = st.length) := by
  refine ⟨identity_stream count (by omega), ?_, ?_⟩
  · intro hcap
    obtain ⟨r, hr, hcnt, hs⟩ := fan_identity_stream count dst_size restart_index h2 hc hcap
    refine ⟨r, _, hr, ?_, ?_, hs, ?_⟩
    · simp only [write_index_array_for_non_indexed_non_native_primitive_to_buffer]
      rw [generator_fan_closed count h2 (by omega)]
    · simp only [write_index_array_for_non_indexed_non_native_primitive_to_buffer]
      rw [generator_fan_closed count h2 (by omega)]
    · rw [hcnt, flatMap_range_length 3
        (fun i => [(3 * i, 0), (3 * i + 1, i + 1), (3 * i + 2, i + 2)]) (fun _ => rfl)]
  · intro hcap
    obtain ⟨r, hr, hcnt, hs⟩ := quads_identity_stream count dst_size restart_index
      (by omega) hcap
    refine ⟨r, _, hr, generator_quads_closed count (by omega), hs, ?_⟩
    rw [hcnt, flatMap_range_length 6
      (fun i => [(6 * i, 4 * i), (6 * i + 1, 4 * i + 1), (6 * i + 2, 4 * i + 2),
        (6 * i + 3, 4 * i + 2), (6 * i + 4, 4 * i + 3), (6 * i + 5, 4 * i)]) (fun _ => rfl)]

/-- Instance of C22: five vertices as a fan and nine as quads. -/
theorem generator_matches_expanders_witness :
    expand_indexed_triangle_fan .u16 ((List.range 5).map bswap16) 9 false 0 =
      some ⟨0, 4, 9, [(0, 0), (1, 1), (2, 2), (3, 0), (4, 2), (5, 3), (6, 0), (7, 3),
        (8, 4)]⟩ ∧
    write_index_array_for_non_indexed_non_native_primitive_to_buffer .triangle_fan 5 =
      some [(0, 0), (1, 1), (2, 2), (3, 0), (4, 2), (5, 3), (6, 0), (7, 3), (8, 4)] ∧
    ∃ r st,
      expand_indexed_quads .u16 ((List.range 9).map bswap16) 14 false 0 = some r ∧
      write_index_array_for_non_indexed_non_native_primitive_to_buffer .quads 9 = some st ∧
      r.stores = st ∧ r.count = st.length :=
  ⟨by decide, by decide,
    (generator_matches_expanders 9 14 0 (by decide) (by decide)).2.2 (by decide)⟩

end BufferUtils
